import Mathlib

/-!
# EmulatorKit `2063.c`: counter/timer bank, interrupt arbiter, memory and I/O bus

A shallow embedding of the Z80 CTC model (`ctc_interrupt`, `ctc_reti`,
`ctc_check_im2`, `ctc_tick`, `ctc_write`, `ctc_read`), of the interrupt
arbiter (`poll_irq_event`, `reti_event`), of the banked memory with its boot
overlay and RETI monitor (`map_addr`, `mem_read`, `mem_write`), of the SPI
bit-banging (`gpio_write`, `spi_clock_high`, `spi_clock_low`), of the I/O
bus (`io_read`, `io_write`) and of the ROM size check of `main` of
`src/2063.c`; and, in the namespace `VZ300`, of the memory map of
`src/vz300.c` (`mmu`, `keymatrix`, `mem_read`, `mem_write`).

Conventions.
* C globals become fields of one explicit record `Machine`, passed through
  every operation.
* `uint8_t` / `uint16_t` values are `Nat`; every store that narrows in C is
  written with an explicit `% 256` / `% 65536`.  `int` values are `Int`,
  with `toInt32` at the places where the C expression can leave the range.
* The serial controller (`z80sio.c`), the 16x50 UART and the CPU core
  (`libz80`) are not part of the translated file.  Their state is abstract
  (`σ`, `υ`), their entry points are the fields of `Devices`, and
  `Z80INT(&cpu_z80, x)` is recorded as an append of `x` to `Machine.z80int`.
* `fprintf` tracing has no effect on the state and is omitted.
* A path that ends in `exit` is the result `none` (`main_rom_check`,
  `VZ300.mem_read`, `VZ300.mem_write`) or `VZ300.MmuResult.fatal`.
-/

namespace M2063

/-! ## Constants -/

def IRQ_SIO : Nat := 1
def IRQ_CTC : Nat := 3

def CTC_IRQ : Nat := 0x80
def CTC_COUNTER : Nat := 0x40
def CTC_PRESCALER : Nat := 0x20
def CTC_RISING : Nat := 0x10
def CTC_PULSE : Nat := 0x08
def CTC_TCONST : Nat := 0x04
def CTC_RESET : Nat := 0x02
def CTC_CONTROL : Nat := 0x01

/-! ## Machine integers -/

/-- Two's complement image of a C `int` in `0 .. 2^32 - 1`. -/
def toUint32 (x : Int) : Nat := (x % 4294967296).toNat

/-- Wrap an integer into the range of a 32-bit C `int`. -/
def toInt32 (x : Int) : Int := (x + 2147483648) % 4294967296 - 2147483648

/-- Narrowing store into a `uint16_t`. -/
def toUint16 (x : Int) : Nat := (x % 65536).toNat

/-- Bitwise complement `~x` of a non-negative `int`, as its 32-bit image. -/
def bnot32 (x : Nat) : Nat := 4294967295 ^^^ x

/-! ## State -/

/-- One channel, `struct z80_ctc`. -/
structure z80_ctc where
  count : Nat
  reload : Nat
  vector : Nat
  ctrl : Nat
  irq : Nat
deriving DecidableEq, Repr

/-- Entry points of the devices that live outside `2063.c`.
`sio_check_im2` returns the C `int` result together with the controller's
next state. -/
structure Devices (σ υ : Type) where
  sio_check_im2 : σ → Int × σ
  sio_reti : σ → σ
  uart16x50_irq_pending : υ → Bool × υ

/-- The globals of `2063.c` used by the CTC and the interrupt arbiter.
`z80int` is the list of arguments of the `Z80INT` calls made so far and
`pulses` the list of arguments of the `ctc_pulse` calls made so far (the
hook has an empty body in C; the list only counts the firings). -/
structure Machine (σ υ : Type) where
  ctc : Fin 4 → z80_ctc
  ctc_irqmask : Nat
  live_irq : Nat
  int_recalc : Nat
  sio : σ
  uart : Option υ
  z80int : List Nat
  pulses : List Nat

variable {σ υ : Type}

/-- The macro `CTC_STOPPED(c)`. -/
def CTC_STOPPED (c : z80_ctc) : Bool :=
  c.ctrl &&& (CTC_TCONST ||| CTC_RESET) == (CTC_TCONST ||| CTC_RESET)

/-- The test `ctc_irqmask & (1 << i)` used throughout the file: channel
`i` has its interrupt pending. -/
def pending (s : Machine σ υ) (i : Nat) : Bool :=
  s.ctc_irqmask &&& (1 <<< i) != 0

/-- Update of one element of the array `ctc`. -/
def setCtc (s : Machine σ υ) (i : Fin 4) (c : z80_ctc) : Machine σ υ :=
  { s with ctc := Function.update s.ctc i c }

/-! ## CTC -/

/-- `recalc_interrupts`. -/
def recalc_interrupts (s : Machine σ υ) : Machine σ υ :=
  { s with int_recalc := 1 }

/-- `ctc_reset` on channel `i`. -/
def ctc_reset (i : Fin 4) (s : Machine σ υ) : Machine σ υ :=
  setCtc s i { s.ctc i with vector := 0, ctrl := CTC_RESET }

/-- `ctc_init`. -/
def ctc_init (s : Machine σ υ) : Machine σ υ :=
  ctc_reset 3 (ctc_reset 2 (ctc_reset 1 (ctc_reset 0 s)))

/-- `ctc_interrupt(ctc + i)`. -/
def ctc_interrupt (i : Fin 4) (s : Machine σ υ) : Machine σ υ :=
  if (s.ctc i).ctrl &&& CTC_IRQ ≠ 0 then
    if s.ctc_irqmask &&& (1 <<< i.val) = 0 then
      recalc_interrupts { s with ctc_irqmask := (s.ctc_irqmask ||| (1 <<< i.val)) % 256 }
    else s
  else s

/-- `ctc_reti`. -/
def ctc_reti (ctcnum : Nat) (s : Machine σ υ) : Machine σ υ :=
  if s.ctc_irqmask &&& (1 <<< ctcnum) ≠ 0 then
    { s with ctc_irqmask := (s.ctc_irqmask &&& bnot32 (1 <<< ctcnum)) % 256 }
  else s

/-- The `for` loop of `ctc_check_im2` over the remaining indices. -/
def ctc_check_im2_scan : List Nat → Machine σ υ → Nat × Machine σ υ
  | [], s => (0, s)
  | i :: rest, s =>
    if s.ctc_irqmask &&& (1 <<< i) ≠ 0 then
      let vector := ((s.ctc 0).vector &&& 0xF8) % 256
      let vector := (vector + 2 * i) % 256
      (1, { s with live_irq := (IRQ_CTC + i) % 256, z80int := s.z80int ++ [vector] })
    else ctc_check_im2_scan rest s

/-- `ctc_check_im2`: the returned number is the C result (1 or 0). -/
def ctc_check_im2 (s : Machine σ υ) : Nat × Machine σ υ :=
  if s.ctc_irqmask ≠ 0 then ctc_check_im2_scan [0, 1, 2, 3] s else (0, s)

/-- `ctc_pulse(i)`: no effect in C; the call is recorded. -/
def ctc_pulse (i : Nat) (s : Machine σ υ) : Machine σ υ :=
  { s with pulses := s.pulses ++ [i] }

/-- The amount added to `n` by one pass of the loop in `ctc_tick`. -/
def ctc_readd (c : z80_ctc) : Int :=
  if c.reload = 0 then 256 * 256 else (c.reload : Int) * 256

/-- The loop `while (n < 0) { ctc_interrupt(c); ctc_pulse(i); n += ...; }` of
`ctc_tick` for channel `i`. -/
def ctc_tick_loop (i : Fin 4) (n : Int) (s : Machine σ υ) : Int × Machine σ υ :=
  if _h : n < 0 then
    let s1 := ctc_pulse i.val (ctc_interrupt i s)
    ctc_tick_loop i (n + ctc_readd (s1.ctc i)) s1
  else (n, s)
termination_by (-n).toNat
decreasing_by
  have hpos : 0 < ctc_readd ((ctc_pulse i.val (ctc_interrupt i s)).ctc i) := by
    unfold ctc_readd
    split
    · norm_num
    · rename_i hne
      have : 0 < ((ctc_pulse i.val (ctc_interrupt i s)).ctc i).reload := Nat.pos_of_ne_zero hne
      positivity
  omega

/-- The value of `decby` in `ctc_tick`: `decby = clocks;` followed by
`if (!(c->ctrl & CTC_PRESCALER)) decby <<= 4;`. -/
def ctc_decby (clocks : Nat) (c : z80_ctc) : Int :=
  let decby := toInt32 (clocks : Int)
  if c.ctrl &&& CTC_PRESCALER = 0 then toInt32 (decby * 16) else decby

/-- The value `n = c->count - decby` with which `ctc_tick` enters its loop. -/
def ctc_tick_start (clocks : Nat) (c : z80_ctc) : Int :=
  toInt32 ((c.count : Int) - ctc_decby clocks c)

/-- The body of the `for` loop of `ctc_tick` for channel `i`. -/
def ctc_tick_chan (clocks : Nat) (i : Fin 4) (s : Machine σ υ) : Machine σ υ :=
  let c := s.ctc i
  if CTC_STOPPED c then s
  else if c.ctrl &&& CTC_COUNTER ≠ 0 then s
  else
    let n := ctc_tick_start clocks c
    let r := ctc_tick_loop i n s
    setCtc r.2 i { r.2.ctc i with count := toUint16 r.1 }

/-- `ctc_tick`. -/
def ctc_tick (clocks : Nat) (s : Machine σ υ) : Machine σ υ :=
  ctc_tick_chan clocks 3 (ctc_tick_chan clocks 2 (ctc_tick_chan clocks 1 (ctc_tick_chan clocks 0 s)))

/-- One pass of the loop of `ctc_tick`: `ctc_interrupt(c); ctc_pulse(i);`. -/
def ctc_fire (i : Fin 4) (s : Machine σ υ) : Machine σ υ :=
  ctc_pulse i.val (ctc_interrupt i s)

/-- Closed form of the number of passes of `while (n < 0) n += r;`: the
least `k` with `n + k * r ≥ 0`, that is `⌈-n / r⌉` for negative `n`. -/
def ctc_passes (n r : Int) : Nat :=
  if n < 0 then ((-n + r - 1) / r).toNat else 0

/-- Closed form of the number of passes of the loop of `ctc_tick(clocks)`
for a channel in state `c`. -/
def ctc_tick_passes (clocks : Nat) (c : z80_ctc) : Nat :=
  if CTC_STOPPED c then 0
  else if c.ctrl &&& CTC_COUNTER ≠ 0 then 0
  else ctc_passes (ctc_tick_start clocks c) (ctc_readd c)

/-- `ctc_write`. -/
def ctc_write (channel : Fin 4) (val : Nat) (s : Machine σ υ) : Machine σ υ :=
  let c := s.ctc channel
  if c.ctrl &&& CTC_TCONST ≠ 0 then
    let c := { c with reload := val }
    let c :=
      if c.ctrl &&& (CTC_TCONST ||| CTC_RESET) = (CTC_TCONST ||| CTC_RESET) then
        { c with count := toUint16 (((c.reload : Int) - 1) * 256) }
      else c
    setCtc s channel { c with ctrl := (c.ctrl &&& (bnot32 CTC_TCONST ||| CTC_RESET)) % 256 }
  else if val &&& CTC_CONTROL ≠ 0 then
    let c := { c with ctrl := val }
    let c :=
      if c.ctrl &&& (CTC_TCONST ||| CTC_RESET) = CTC_RESET then
        { c with count := toUint16 (((c.reload : Int) - 1) * 256) }
      else c
    let s := setCtc s channel c
    if c.ctrl &&& CTC_IRQ = 0 ∧ s.ctc_irqmask &&& (1 <<< channel.val) ≠ 0 then
      let s := { s with ctc_irqmask := (s.ctc_irqmask &&& bnot32 (1 <<< channel.val)) % 256 }
      if s.ctc_irqmask = 0 then
        if s.live_irq = IRQ_CTC + channel.val then { s with live_irq := 0 } else s
      else s
    else s
  else
    if channel = 0 then setCtc s channel { c with vector := val } else s

/-- `ctc_read`. -/
def ctc_read (channel : Fin 4) (s : Machine σ υ) : Nat :=
  ((s.ctc channel).count >>> 8) % 256

/-! ## Interrupt arbiter -/

/-- `Z80INT(&cpu_z80, x)`. -/
def Z80INT (x : Nat) (s : Machine σ υ) : Machine σ υ :=
  { s with z80int := s.z80int ++ [x] }

/-- `poll_irq_event`.  The local `v` is declared `unsigned`, so it holds the
32-bit image of the `int` returned by `sio_check_im2`, and the test
`v >= 0` compares that unsigned value with zero. -/
def poll_irq_event (X : Devices σ υ) (s : Machine σ υ) : Machine σ υ :=
  if s.live_irq ≠ 0 then s
  else
    let r := X.sio_check_im2 s.sio
    let v : Nat := toUint32 r.1
    let s := { s with sio := r.2 }
    if v ≥ 0 then
      Z80INT v { s with live_irq := IRQ_SIO }
    else
      let k := ctc_check_im2 s
      if k.1 = 0 then
        match k.2.uart with
        | some u =>
          let p := X.uart16x50_irq_pending u
          let s2 := { k.2 with uart := some p.2 }
          if p.1 then Z80INT 0xFF s2 else s2
        | none => k.2
      else k.2

/-- `reti_event`. -/
def reti_event (X : Devices σ υ) (s : Machine σ υ) : Machine σ υ :=
  let s1 :=
    if s.live_irq = IRQ_SIO then { s with sio := X.sio_reti s.sio }
    else if s.live_irq = IRQ_CTC ∨ s.live_irq = IRQ_CTC + 1 ∨ s.live_irq = IRQ_CTC + 2
        ∨ s.live_irq = IRQ_CTC + 3 then
      ctc_reti (s.live_irq - IRQ_CTC) s
    else s
  poll_irq_event X { s1 with live_irq := 0 }

/-! ## Concrete inputs used by the examples -/

/-- A serial controller whose state is the value its next `sio_check_im2`
returns (negative: nothing pending); `sio_reti` withdraws the request. -/
def demoDevices : Devices Int Unit where
  sio_check_im2 := fun t => (t, t)
  sio_reti := fun _ => -1
  uart16x50_irq_pending := fun u => (false, u)

/-- A channel as `ctc_reset` leaves it, with zeroed counters. -/
def demoChannel : z80_ctc := ⟨0, 0, 0, CTC_RESET, 0⟩

/-- The machine after `ctc_init`, no interrupt pending or in service, no
UART fitted, serial controller idle. -/
def demoMachine : Machine Int Unit where
  ctc := fun _ => demoChannel
  ctc_irqmask := 0
  live_irq := 0
  int_recalc := 0
  sio := -1
  uart := none
  z80int := []
  pulses := []

/-- No interrupt in service, serial controller idle, CTC channel 0 pending
with vector base 0x10. -/
def ctcPendingInput : Machine Int Unit :=
  { demoMachine with
    ctc_irqmask := 1
    ctc := fun _ => { demoChannel with vector := 0x10 } }

/-- No interrupt in service, serial controller pending with vector 0x18 and
CTC channel 0 pending. -/
def sioAndCtcInput : Machine Int Unit :=
  { demoMachine with sio := 0x18, ctc_irqmask := 1 }

/-- No interrupt in service, serial controller pending with vector 0x18. -/
def sioPendingInput : Machine Int Unit :=
  { demoMachine with sio := 0x18 }

/-- CTC channels 0 and 2 pending, channel 2 in service, serial controller
idle. -/
def ctc2LiveInput : Machine Int Unit :=
  { demoMachine with ctc_irqmask := 5, live_irq := 5 }

/-- CTC channels 1 and 2 pending, vector base 0x10 (low bits of the register
set to show that they are masked off), nothing in service. -/
def ctc12PendingInput : Machine Int Unit :=
  { demoMachine with
    ctc_irqmask := 6
    ctc := fun _ => { demoChannel with vector := 0x17 } }

/-- CTC channels 0 and 1 pending, channel 0 in service with its interrupt
enabled. -/
def ctc01PendingInput : Machine Int Unit :=
  { demoMachine with
    ctc_irqmask := 3
    live_irq := 3
    ctc := fun _ => { demoChannel with ctrl := 0x83 } }

/-- Channel 1 stopped after a control byte 0xA7 (interrupt, prescale 256,
time constant follows, reset), still holding an old count and reload. -/
def awaitingInput : Machine Int Unit :=
  { demoMachine with
    ctc := fun _ => { demoChannel with ctrl := 0xA7, count := 0x1234, reload := 5 } }

/-- Every channel holds count 0x1234 and reload 5 and is not awaiting a time
constant. -/
def loadedInput : Machine Int Unit :=
  { demoMachine with
    ctc := fun _ => { demoChannel with ctrl := 0x03, count := 0x1234, reload := 5 } }

/-! ## The board: memory, GPIO, SPI and the I/O bus

The remaining globals of `2063.c` are gathered in `Board`, which carries the
CTC and arbiter record `Machine` as its field `irq`.  The SD card, the video
controller and the joysticks live outside `2063.c`: their states are the
abstract types `δ`, `ν`, `ι` and their entry points, with those of the
serial controller and the UART, are the fields of `Peripherals`.  The flag
`cpu_z80.M1` belongs to the CPU core and is an argument of `mem_read`. -/

/-- What a pointer returned by `map_addr` designates: an index into the
array `rom` or into the array `ram`. -/
inductive Cell where
  | rom (i : Nat)
  | ram (i : Nat)
deriving DecidableEq, Repr

/-- A call made to the SD card: `sd_spi_in(sdcard, tx)`,
`sd_spi_raise_cs(sdcard)` or `sd_spi_lower_cs(sdcard)`. -/
inductive SdCall where
  | spi_in (tx : Nat)
  | raise_cs
  | lower_cs
deriving DecidableEq, Repr

/-- Entry points of the devices outside `2063.c` that the board calls, and
the table `sio_port` whose entries are macros of `z80sio.h`. -/
structure Peripherals (σ υ δ ν ι : Type) where
  irq : Devices σ υ
  sio_port : Nat → Nat
  sio_read : σ → Nat → Nat × σ
  sio_write : σ → Nat → Nat → σ
  uart16x50_read : υ → Nat → Nat × υ
  uart16x50_write : υ → Nat → Nat → υ
  sd_spi_in : δ → Nat → Nat × δ
  sd_spi_raise_cs : δ → δ
  sd_spi_lower_cs : δ → δ
  tms9918a_read : ν → Nat → Nat × ν
  tms9918a_write : ν → Nat → Nat → ν
  tms9918a_irq_pending : ν → Bool × ν
  joystick_read : ι → Nat → Nat × ι

/-- The globals of `2063.c`.  `rstate` is the `static` of `mem_read`,
`vdp = none` is the null pointer.  Two fields only record calls: `sd_log`
lists the calls made to the SD card and `retis` counts the calls of
`reti_event` made by `mem_read`. -/
structure Board (σ υ δ ν ι : Type) where
  irq : Machine σ υ
  ram : Nat → Nat
  rom : Nat → Nat
  rom_mask : Nat
  flash_in : Nat
  gpio_out : Nat
  gpio_in : Nat
  rstate : Nat
  bitcnt : Nat
  txbits : Nat
  rxbits : Nat
  sdcard : δ
  vdp : Option ν
  joy : ι
  trace : Nat
  sd_log : List SdCall
  retis : Nat

variable {δ ν ι : Type}

def VDP_J7 : Nat := 1 <<< 1

/-! ### Memory -/

/-- `map_addr`. -/
def map_addr (addr is_write : Nat) (b : Board σ υ δ ν ι) : Cell :=
  if b.flash_in ≠ 0 ∧ is_write = 0 then Cell.rom (addr &&& b.rom_mask)
  else
    let bank := if addr ≥ 0x8000 then 15 else b.gpio_out >>> 4
    Cell.ram (bank * 0x8000 + (addr &&& 0x7FFF))

/-- Read through a pointer, `*p`. -/
def load (c : Cell) (b : Board σ υ δ ν ι) : Nat :=
  match c with
  | Cell.rom i => b.rom i
  | Cell.ram i => b.ram i

/-- Write through a pointer, `*p = val`. -/
def store (c : Cell) (val : Nat) (b : Board σ υ δ ν ι) : Board σ υ δ ν ι :=
  match c with
  | Cell.rom i => { b with rom := Function.update b.rom i val }
  | Cell.ram i => { b with ram := Function.update b.ram i val }

/-- `do_mem_read`. -/
def do_mem_read (addr : Nat) (_quiet : Nat) (b : Board σ υ δ ν ι) : Nat :=
  load (map_addr addr 0 b) b

/-- `mem_write`. -/
def mem_write (addr val : Nat) (b : Board σ υ δ ν ι) : Board σ υ δ ν ι :=
  store (map_addr addr 1 b) val b

/-- The call `reti_event()` made from `mem_read`. -/
def reti_signal (X : Peripherals σ υ δ ν ι) (b : Board σ υ δ ν ι) : Board σ υ δ ν ι :=
  { b with irq := reti_event X.irq b.irq, retis := b.retis + 1 }

/-- The last three statements of `mem_read`:
`if (r == 0x4D && rstate == 1) reti_event(); rstate = 0; return r;`. -/
def mem_read_tail (X : Peripherals σ υ δ ν ι) (r : Nat) (b : Board σ υ δ ν ι) :
    Nat × Board σ υ δ ν ι :=
  let b1 := if r = 0x4D ∧ b.rstate = 1 then reti_signal X b else b
  (r, { b1 with rstate := 0 })

/-- `mem_read`; `m1` is the value of `cpu_z80.M1`. -/
def mem_read (X : Peripherals σ υ δ ν ι) (m1 : Bool) (addr : Nat) (b : Board σ υ δ ν ι) :
    Nat × Board σ υ δ ν ι :=
  let r := do_mem_read addr 0 b
  if m1 then
    if r = 0xDD ∨ r = 0xFD ∨ r = 0xCB then (r, { b with rstate := 2 })
    else if r = 0xED ∧ b.rstate = 0 then (r, { b with rstate := 1 })
    else mem_read_tail X r b
  else mem_read_tail X r b

/-! ### SPI bit-banging -/

/-- `spi_clock_high`. -/
def spi_clock_high (X : Peripherals σ υ δ ν ι) (b : Board σ υ δ ν ι) : Board σ υ δ ν ι :=
  let txbits := (b.txbits <<< 1) % 256
  let txbits := (txbits ||| (b.gpio_out &&& 1)) % 256
  let bitcnt := (b.bitcnt + 1) % 256
  let b := { b with txbits := txbits, bitcnt := bitcnt }
  if b.bitcnt = 8 then
    let r := X.sd_spi_in b.sdcard b.txbits
    { b with rxbits := r.1 % 256, sdcard := r.2,
             sd_log := b.sd_log ++ [SdCall.spi_in b.txbits], bitcnt := 0 }
  else b

/-- `spi_clock_low`. -/
def spi_clock_low (b : Board σ υ δ ν ι) : Board σ υ δ ν ι :=
  let gpio_in := (b.gpio_in &&& 0x7F) % 256
  let gpio_in := (gpio_in ||| (b.rxbits &&& 0x80)) % 256
  let rxbits := (b.rxbits <<< 1) % 256
  let rxbits := (rxbits ||| 1) % 256
  { b with gpio_in := gpio_in, rxbits := rxbits }

/-- `gpio_write`. -/
def gpio_write (X : Peripherals σ υ δ ν ι) (_addr : Nat) (val : Nat) (b : Board σ υ δ ν ι) :
    Board σ υ δ ν ι :=
  let delta := (b.gpio_out ^^^ val) % 256
  let b := { b with gpio_out := val }
  let b :=
    if delta &&& 4 ≠ 0 then
      if b.gpio_out &&& 4 ≠ 0 then
        { b with sdcard := X.sd_spi_raise_cs b.sdcard, sd_log := b.sd_log ++ [SdCall.raise_cs] }
      else
        { b with sdcard := X.sd_spi_lower_cs b.sdcard, sd_log := b.sd_log ++ [SdCall.lower_cs],
                 bitcnt := 0 }
    else b
  if delta &&& 2 ≠ 0 then
    if b.gpio_out &&& 2 ≠ 0 then spi_clock_high X b else spi_clock_low b
  else b

/-! ### The I/O bus -/

/-- The channel number `addr & 3` as an index into `ctc`. -/
def ctc_channel (addr : Nat) : Fin 4 :=
  ⟨addr &&& 3, Nat.lt_succ_of_le Nat.and_le_right⟩

/-- `io_read`: the byte returned and the state after the access. -/
def io_read (X : Peripherals σ υ δ ν ι) (port : Nat) (b : Board σ υ δ ν ι) :
    Nat × Board σ υ δ ν ι :=
  let addr := port &&& 0xFF
  let pullup : Nat × Board σ υ δ ν ι := (0xFF, b)
  if addr &&& 0xF0 = 0x00 then (b.gpio_in, b)
  else if addr &&& 0xF0 = 0x30 then
    let r := X.sio_read b.irq.sio (X.sio_port (addr &&& 3))
    (r.1 % 256, { b with irq := { b.irq with sio := r.2 } })
  else if addr &&& 0xF0 = 0x40 then (ctc_read (ctc_channel addr) b.irq, b)
  else if addr &&& 0xF0 = 0x50 then
    match b.irq.uart with
    | some u =>
      if addr &&& 8 ≠ 0 then
        let r := X.uart16x50_read u (addr &&& 7)
        (r.1 % 256, { b with irq := { b.irq with uart := some r.2 } })
      else pullup
    | none => pullup
  else if addr &&& 0xF0 = 0x70 then (0xFF, { b with flash_in := 0 })
  else if addr &&& 0xF0 = 0x80 then
    match b.vdp with
    | some v =>
      let r := X.tms9918a_read v (addr &&& 1)
      (r.1 % 256, { b with vdp := some r.2 })
    | none => pullup
  else if addr &&& 0xF0 = 0xA0 then
    match b.vdp with
    | some v =>
      if addr = 0xA8 then
        let j := X.joystick_read b.joy 0
        let joy0port := j.1 % 256
        let p := X.tms9918a_irq_pending v
        let joy0port := if p.1 then (joy0port &&& bnot32 VDP_J7) % 256 else joy0port
        (joy0port, { b with joy := j.2, vdp := some p.2 })
      else if addr = 0xA9 then
        let j := X.joystick_read b.joy 1
        (j.1 % 256, { b with joy := j.2 })
      else pullup
    | none => pullup
  else pullup

/-- The statements of `io_write` after its `switch`: the two trace ports. -/
def io_write_tail (addr val : Nat) (b : Board σ υ δ ν ι) : Board σ υ δ ν ι :=
  if addr = 0xFD then { b with trace := (b.trace &&& 0xFF00) ||| val }
  else if addr = 0xFE then { b with trace := (b.trace &&& 0xFF) ||| (val <<< 8) }
  else b

/-- `io_write`. -/
def io_write (X : Peripherals σ υ δ ν ι) (port val : Nat) (b : Board σ υ δ ν ι) :
    Board σ υ δ ν ι :=
  let addr := port &&& 0xFF
  if addr &&& 0xF0 = 0x10 then gpio_write X addr val b
  else if addr &&& 0xF0 = 0x20 then io_write_tail addr val b
  else if addr &&& 0xF0 = 0x30 then
    { b with irq := { b.irq with sio := X.sio_write b.irq.sio (X.sio_port (addr &&& 3)) val } }
  else if addr &&& 0xF0 = 0x40 then { b with irq := ctc_write (ctc_channel addr) val b.irq }
  else if addr &&& 0xF0 = 0x50 then
    match b.irq.uart with
    | some u =>
      if addr &&& 8 ≠ 0 then
        { b with irq := { b.irq with uart := some (X.uart16x50_write u (addr &&& 7) val) } }
      else io_write_tail addr val b
    | none => io_write_tail addr val b
  else if addr &&& 0xF0 = 0x80 then
    match b.vdp with
    | some v => { b with vdp := some (X.tms9918a_write v (addr &&& 1) val) }
    | none => io_write_tail addr val b
  else io_write_tail addr val b

/-- A sequence of writes to the GPIO output port, first element first. -/
def gpio_writes (X : Peripherals σ υ δ ν ι) (ws : List Nat) (b : Board σ υ δ ν ι) :
    Board σ υ δ ν ι :=
  ws.foldl (fun s w => gpio_write X 0x10 w s) b

/-- The bytes handed to `sd_spi_in` among the calls made to the SD card. -/
def exchanges : List SdCall → List Nat
  | [] => []
  | SdCall.spi_in tx :: rest => tx :: exchanges rest
  | SdCall.raise_cs :: rest => exchanges rest
  | SdCall.lower_cs :: rest => exchanges rest

/-- The number of high-to-low transitions of the clock bit (bit 1) when the
bytes `ws` are written in turn to a GPIO output port that holds `g`. -/
def falling_edges : Nat → List Nat → Nat
  | _, [] => 0
  | g, w :: ws => (if g &&& 2 ≠ 0 ∧ w &&& 2 = 0 then 1 else 0) + falling_edges w ws

/-- The byte assembled from bits shifted in most significant first. -/
def msb_first (bits : List Nat) : Nat :=
  bits.foldl (fun acc x => 2 * acc + x) 0

/-- Devices for the examples: the SD card answers each exchange with the
byte it was sent in the previous one; the other devices return zero. -/
def demoPeripherals : Peripherals Int Unit Nat Unit Unit where
  irq := demoDevices
  sio_port := fun n => n
  sio_read := fun t _ => (0, t)
  sio_write := fun t _ _ => t
  uart16x50_read := fun u _ => (0, u)
  uart16x50_write := fun u _ _ => u
  sd_spi_in := fun d tx => (d, tx)
  sd_spi_raise_cs := fun d => d
  sd_spi_lower_cs := fun d => d
  tms9918a_read := fun v _ => (0, v)
  tms9918a_write := fun v _ _ => v
  tms9918a_irq_pending := fun v => (false, v)
  joystick_read := fun j _ => (0, j)

/-- The board after start-up with a 16 KiB ROM image filled with 0xAA, RAM
filled with 0x55, boot overlay active, no video controller and no UART. -/
def demoBoard : Board Int Unit Nat Unit Unit where
  irq := demoMachine
  ram := fun _ => 0x55
  rom := fun _ => 0xAA
  rom_mask := 0x3FFF
  flash_in := 1
  gpio_out := 0
  gpio_in := 0xFF
  rstate := 0
  bitcnt := 0
  txbits := 0
  rxbits := 0
  sdcard := 0
  vdp := none
  joy := ()
  trace := 0
  sd_log := []
  retis := 0

/-- The ports on which a read finds no device: unmapped for reads (high
nibble 0x1, 0x2, 0x6, 0x9, 0xB to 0xF, and 0xA0 to 0xA7, 0xAA to 0xAF), or an
optional device that is absent (0x5x without UART or with address bit 3
clear; 0x8x, 0xA8, 0xA9 without video controller). -/
def read_pulled_up (port : Nat) (b : Board σ υ δ ν ι) : Bool :=
  let addr := port &&& 0xFF
  let hi := addr &&& 0xF0
  hi == 0x10 || hi == 0x20 || hi == 0x60 || hi == 0x90 || hi == 0xB0 || hi == 0xC0
    || hi == 0xD0 || hi == 0xE0 || hi == 0xF0
    || (hi == 0xA0 && addr != 0xA8 && addr != 0xA9)
    || (hi == 0x50 && (b.irq.uart.isNone || addr &&& 8 == 0))
    || ((hi == 0x80 || addr == 0xA8 || addr == 0xA9) && b.vdp.isNone)

/-- A sequence of clock cycles driven through the GPIO output port: for each
pair the write of its first byte, then the write of its second byte. -/
def spi_cycles (X : Peripherals σ υ δ ν ι) (ws : List (Nat × Nat)) (b : Board σ υ δ ν ι) :
    Board σ υ δ ν ι :=
  ws.foldl (fun s w => gpio_write X 0x10 w.2 (gpio_write X 0x10 w.1 s)) b

/-- The value of `rxbits` after `k` calls of `spi_clock_low`, from `r`. -/
def rx_after (r : Nat) : Nat → Nat
  | 0 => r
  | k + 1 => ((rx_after r k <<< 1) % 256 ||| 1) % 256

/-- The chip-select part of `gpio_write`, by comparison of bit 2 of the old
value `g` and the new value `v` of `gpio_out`. -/
def cs_edge (X : Peripherals σ υ δ ν ι) (g v : Nat) (b : Board σ υ δ ν ι) : Board σ υ δ ν ι :=
  if g &&& 4 ≠ v &&& 4 then
    if v &&& 4 ≠ 0 then
      { b with sdcard := X.sd_spi_raise_cs b.sdcard, sd_log := b.sd_log ++ [SdCall.raise_cs] }
    else
      { b with sdcard := X.sd_spi_lower_cs b.sdcard, sd_log := b.sd_log ++ [SdCall.lower_cs],
               bitcnt := 0 }
  else b

/-- The clock part of `gpio_write`, by comparison of bit 1 of the old value
`g` and the new value `v` of `gpio_out`. -/
def clk_edge (X : Peripherals σ υ δ ν ι) (g v : Nat) (b : Board σ υ δ ν ι) : Board σ υ δ ν ι :=
  if g &&& 2 ≠ v &&& 2 then
    if v &&& 2 ≠ 0 then spi_clock_high X b else spi_clock_low b
  else b

/-- The accumulator after the bits `bits` have been shifted in from the
right, one `x <<= 1; x |= bit` step each, without truncation. -/
def shift_in (acc : Nat) (bits : List Nat) : Nat :=
  bits.foldl (fun a x => 2 * a + x) acc

/-- The state of the SPI transfer `f` falling clock edges after an exchange
that returned `R`, with `L` the bytes exchanged so far and `g0` the value of
`gpio_in` at the exchange: no further exchange, `rxbits` shifted `f` times,
bits 6..0 of `gpio_in` untouched, bit 7 showing the bit shifted out last, and
at most `f` rising edges counted (one fewer while the clock is low). -/
def spi_inv (L : List Nat) (R g0 : Nat) (s : Board σ υ δ ν ι) (f : Nat) : Prop :=
  exchanges s.sd_log = L ∧ s.rxbits = rx_after R f ∧ s.gpio_in &&& 0x7F = g0 &&& 0x7F
  ∧ (0 < f → s.gpio_in &&& 0x80 = rx_after R (f - 1) &&& 0x80)
  ∧ s.bitcnt + (if s.gpio_out &&& 2 = 0 then 1 else 0) ≤ f

/-- Eight clock cycles sending 0xA5 = 10100101: the rising writes carry the
data bit in bit 0, the falling writes keep it. -/
def demoCycles : List (Nat × Nat) :=
  [(3, 1), (2, 0), (3, 1), (2, 0), (2, 0), (3, 1), (2, 0)]

/-- The board right after an exchange in which the SD card answered 0xA5:
bit counter 0, clock high. -/
def exchangedBoard : Board Int Unit Nat Unit Unit :=
  { demoBoard with rxbits := 0xA5, gpio_out := 0x02 }

/-- RAM holding the two bytes ED 4D (the instruction RETI) at address 0,
boot overlay off, monitor idle. -/
def retiBoard : Board Int Unit Nat Unit Unit :=
  { demoBoard with
    flash_in := 0
    ram := fun i => if i = 0 then 0xED else if i = 1 then 0x4D else 0 }

/-- RAM holding DD ED 4D at address 0, boot overlay off, monitor left in
state 1 by an earlier ED. -/
def leadByteBoard : Board Int Unit Nat Unit Unit :=
  { demoBoard with
    flash_in := 0
    rstate := 1
    ram := fun i => if i = 0 then 0xDD else if i = 1 then 0xED else if i = 2 then 0x4D else 0 }

/-! ## Start-up: the ROM image -/

/-- The ROM size check of `main`: `rsize = read(fd, rom, sizeof(rom));`
followed by `if (rsize == 0 || (rsize & (rsize - 1))) { ...; exit(EXIT_FAILURE); }`
and `rom_mask = rsize - 1;`.  The argument is the `ssize_t` returned by
`read` (`-1` for a failed read); `rsize` is `unsigned`, `rom_mask` is
`uint16_t`.  The result is `none` when `main` leaves through
`exit(EXIT_FAILURE)` and the stored `rom_mask` otherwise. -/
def main_rom_check (r : Int) : Option Nat :=
  let rsize := toUint32 r
  let pred := (rsize + 4294967295) % 4294967296
  if rsize = 0 ∨ rsize &&& pred ≠ 0 then none
  else some (pred % 65536)

/-! ## Array bounds -/

/-- The pointer returned by `map_addr` lies inside the array it points
into, `static uint8_t ram[16 * 32768]` or `static uint8_t rom[65536]`. -/
def in_array (c : Cell) : Bool :=
  match c with
  | Cell.rom i => decide (i < 65536)
  | Cell.ram i => decide (i < 16 * 32768)

/-! ## Reachable states of the CTC and the arbiter -/

/-- The states reached from `ctc_init` (entered with no interrupt pending)
by calls of `ctc_write`, `ctc_tick`, `poll_irq_event` and `reti_event`. -/
inductive Reachable (X : Devices σ υ) : Machine σ υ → Prop
  | init (s : Machine σ υ) (h : s.ctc_irqmask = 0) : Reachable X (ctc_init s)
  | write (s : Machine σ υ) (ch : Fin 4) (val : Nat) (h : Reachable X s) :
      Reachable X (ctc_write ch val s)
  | tick (s : Machine σ υ) (clocks : Nat) (h : Reachable X s) : Reachable X (ctc_tick clocks s)
  | poll (s : Machine σ υ) (h : Reachable X s) : Reachable X (poll_irq_event X s)
  | reti (s : Machine σ υ) (h : Reachable X s) : Reachable X (reti_event X s)

/-! ## The VZ300 memory map (`vz300.c`) -/

namespace VZ300

/-- The three ways `mmu` can end: the process leaves through `exit(1)`,
the function returns `NULL`, or it returns the pointer `mem + i`. -/
inductive MmuResult where
  | fatal
  | null
  | cell (i : Nat)
deriving DecidableEq, Repr

/-- The globals of `vz300.c` read by the memory functions.  `sd = none` is
the null pointer (no SD loader); `matrix` is the keyboard, whose type
lives outside the file. -/
structure State (δ κ : Type) where
  mem : Nat → Nat
  bank : Nat
  latch : Nat
  vzcompat : Nat
  machine : Nat
  sd : Option δ
  matrix : κ

variable {δ κ : Type}

/-- `mmu`. -/
def mmu (addr : Nat) (write : Bool) (s : State δ κ) : MmuResult :=
  if addr < 0x4000 then
    if write then MmuResult.null else MmuResult.cell addr
  else if addr < 0x6800 then
    if (s.sd.isNone ∨ s.bank &&& 1 = 0) ∧ write = false then
      MmuResult.cell (65536 + (addr &&& 0x3FFF))
    else if s.bank &&& 2 = 0 then MmuResult.cell addr
    else MmuResult.cell (65536 + addr)
  else if addr < 0x6FFF then MmuResult.fatal
  else if s.sd.isSome then
    if addr < (if s.vzcompat &&& 1 ≠ 0 then 0xB800 else 0x9000) then MmuResult.cell addr
    else if s.bank &&& 4 ≠ 0 then MmuResult.cell (65536 + addr)
    else MmuResult.cell addr
  else if s.machine = 2 ∧ addr < 0x9000 then MmuResult.cell addr
  else if s.machine = 3 ∧ addr < 0xB800 then MmuResult.cell addr
  else MmuResult.null

/-- `keymatrix`; its parameter is a `uint8_t`, and `keymatrix_input` is
the entry point of the keyboard module, taken with its arguments and result
as 32-bit images. -/
def keymatrix (keymatrix_input : κ → Nat → Nat) (addr : Nat) (s : State δ κ) : Nat :=
  bnot32 (keymatrix_input s.matrix (bnot32 ((addr % 256) &&& 0xFF)) % 4294967296) % 256

/-- `mem_read`; `none` when the process has left through `exit(1)`. -/
def mem_read (keymatrix_input : κ → Nat → Nat) (addr : Nat) (s : State δ κ) : Option Nat :=
  if addr ≥ 0x6800 ∧ addr ≤ 0x6FFF then some (keymatrix keymatrix_input addr s)
  else
    match mmu addr false s with
    | MmuResult.fatal => none
    | MmuResult.null => some 0xFF
    | MmuResult.cell i => some (s.mem i)

/-- `mem_write`; `none` when the process has left through `exit(1)`. -/
def mem_write (addr val : Nat) (s : State δ κ) : Option (State δ κ) :=
  if addr ≥ 0x6800 ∧ addr ≤ 0x6FFF then some { s with latch := val }
  else
    match mmu addr true s with
    | MmuResult.fatal => none
    | MmuResult.null => some s
    | MmuResult.cell i => some { s with mem := Function.update s.mem i val }

end VZ300

/-- The property kept by the CTC: a channel is pending only if its
interrupt-enable bit is set, and the pending mask `ctc_irqmask` has no bit
above the four channel bits. -/
def ctc_invariant (s : Machine σ υ) : Prop :=
  (∀ i : Fin 4, pending s i.val = true → (s.ctc i).ctrl &&& CTC_IRQ ≠ 0)
  ∧ s.ctc_irqmask < 16

/-- A VZ300 with the SD loader absent, bank 0 and an empty latch. -/
def vzDemo : VZ300.State Unit Unit where
  mem := fun _ => 0
  bank := 0
  latch := 0
  vzcompat := 0
  machine := 3
  sd := none
  matrix := ()

/-- Every channel runs as a timer at prescale 256 with its interrupt
enabled (control byte 0xA1), count 0x0300 and reload 2. -/
def runningInput : Machine Int Unit :=
  { demoMachine with
    ctc := fun _ => { demoChannel with ctrl := 0xA1, count := 0x0300, reload := 2 } }

/-- The state after `ctc_init`, the control byte 0x85 (interrupt, time
constant follows) and the time constant 1 for channel 0, and 300 clocks. -/
def reachedInput : Machine Int Unit :=
  ctc_tick 300 (ctc_write 0 1 (ctc_write 0 0x85 (ctc_init demoMachine)))

/-! ## Bit-level facts -/

theorem land_one_shiftLeft_eq_zero_iff (m i : Nat) :
    m &&& (1 <<< i) = 0 ↔ m.testBit i = false := by
  rw [Nat.one_shiftLeft]
  constructor
  · intro h
    have h1 : (m &&& 2 ^ i).testBit i = false := by rw [h]; exact Nat.zero_testBit i
    simpa [Nat.testBit_two_pow_self] using h1
  · intro h
    apply Nat.eq_of_testBit_eq
    intro j
    by_cases hij : i = j
    · subst hij; simp [h]
    · simp [Nat.testBit_two_pow_of_ne hij]

theorem pending_eq_testBit (s : Machine σ υ) (i : Nat) :
    pending s i = s.ctc_irqmask.testBit i := by
  unfold pending
  cases hb : s.ctc_irqmask.testBit i
  · have := (land_one_shiftLeft_eq_zero_iff s.ctc_irqmask i).2 hb
    simp [this]
  · have : s.ctc_irqmask &&& (1 <<< i) ≠ 0 := by
      intro h0
      have := (land_one_shiftLeft_eq_zero_iff s.ctc_irqmask i).1 h0
      simp [hb] at this
    simpa using this

theorem testBit_clear_bit (m i j : Nat) :
    ((m &&& bnot32 (1 <<< i)) % 256).testBit j
      = (decide (j < 8) && (m.testBit j && !decide (i = j))) := by
  have h32 : (4294967295 : Nat) = 2 ^ 32 - 1 := by norm_num
  have h256 : (256 : Nat) = 2 ^ 8 := by norm_num
  unfold bnot32
  rw [h256, Nat.testBit_mod_two_pow, Nat.testBit_and, Nat.testBit_xor, h32,
    Nat.testBit_two_pow_sub_one, Nat.one_shiftLeft, Nat.testBit_two_pow]
  by_cases h8 : j < 8
  · by_cases hij : i = j
    · have : j < 32 := by omega
      simp [h8, hij, this]
    · have : j < 32 := by omega
      simp [h8, hij, this]
  · simp [h8]

theorem pending_false_iff (s : Machine σ υ) (i : Nat) :
    pending s i = false ↔ s.ctc_irqmask &&& (1 <<< i) = 0 := by
  simp [pending]

theorem pending_true_iff (s : Machine σ υ) (i : Nat) :
    pending s i = true ↔ s.ctc_irqmask &&& (1 <<< i) ≠ 0 := by
  simp [pending]

set_option maxRecDepth 100000 in
theorem ctc_vector_bits : ∀ x : Fin 249, x.val &&& 0xF8 = x.val → ∀ i : Fin 4,
    (x.val + 2 * i.val) % 2 = 0 ∧ (x.val + 2 * i.val) &&& 0xF8 = x.val
      ∧ ((x.val + 2 * i.val) >>> 1) &&& 3 = i.val := by
  decide

theorem land_F8_le (x : Nat) : x &&& 0xF8 ≤ 0xF8 := Nat.and_le_right

theorem land_F8_idem (x : Nat) : (x &&& 0xF8) &&& 0xF8 = x &&& 0xF8 := by
  rw [Nat.and_assoc, Nat.and_self]

/-! ## The interrupt arbiter -/

/-- What `poll_irq_event` does when no interrupt is in service: the test
`v >= 0` on the unsigned `v` always succeeds, so the serial branch runs. -/
theorem poll_irq_event_idle (X : Devices σ υ) (s : Machine σ υ) (h : s.live_irq = 0) :
    poll_irq_event X s =
      { s with sio := (X.sio_check_im2 s.sio).2, live_irq := IRQ_SIO,
               z80int := s.z80int ++ [toUint32 (X.sio_check_im2 s.sio).1] } := by
  simp [poll_irq_event, h, Z80INT]

theorem poll_irq_event_live (X : Devices σ υ) (s : Machine σ υ) (h : s.live_irq ≠ 0) :
    poll_irq_event X s = s := by
  simp [poll_irq_event, h]

theorem toUint32_of_nonneg (v : Int) (h0 : 0 ≤ v) (h1 : v < 4294967296) :
    toUint32 v = v.toNat := by
  unfold toUint32
  rw [Int.emod_eq_of_lt h0 h1]

/-- C1 (evaluation of the code at the failing input): no interrupt is in
service, the serial controller answers -1 (nothing pending) and CTC channel 0
is pending, yet `poll_irq_event` records the serial controller as the live
source and hands the 32-bit image of -1 to `Z80INT`; the CTC scan is not run,
so `live_irq` is not `IRQ_CTC + 0` and the CTC vector 0x10 is not injected. -/
theorem poll_irq_event_ctc_pending_takes_sio :
    ctcPendingInput.live_irq = 0
    ∧ (demoDevices.sio_check_im2 ctcPendingInput.sio).1 = -1
    ∧ pending ctcPendingInput 0 = true
    ∧ (poll_irq_event demoDevices ctcPendingInput).live_irq = IRQ_SIO
    ∧ (poll_irq_event demoDevices ctcPendingInput).live_irq ≠ IRQ_CTC + 0
    ∧ (poll_irq_event demoDevices ctcPendingInput).z80int = [4294967295] := by
  refine ⟨rfl, rfl, by decide, ?_, ?_, ?_⟩
  · rw [poll_irq_event_idle _ _ rfl]
  · rw [poll_irq_event_idle _ _ rfl]; decide
  · rw [poll_irq_event_idle _ _ rfl]; decide

/-- C2: with no interrupt in service, the serial controller reporting the
pending vector `v` and CTC channel 0 pending, `poll_irq_event` makes the
serial controller the live source and injects exactly one vector, `v`; the
CTC state is untouched, so channel 0 stays pending and its vector is not
injected. -/
theorem poll_irq_event_sio_before_ctc0 (X : Devices σ υ) (s : Machine σ υ) (v : Int)
    (hlive : s.live_irq = 0) (hv : (X.sio_check_im2 s.sio).1 = v)
    (h0 : 0 ≤ v) (h1 : v < 2147483648) (hc : pending s 0 = true) :
    (poll_irq_event X s).live_irq = IRQ_SIO
    ∧ (poll_irq_event X s).z80int = s.z80int ++ [v.toNat]
    ∧ (poll_irq_event X s).ctc = s.ctc
    ∧ (poll_irq_event X s).ctc_irqmask = s.ctc_irqmask
    ∧ pending (poll_irq_event X s) 0 = true := by
  rw [poll_irq_event_idle X s hlive, hv, toUint32_of_nonneg v h0 (by omega)]
  exact ⟨rfl, rfl, rfl, rfl, hc⟩

/-- Instance: serial vector 0x18 and CTC channel 0 pending together; the serial
controller wins and 0x18 is the only vector injected. -/
theorem poll_irq_event_sio_before_ctc0_witness :
    sioAndCtcInput.live_irq = 0
    ∧ pending sioAndCtcInput 0 = true
    ∧ (poll_irq_event demoDevices sioAndCtcInput).live_irq
        = IRQ_SIO
    ∧ (poll_irq_event demoDevices sioAndCtcInput).z80int
        = [0x18] :=
  have h := poll_irq_event_sio_before_ctc0 demoDevices
    sioAndCtcInput 0x18 rfl rfl (by decide) (by decide)
    (by decide)
  ⟨rfl, by decide, h.1, h.2.1⟩

/-- C3: while an interrupt is in service (`live_irq` non-zero)
`poll_irq_event` returns the state unchanged, so it injects nothing; hence
when a poll has left a live source, polling again before `reti_event`
changes neither `live_irq` nor the list of injected vectors. -/
theorem poll_irq_event_noop_while_live (X : Devices σ υ) (s : Machine σ υ)
    (h : s.live_irq ≠ 0) :
    poll_irq_event X s = s
    ∧ ∀ s0 : Machine σ υ, poll_irq_event X s0 = s →
        poll_irq_event X (poll_irq_event X s0) = poll_irq_event X s0
        ∧ (poll_irq_event X (poll_irq_event X s0)).live_irq = (poll_irq_event X s0).live_irq
        ∧ (poll_irq_event X (poll_irq_event X s0)).z80int = (poll_irq_event X s0).z80int := by
  refine ⟨poll_irq_event_live X s h, ?_⟩
  intro s0 hs0
  have h2 : poll_irq_event X (poll_irq_event X s0) = poll_irq_event X s0 := by
    rw [hs0]; exact poll_irq_event_live X s h
  exact ⟨h2, by rw [h2], by rw [h2]⟩

/-- Instance: after a poll that made the serial controller live, a second poll
returns the same state. -/
theorem poll_irq_event_noop_while_live_witness :
    (poll_irq_event demoDevices sioPendingInput).live_irq ≠ 0
    ∧ poll_irq_event demoDevices (poll_irq_event demoDevices sioPendingInput)
        = poll_irq_event demoDevices sioPendingInput :=
  have hl : (poll_irq_event demoDevices sioPendingInput).live_irq ≠ 0 := by
    rw [poll_irq_event_idle _ _ rfl]; decide
  ⟨hl, ((poll_irq_event_noop_while_live demoDevices
      (poll_irq_event demoDevices sioPendingInput) hl).2
      sioPendingInput rfl).1⟩

theorem ctc_reti_mask_testBit (s : Machine σ υ) (i j : Nat) (hm : s.ctc_irqmask < 256) :
    (ctc_reti i s).ctc_irqmask.testBit j
      = (s.ctc_irqmask.testBit j && !decide (i = j)) := by
  unfold ctc_reti
  by_cases hp : s.ctc_irqmask &&& (1 <<< i) = 0
  · have hb := (land_one_shiftLeft_eq_zero_iff _ _).1 hp
    by_cases hij : i = j
    · subst hij; simp [hp, hb]
    · simp [hp, hij]
  · simp only [ne_eq, hp, not_false_eq_true, if_true]
    rw [testBit_clear_bit]
    by_cases h8 : j < 8
    · simp [h8]
    · have : s.ctc_irqmask.testBit j = false := by
        apply Nat.testBit_lt_two_pow
        calc s.ctc_irqmask < 256 := hm
          _ = 2 ^ 8 := by norm_num
          _ ≤ 2 ^ j := Nat.pow_le_pow_right (by norm_num) (by omega)
      simp [h8, this]

/-- C4: with CTC channel `i` in service, `reti_event` clears the pending bit
of channel `i` and of no other channel, sets `live_irq` to 0 and polls: its
result is `poll_irq_event` run on the state whose pending mask `m` is the
old mask with bit `i` removed and whose `live_irq` is 0, so the final state
and the injected vectors are those of that poll. -/
theorem reti_event_ctc_channel (X : Devices σ υ) (s : Machine σ υ) (i : Fin 4)
    (hm : s.ctc_irqmask < 256) (h : s.live_irq = IRQ_CTC + i.val) :
    ∃ m : Nat,
      (∀ j : Nat, m.testBit j = (s.ctc_irqmask.testBit j && !decide (i.val = j)))
      ∧ pending { s with ctc_irqmask := m, live_irq := 0 } i.val = false
      ∧ (∀ j : Fin 4, j ≠ i →
          pending { s with ctc_irqmask := m, live_irq := 0 } j.val = pending s j.val)
      ∧ reti_event X s = poll_irq_event X { s with ctc_irqmask := m, live_irq := 0 } := by
  refine ⟨(ctc_reti i.val s).ctc_irqmask, fun j => ctc_reti_mask_testBit s i.val j hm, ?_, ?_, ?_⟩
  · rw [pending_eq_testBit]
    simp [ctc_reti_mask_testBit s i.val i.val hm]
  · intro j hj
    have hne : ¬ i.val = j.val := fun e => hj (Fin.ext e.symm)
    rw [pending_eq_testBit, pending_eq_testBit]
    simp [ctc_reti_mask_testBit s i.val j.val hm, hne]
  · have h1 : s.live_irq ≠ IRQ_SIO := by
      have := i.isLt
      simp only [IRQ_CTC, IRQ_SIO] at *
      omega
    have h2 : s.live_irq = IRQ_CTC ∨ s.live_irq = IRQ_CTC + 1 ∨ s.live_irq = IRQ_CTC + 2
        ∨ s.live_irq = IRQ_CTC + 3 := by
      have := i.isLt
      simp only [IRQ_CTC] at *
      omega
    have h3 : s.live_irq - IRQ_CTC = i.val := by
      simp only [IRQ_CTC] at *
      omega
    unfold reti_event
    simp only [h1, if_false, h2, if_true, h3]
    congr 1
    unfold ctc_reti
    split <;> rfl

/-- Instance: channels 0 and 2 pending, channel 2 in service. -/
theorem reti_event_ctc_channel_witness :
    ctc2LiveInput.ctc_irqmask < 256 ∧ ctc2LiveInput.live_irq = IRQ_CTC + (2 : Fin 4).val
    ∧ ∃ m : Nat,
      (∀ j : Nat, m.testBit j
          = (ctc2LiveInput.ctc_irqmask.testBit j && !decide ((2 : Fin 4).val = j)))
      ∧ pending { ctc2LiveInput with ctc_irqmask := m, live_irq := 0 } (2 : Fin 4).val = false
      ∧ (∀ j : Fin 4, j ≠ 2 →
          pending { ctc2LiveInput with ctc_irqmask := m, live_irq := 0 } j.val
            = pending ctc2LiveInput j.val)
      ∧ reti_event demoDevices ctc2LiveInput
          = poll_irq_event demoDevices { ctc2LiveInput with ctc_irqmask := m, live_irq := 0 } :=
  ⟨by decide, by decide,
    reti_event_ctc_channel demoDevices ctc2LiveInput 2 (by decide) (by decide)⟩

/-! ## The CTC scan -/

theorem ctc_vector_facts (x : Nat) (i : Fin 4) :
    (x &&& 0xF8) + 2 * i.val < 256
    ∧ ((x &&& 0xF8) + 2 * i.val) % 2 = 0
    ∧ ((x &&& 0xF8) + 2 * i.val) &&& 0xF8 = x &&& 0xF8
    ∧ (((x &&& 0xF8) + 2 * i.val) >>> 1) &&& 3 = i.val := by
  have hle := land_F8_le x
  have hid := land_F8_idem x
  have hb := ctc_vector_bits ⟨x &&& 0xF8, by omega⟩ hid i
  have := i.isLt
  exact ⟨by omega, hb.1, hb.2.1, hb.2.2⟩

theorem ctc_check_im2_scan_hit (s : Machine σ υ) (i : Fin 4)
    (hi : pending s i.val = true) (hlow : ∀ j : Fin 4, j < i → pending s j.val = false) :
    ctc_check_im2 s
      = (1, { s with live_irq := IRQ_CTC + i.val,
                     z80int := s.z80int ++ [((s.ctc 0).vector &&& 0xF8) + 2 * i.val] }) := by
  have hv := (ctc_vector_facts (s.ctc 0).vector i).1
  have hx : (s.ctc 0).vector &&& 0xF8 < 256 := by omega
  have hi1 := (pending_true_iff s i.val).1 hi
  have hne : s.ctc_irqmask ≠ 0 := by
    intro h0
    rw [h0] at hi1
    simp at hi1
  have hlow1 : ∀ j : Fin 4, j < i → s.ctc_irqmask &&& (1 <<< j.val) = 0 :=
    fun j hj => (pending_false_iff s j.val).1 (hlow j hj)
  unfold ctc_check_im2
  rw [if_pos hne]
  fin_cases i
  · simp only [ctc_check_im2_scan]
    simp only [Fin.val_zero, Fin.zero_eta] at hi1 hv ⊢
    rw [if_pos hi1, Nat.mod_eq_of_lt hx, Nat.mod_eq_of_lt hv]
    rfl
  · have h0 := hlow1 0 (by decide)
    simp only [Fin.val_zero] at h0
    simp only [ctc_check_im2_scan]
    simp only [Fin.mk_one, Fin.val_one] at hi1 hv ⊢
    rw [if_neg (by simpa using h0), if_pos hi1, Nat.mod_eq_of_lt hx, Nat.mod_eq_of_lt hv]
    rfl
  · have h0 := hlow1 0 (by decide)
    have h1 := hlow1 1 (by decide)
    simp only [Fin.val_zero, Fin.val_one] at h0 h1
    simp only [ctc_check_im2_scan]
    simp only [Fin.reduceFinMk, Fin.val_two] at hi1 hv ⊢
    rw [if_neg (by simpa using h0), if_neg (by simpa using h1), if_pos hi1,
      Nat.mod_eq_of_lt hx, Nat.mod_eq_of_lt hv]
    rfl
  · have h0 := hlow1 0 (by decide)
    have h1 := hlow1 1 (by decide)
    have h2 := hlow1 2 (by decide)
    simp only [Fin.val_zero, Fin.val_one, Fin.val_two] at h0 h1 h2
    simp only [ctc_check_im2_scan]
    have e3 : ((3 : Fin 4) : Nat) = 3 := rfl
    simp only [Fin.reduceFinMk, e3] at hi1 hv ⊢
    rw [if_neg (by simpa using h0), if_neg (by simpa using h1), if_neg (by simpa using h2),
      if_pos hi1, Nat.mod_eq_of_lt hx, Nat.mod_eq_of_lt hv]
    rfl

theorem ctc_check_im2_scan_miss (s : Machine σ υ)
    (hnone : ∀ j : Fin 4, pending s j.val = false) : ctc_check_im2 s = (0, s) := by
  have h0 := (pending_false_iff s _).1 (hnone 0)
  have h1 := (pending_false_iff s _).1 (hnone 1)
  have h2 := (pending_false_iff s _).1 (hnone 2)
  have h3 := (pending_false_iff s _).1 (hnone 3)
  have e3 : ((3 : Fin 4) : Nat) = 3 := rfl
  simp only [Fin.val_zero, Fin.val_one, Fin.val_two, e3] at h0 h1 h2 h3
  unfold ctc_check_im2
  split
  · simp only [ctc_check_im2_scan]
    rw [if_neg (by simpa using h0), if_neg (by simpa using h1), if_neg (by simpa using h2),
      if_neg (by simpa using h3)]
  · rfl

/-- C10: if some channel is pending and `i` is the lowest pending index,
`ctc_check_im2` returns 1, sets `live_irq` to `IRQ_CTC + i`, injects the
vector `(ctc[0].vector & 0xF8) + 2 * i` and changes nothing else (the
pending mask included).  That vector fits in a byte, is even, has the top
five bits of channel 0's vector register and carries `i` in bits 2..1, so
different channels get different vectors.  If none of the four channels is
pending it returns 0 and leaves the state (hence `live_irq` and the list of
injected vectors) as it was. -/
theorem ctc_check_im2_lowest_pending (s : Machine σ υ) :
    (∀ i : Fin 4, pending s i.val = true → (∀ j : Fin 4, j < i → pending s j.val = false) →
      ctc_check_im2 s
        = (1, { s with live_irq := IRQ_CTC + i.val,
                       z80int := s.z80int ++ [((s.ctc 0).vector &&& 0xF8) + 2 * i.val] })
      ∧ (ctc_check_im2 s).2.ctc_irqmask = s.ctc_irqmask
      ∧ ((s.ctc 0).vector &&& 0xF8) + 2 * i.val < 256
      ∧ (((s.ctc 0).vector &&& 0xF8) + 2 * i.val) % 2 = 0
      ∧ (((s.ctc 0).vector &&& 0xF8) + 2 * i.val) &&& 0xF8 = (s.ctc 0).vector &&& 0xF8
      ∧ ((((s.ctc 0).vector &&& 0xF8) + 2 * i.val) >>> 1) &&& 3 = i.val
      ∧ ∀ j : Fin 4, j ≠ i →
          ((s.ctc 0).vector &&& 0xF8) + 2 * j.val ≠ ((s.ctc 0).vector &&& 0xF8) + 2 * i.val)
    ∧ ((∀ j : Fin 4, pending s j.val = false) → ctc_check_im2 s = (0, s)) := by
  refine ⟨?_, ctc_check_im2_scan_miss s⟩
  intro i hi hlow
  have hit := ctc_check_im2_scan_hit s i hi hlow
  have hv := ctc_vector_facts (s.ctc 0).vector i
  refine ⟨hit, by rw [hit], hv.1, hv.2.1, hv.2.2.1, hv.2.2.2, ?_⟩
  intro j hj e
  apply hj
  apply Fin.ext
  omega

/-- Instance: channels 1 and 2 pending, so channel 1 is chosen; and the idle
machine, where the scan reports nothing. -/
theorem ctc_check_im2_lowest_pending_witness :
    pending ctc12PendingInput (1 : Fin 4).val = true
    ∧ (∀ j : Fin 4, j < 1 → pending ctc12PendingInput j.val = false)
    ∧ ctc_check_im2 ctc12PendingInput
        = (1, { ctc12PendingInput with
                  live_irq := IRQ_CTC + (1 : Fin 4).val
                  z80int := ctc12PendingInput.z80int
                    ++ [((ctc12PendingInput.ctc 0).vector &&& 0xF8) + 2 * (1 : Fin 4).val] })
    ∧ (∀ j : Fin 4, pending demoMachine j.val = false)
    ∧ ctc_check_im2 demoMachine = (0, demoMachine) :=
  ⟨by decide, by decide,
    ((ctc_check_im2_lowest_pending ctc12PendingInput).1 1 (by decide) (by decide)).1,
    by decide,
    (ctc_check_im2_lowest_pending demoMachine).2 (by decide)⟩

/-! ## Writes to a CTC channel -/

theorem land_mod_256 (c k : Nat) : (c &&& k) % 256 = c &&& (k % 256) := by
  have h256 : (256 : Nat) = 2 ^ 8 := by norm_num
  rw [h256, ← Nat.and_pow_two_sub_one_eq_mod, ← Nat.and_pow_two_sub_one_eq_mod, Nat.and_assoc]

set_option maxRecDepth 100000 in
theorem ctrl_byte_bits : ∀ v : Fin 256,
    (v.val &&& 6 = 6 ↔ (v.val &&& 4 ≠ 0 ∧ v.val &&& 2 ≠ 0))
    ∧ (v.val &&& 6 = 2 ↔ (v.val &&& 4 = 0 ∧ v.val &&& 2 ≠ 0)) := by
  decide

/-- First phase missing: the byte goes to the time-constant branch. -/
theorem ctc_write_tconst (s : Machine σ υ) (ch : Fin 4) (v : Nat)
    (ht : (s.ctc ch).ctrl &&& CTC_TCONST ≠ 0) :
    ctc_write ch v s = setCtc s ch
      { s.ctc ch with
        reload := v
        count := if (s.ctc ch).ctrl &&& 6 = 6 then toUint16 (((v : Int) - 1) * 256)
                 else (s.ctc ch).count
        ctrl := (s.ctc ch).ctrl &&& 0xFB } := by
  have hk : (bnot32 CTC_TCONST ||| CTC_RESET) % 256 = 0xFB := by decide
  have h6 : CTC_TCONST ||| CTC_RESET = 6 := by decide
  unfold ctc_write
  simp only [ht, ne_eq, not_false_eq_true, if_true, land_mod_256, hk, h6]
  split <;> rfl

/-- The array `ctc` after a byte decoded as a control byte. -/
theorem ctc_write_control_ctc (s : Machine σ υ) (ch : Fin 4) (val : Nat)
    (ht : (s.ctc ch).ctrl &&& CTC_TCONST = 0) (hc : val &&& CTC_CONTROL ≠ 0) :
    (ctc_write ch val s).ctc = Function.update s.ctc ch
      { s.ctc ch with
        ctrl := val
        count := if val &&& 6 = 2 then toUint16 ((((s.ctc ch).reload : Int) - 1) * 256)
                 else (s.ctc ch).count } := by
  have h6 : CTC_TCONST ||| CTC_RESET = 6 := by decide
  have h2 : CTC_RESET = 2 := rfl
  unfold ctc_write
  simp only [ht, ne_eq, not_true_eq_false, if_false, hc, not_false_eq_true, if_true, h6,
    setCtc]
  rw [h2]
  by_cases h62 : val &&& 6 = 2
  · simp only [h62, if_true]
    split_ifs <;> rfl
  · simp only [h62, if_false]
    split_ifs <;> rfl

/-- The pending mask and `live_irq` after a byte decoded as a control byte
that clears the interrupt-enable bit of a pending channel. -/
theorem ctc_write_control_withdraw (s : Machine σ υ) (ch : Fin 4) (val : Nat)
    (ht : (s.ctc ch).ctrl &&& CTC_TCONST = 0) (hc : val &&& CTC_CONTROL ≠ 0)
    (hi : val &&& CTC_IRQ = 0) (hp : s.ctc_irqmask &&& (1 <<< ch.val) ≠ 0) :
    (ctc_write ch val s).ctc_irqmask = (s.ctc_irqmask &&& bnot32 (1 <<< ch.val)) % 256
    ∧ (ctc_write ch val s).live_irq
        = if (s.ctc_irqmask &&& bnot32 (1 <<< ch.val)) % 256 = 0
            ∧ s.live_irq = IRQ_CTC + ch.val then 0 else s.live_irq := by
  unfold ctc_write
  simp only [ht, ne_eq, not_true_eq_false, if_false, hc, not_false_eq_true, if_true, setCtc]
  by_cases h62 : val &&& (CTC_TCONST ||| CTC_RESET) = CTC_RESET
  · simp only [h62, if_true, hi, hp, not_false_eq_true, and_self]
    split_ifs <;> simp_all
  · simp only [h62, if_false, hi, hp, not_false_eq_true, and_self, if_true]
    split_ifs <;> simp_all

theorem mask_clear_eq_zero_iff (m : Nat) (ch : Fin 4) (hm : m < 16) :
    (m &&& bnot32 (1 <<< ch.val)) % 256 = 0
      ↔ ∀ j : Fin 4, j ≠ ch → m.testBit j.val = false := by
  constructor
  · intro h j hj
    have hb := testBit_clear_bit m ch.val j.val
    rw [h, Nat.zero_testBit] at hb
    have hne : ¬ ch.val = j.val := fun e => hj (Fin.ext e.symm)
    have h8 : j.val < 8 := by have := j.isLt; omega
    simpa [h8, hne] using hb.symm
  · intro h
    apply Nat.eq_of_testBit_eq
    intro j
    rw [testBit_clear_bit, Nat.zero_testBit]
    by_cases h4 : j < 4
    · by_cases hij : ch.val = j
      · simp [hij]
      · have := h ⟨j, h4⟩ (fun e => hij (by rw [← e]))
        simp only at this
        simp [this]
    · have : m.testBit j = false := by
        apply Nat.testBit_lt_two_pow
        calc m < 16 := hm
          _ = 2 ^ 4 := by norm_num
          _ ≤ 2 ^ j := Nat.pow_le_pow_right (by norm_num) (by omega)
      simp [this]

/-- C5 (counterexample to the claim as stated): channel 0 is pending and in
service, channel 1 is pending too; writing the control byte 0x03 (interrupt
enable clear) to channel 0, which is not awaiting a time constant, withdraws
channel 0's pending flag but leaves `live_irq` at `IRQ_CTC + 0`. -/
theorem ctc_write_disable_keeps_live_irq :
    (ctc01PendingInput.ctc 0).ctrl &&& CTC_TCONST = 0
    ∧ 0x03 &&& CTC_CONTROL ≠ 0 ∧ 0x03 &&& CTC_IRQ = 0
    ∧ pending ctc01PendingInput 0 = true ∧ pending ctc01PendingInput 1 = true
    ∧ ctc01PendingInput.live_irq = IRQ_CTC + 0
    ∧ pending (ctc_write 0 0x03 ctc01PendingInput) 0 = false
    ∧ (ctc_write 0 0x03 ctc01PendingInput).live_irq = IRQ_CTC + 0
    ∧ (ctc_write 0 0x03 ctc01PendingInput).live_irq ≠ 0 := by
  decide

/-- C5 (amended): writing to channel `ch` (not awaiting a time constant) a
control byte whose interrupt-enable bit is clear, while channel `ch` is
pending, withdraws that channel's pending flag and no other channel's.  If no
other channel is pending and `live_irq` was `IRQ_CTC + ch`, `live_irq`
becomes 0; if another channel is still pending, or `live_irq` was something
else, `live_irq` is unchanged. -/
theorem ctc_write_disable_withdraws_pending (s : Machine σ υ) (ch : Fin 4) (val : Nat)
    (hm : s.ctc_irqmask < 16) (ht : (s.ctc ch).ctrl &&& CTC_TCONST = 0)
    (hc : val &&& CTC_CONTROL ≠ 0) (hi : val &&& CTC_IRQ = 0)
    (hp : pending s ch.val = true) :
    pending (ctc_write ch val s) ch.val = false
    ∧ (∀ j : Fin 4, j ≠ ch → pending (ctc_write ch val s) j.val = pending s j.val)
    ∧ ((∀ j : Fin 4, j ≠ ch → pending s j.val = false) → s.live_irq = IRQ_CTC + ch.val →
        (ctc_write ch val s).live_irq = 0)
    ∧ ((∃ j : Fin 4, j ≠ ch ∧ pending s j.val = true) →
        (ctc_write ch val s).live_irq = s.live_irq)
    ∧ (s.live_irq ≠ IRQ_CTC + ch.val → (ctc_write ch val s).live_irq = s.live_irq) := by
  have hw := ctc_write_control_withdraw s ch val ht hc hi ((pending_true_iff s ch.val).1 hp)
  have hz := mask_clear_eq_zero_iff s.ctc_irqmask ch hm
  refine ⟨?_, ?_, ?_, ?_, ?_⟩
  · rw [pending_eq_testBit, hw.1, testBit_clear_bit]
    simp
  · intro j hj
    have hne : ¬ ch.val = j.val := fun e => hj (Fin.ext e.symm)
    have h8 : j.val < 8 := by have := j.isLt; omega
    rw [pending_eq_testBit, pending_eq_testBit, hw.1, testBit_clear_bit]
    simp [hne, h8]
  · intro hnone hlive
    have h0 : (s.ctc_irqmask &&& bnot32 (1 <<< ch.val)) % 256 = 0 :=
      hz.2 (fun j hj => by rw [← pending_eq_testBit]; exact hnone j hj)
    rw [hw.2, if_pos ⟨h0, hlive⟩]
  · rintro ⟨j, hj, hpj⟩
    have h0 : ¬ (s.ctc_irqmask &&& bnot32 (1 <<< ch.val)) % 256 = 0 := by
      intro h0
      have := hz.1 h0 j hj
      rw [← pending_eq_testBit, hpj] at this
      exact Bool.noConfusion this
    rw [hw.2, if_neg (fun h => h0 h.1)]
  · intro hlive
    rw [hw.2, if_neg (fun h => hlive h.2)]

/-- Instance: channels 0 and 1 pending, control byte 0x03 written to channel 0. -/
theorem ctc_write_disable_withdraws_pending_witness :
    ctc01PendingInput.ctc_irqmask < 16
    ∧ pending ctc01PendingInput (0 : Fin 4).val = true
    ∧ pending (ctc_write 0 0x03 ctc01PendingInput) (0 : Fin 4).val = false
    ∧ (∀ j : Fin 4, j ≠ 0 →
        pending (ctc_write 0 0x03 ctc01PendingInput) j.val = pending ctc01PendingInput j.val) :=
  have h := ctc_write_disable_withdraws_pending ctc01PendingInput 0 0x03
    (by decide) (by decide) (by decide) (by decide) (by decide)
  ⟨by decide, by decide, h.1, h.2.1⟩

theorem ctc_write_vector (s : Machine σ υ) (ch : Fin 4) (w : Nat)
    (ht : (s.ctc ch).ctrl &&& CTC_TCONST = 0) (hw : w &&& CTC_CONTROL = 0) :
    ctc_write ch w s
      = if ch = 0 then setCtc s ch { s.ctc ch with vector := w } else s := by
  unfold ctc_write
  simp only [ht, ne_eq, not_true_eq_false, if_false, hw]

/-- C7: on a channel whose control register has the time-constant-follows
bit set, the next byte `v` (any of 0..255, odd or even) is stored as
`reload`; it is not decoded as a control or vector byte: the time-constant
bit is cleared, the other seven control bits keep their values, every
channel's vector register, the other channels, the pending mask and
`live_irq` are unchanged.  The byte `w` written after it is decoded again:
with low bit 1 it becomes the control register, with low bit 0 it is a vector
byte (stored on channel 0 only). -/
theorem ctc_write_time_constant (s : Machine σ υ) (ch : Fin 4) (v : Nat) (hv : v < 256)
    (ht : (s.ctc ch).ctrl &&& CTC_TCONST ≠ 0) :
    ((ctc_write ch v s).ctc ch).reload = v
    ∧ ((ctc_write ch v s).ctc ch).ctrl &&& CTC_TCONST = 0
    ∧ ((ctc_write ch v s).ctc ch).ctrl &&& 0xFB = (s.ctc ch).ctrl &&& 0xFB
    ∧ (∀ j : Fin 4, ((ctc_write ch v s).ctc j).vector = (s.ctc j).vector)
    ∧ (∀ j : Fin 4, j ≠ ch → (ctc_write ch v s).ctc j = s.ctc j)
    ∧ (ctc_write ch v s).ctc_irqmask = s.ctc_irqmask
    ∧ (ctc_write ch v s).live_irq = s.live_irq
    ∧ (∀ w : Nat, w &&& CTC_CONTROL ≠ 0 →
        ((ctc_write ch w (ctc_write ch v s)).ctc ch).ctrl = w
        ∧ ((ctc_write ch w (ctc_write ch v s)).ctc ch).reload = v)
    ∧ (∀ w : Nat, w &&& CTC_CONTROL = 0 →
        ctc_write ch w (ctc_write ch v s)
          = if ch = 0 then
              setCtc (ctc_write ch v s) ch { (ctc_write ch v s).ctc ch with vector := w }
            else ctc_write ch v s) := by
  have _ := hv
  have hT : CTC_TCONST = 4 := rfl
  have e := ctc_write_tconst s ch v ht
  have hclr : ((ctc_write ch v s).ctc ch).ctrl &&& CTC_TCONST = 0 := by
    rw [e, hT]
    simp only [setCtc, Function.update_same]
    rw [Nat.and_assoc]
    have h0 : (0xFB : Nat) &&& 4 = 0 := by decide
    rw [h0, Nat.and_zero]
  refine ⟨?_, hclr, ?_, ?_, ?_, ?_, ?_, ?_, ?_⟩
  · rw [e]; simp [setCtc]
  · rw [e]
    simp only [setCtc, Function.update_same]
    rw [Nat.and_assoc, Nat.and_self]
  · intro j
    rw [e]
    by_cases hj : j = ch
    · subst hj; simp [setCtc]
    · simp [setCtc, Function.update_noteq hj]
  · intro j hj
    rw [e]
    simp [setCtc, Function.update_noteq hj]
  · rw [e]; rfl
  · rw [e]; rfl
  · intro w hw
    have hctl := ctc_write_control_ctc (ctc_write ch v s) ch w hclr hw
    rw [hctl]
    simp only [Function.update_same, true_and]
    rw [e]
    simp [setCtc]
  · intro w hw
    exact ctc_write_vector (ctc_write ch v s) ch w hclr hw

/-- Instance: the odd byte 0x21 written to channel 1 while it awaits its time
constant. -/
theorem ctc_write_time_constant_witness :
    (0x21 : Nat) < 256 ∧ (awaitingInput.ctc 1).ctrl &&& CTC_TCONST ≠ 0
    ∧ ((ctc_write 1 0x21 awaitingInput).ctc 1).reload = 0x21
    ∧ ((ctc_write 1 0x21 awaitingInput).ctc 1).ctrl &&& CTC_TCONST = 0
    ∧ ((ctc_write 1 0x21 awaitingInput).ctc 1).ctrl &&& 0xFB = (awaitingInput.ctc 1).ctrl &&& 0xFB :=
  have h := ctc_write_time_constant awaitingInput 1 0x21 (by decide) (by decide)
  ⟨by decide, by decide, h.1, h.2.1, h.2.2.1⟩

/-- C8 (counterexample to the claim as stated): channel 0 holds reload 5 and
count 0x1234 and is not awaiting a time constant; the control byte 0x07
(control, reset, time constant follows) leaves the count at 0x1234, not at
`(5 - 1) << 8 = 0x400`. -/
theorem ctc_write_reset_with_tconst_keeps_count :
    (loadedInput.ctc 0).ctrl &&& CTC_TCONST = 0
    ∧ 0x07 &&& CTC_CONTROL ≠ 0 ∧ 0x07 &&& CTC_RESET ≠ 0 ∧ 0x07 &&& CTC_TCONST ≠ 0
    ∧ (loadedInput.ctc 0).reload = 5
    ∧ ((ctc_write 0 0x07 loadedInput).ctc 0).reload = 5
    ∧ ((ctc_write 0 0x07 loadedInput).ctc 0).count = 0x1234
    ∧ ((ctc_write 0 0x07 loadedInput).ctc 0).count ≠ toUint16 (((5 : Int) - 1) * 256) := by
  decide

/-- C8 (amended): a control byte written to a channel that is not awaiting a
time constant and that requests software reset reloads the channel
immediately, `count = (reload - 1) << 8` as a 16-bit value with the
channel's current reload, only when it does not also request a time
constant.  When it requests both, the write leaves count and reload as they
were and the channel is stopped; the reload is done by the time-constant
byte `v` written next, after which `reload = v` and
`count = (v - 1) << 8` as a 16-bit value. -/
theorem ctc_write_reset_reload (s : Machine σ υ) (ch : Fin 4) (val : Nat) (hval : val < 256)
    (ht : (s.ctc ch).ctrl &&& CTC_TCONST = 0) (hc : val &&& CTC_CONTROL ≠ 0)
    (hr : val &&& CTC_RESET ≠ 0) :
    (val &&& CTC_TCONST = 0 →
      ((ctc_write ch val s).ctc ch).count = toUint16 ((((s.ctc ch).reload : Int) - 1) * 256)
      ∧ ((ctc_write ch val s).ctc ch).reload = (s.ctc ch).reload)
    ∧ (val &&& CTC_TCONST ≠ 0 →
      ((ctc_write ch val s).ctc ch).count = (s.ctc ch).count
      ∧ ((ctc_write ch val s).ctc ch).reload = (s.ctc ch).reload
      ∧ CTC_STOPPED ((ctc_write ch val s).ctc ch) = true
      ∧ ∀ v : Nat, v < 256 →
          ((ctc_write ch v (ctc_write ch val s)).ctc ch).reload = v
          ∧ ((ctc_write ch v (ctc_write ch val s)).ctc ch).count
              = toUint16 (((v : Int) - 1) * 256)) := by
  have hT : CTC_TCONST = 4 := rfl
  have hR : CTC_RESET = 2 := rfl
  have h6 : CTC_TCONST ||| CTC_RESET = 6 := by decide
  have hbits := ctrl_byte_bits ⟨val, hval⟩
  simp only at hbits
  have e := ctc_write_control_ctc s ch val ht hc
  rw [hR] at hr
  constructor
  · intro h4
    rw [hT] at h4
    have h62 : val &&& 6 = 2 := hbits.2.2 ⟨h4, hr⟩
    rw [e]
    simp [h62]
  · intro h4
    rw [hT] at h4
    have h66 : val &&& 6 = 6 := hbits.1.2 ⟨h4, hr⟩
    have h62 : ¬ val &&& 6 = 2 := by rw [h66]; decide
    have hctrl : ((ctc_write ch val s).ctc ch).ctrl = val := by rw [e]; simp
    refine ⟨by rw [e]; simp [h62], by rw [e]; simp, ?_, ?_⟩
    · unfold CTC_STOPPED
      rw [hctrl, h6, h66]
      rfl
    · intro v _
      have ht2 : ((ctc_write ch val s).ctc ch).ctrl &&& CTC_TCONST ≠ 0 := by
        rw [hctrl, hT]; exact h4
      rw [ctc_write_tconst (ctc_write ch val s) ch v ht2]
      simp [setCtc, hctrl, h66]

/-- Instance: control byte 0x07 on channel 0 keeps the count, the time constant 9
that follows loads `(9 - 1) << 8`. -/
theorem ctc_write_reset_reload_witness :
    (0x07 : Nat) < 256 ∧ (loadedInput.ctc 0).ctrl &&& CTC_TCONST = 0
    ∧ 0x07 &&& CTC_CONTROL ≠ 0 ∧ 0x07 &&& CTC_RESET ≠ 0 ∧ 0x07 &&& CTC_TCONST ≠ 0
    ∧ ((ctc_write 0 0x07 loadedInput).ctc 0).count = (loadedInput.ctc 0).count
    ∧ ((ctc_write 0 9 (ctc_write 0 0x07 loadedInput)).ctc 0).count
        = toUint16 ((((9 : Nat) : Int) - 1) * 256) :=
  have h := (ctc_write_reset_reload loadedInput 0 0x07 (by decide) (by decide) (by decide)
    (by decide)).2 (by decide)
  ⟨by decide, by decide, by decide, by decide, by decide, h.1, (h.2.2.2 9 (by decide)).2⟩

/-! ## The counters -/

theorem ctc_readd_pos (c : z80_ctc) : 0 < ctc_readd c := by
  unfold ctc_readd
  split
  · norm_num
  · rename_i h
    have : 0 < c.reload := Nat.pos_of_ne_zero h
    positivity

theorem toInt32_of_range (x : Int) (h0 : -2147483648 ≤ x) (h1 : x < 2147483648) :
    toInt32 x = x := by
  unfold toInt32
  rw [Int.emod_eq_of_lt (by omega) (by omega)]
  omega

theorem toUint16_of_range (x : Int) (h0 : 0 ≤ x) (h1 : x < 65536) :
    toUint16 x = x.toNat := by
  unfold toUint16
  rw [Int.emod_eq_of_lt h0 h1]

theorem ctc_interrupt_ctc (i : Fin 4) (s : Machine σ υ) : (ctc_interrupt i s).ctc = s.ctc := by
  unfold ctc_interrupt recalc_interrupts
  split_ifs <;> rfl

theorem ctc_interrupt_pulses (i : Fin 4) (s : Machine σ υ) :
    (ctc_interrupt i s).pulses = s.pulses := by
  unfold ctc_interrupt recalc_interrupts
  split_ifs <;> rfl

theorem ctc_fire_ctc (i : Fin 4) (s : Machine σ υ) : (ctc_fire i s).ctc = s.ctc := by
  unfold ctc_fire ctc_pulse
  exact ctc_interrupt_ctc i s

theorem ctc_fire_pulses (i : Fin 4) (s : Machine σ υ) :
    (ctc_fire i s).pulses = s.pulses ++ [i.val] := by
  unfold ctc_fire ctc_pulse
  simp [ctc_interrupt_pulses]

theorem ctc_fire_iterate_ctc (i : Fin 4) (k : Nat) (s : Machine σ υ) :
    ((ctc_fire i)^[k] s).ctc = s.ctc := by
  induction k generalizing s with
  | zero => rfl
  | succ k ih => rw [Function.iterate_succ_apply, ih, ctc_fire_ctc]

theorem ctc_fire_iterate_pulses (i : Fin 4) (k : Nat) (s : Machine σ υ) :
    ((ctc_fire i)^[k] s).pulses = s.pulses ++ List.replicate k i.val := by
  induction k generalizing s with
  | zero => simp
  | succ k ih =>
    rw [Function.iterate_succ_apply, ih, ctc_fire_pulses, List.replicate_succ]
    simp

theorem ctc_tick_loop_neg (i : Fin 4) (n : Int) (s : Machine σ υ) (h : n < 0) :
    ctc_tick_loop i n s = ctc_tick_loop i (n + ctc_readd (s.ctc i)) (ctc_fire i s) := by
  rw [ctc_tick_loop]
  simp only [h, dite_true]
  rw [← ctc_fire_ctc i s]
  rfl

theorem ctc_tick_loop_nonneg (i : Fin 4) (n : Int) (s : Machine σ υ) (h : 0 ≤ n) :
    ctc_tick_loop i n s = (n, s) := by
  rw [ctc_tick_loop]
  simp only [not_lt.mpr h, dite_false]

/-- The loop makes exactly `k` passes when `n + j * r` is negative for
`j < k` and non-negative for `j = k`. -/
theorem ctc_tick_loop_iter (i : Fin 4) (k : Nat) (n : Int) (s : Machine σ υ)
    (hneg : ∀ j : Nat, j < k → n + j * ctc_readd (s.ctc i) < 0)
    (hend : 0 ≤ n + k * ctc_readd (s.ctc i)) :
    ctc_tick_loop i n s = (n + k * ctc_readd (s.ctc i), (ctc_fire i)^[k] s) := by
  induction k generalizing n s with
  | zero =>
    have h0 : 0 ≤ n := by simpa using hend
    rw [ctc_tick_loop_nonneg i n s h0]
    simp
  | succ k ih =>
    have hn : n < 0 := by simpa using hneg 0 (Nat.succ_pos k)
    have hc := ctc_fire_ctc i s
    rw [ctc_tick_loop_neg i n s hn, Function.iterate_succ_apply]
    have hneg2 : ∀ j : Nat, j < k →
        n + ctc_readd (s.ctc i) + j * ctc_readd ((ctc_fire i s).ctc i) < 0 := by
      intro j hj
      have := hneg (j + 1) (by omega)
      rw [hc]
      push_cast at this
      linarith
    have hend2 : 0 ≤ n + ctc_readd (s.ctc i) + k * ctc_readd ((ctc_fire i s).ctc i) := by
      rw [hc]
      push_cast at hend
      linarith
    rw [ih (n + ctc_readd (s.ctc i)) (ctc_fire i s) hneg2 hend2, hc]
    congr 1
    push_cast
    ring

theorem ctc_passes_spec (n r : Int) (hr : 0 < r) :
    (∀ j : Nat, j < ctc_passes n r → n + j * r < 0) ∧ 0 ≤ n + ctc_passes n r * r := by
  unfold ctc_passes
  split
  · rename_i hn
    have hq0 : 0 ≤ (-n + r - 1) / r := Int.ediv_nonneg (by omega) (le_of_lt hr)
    have hcast : (((-n + r - 1) / r).toNat : Int) = (-n + r - 1) / r := Int.toNat_of_nonneg hq0
    have hle : (-n + r - 1) / r * r ≤ -n + r - 1 := Int.ediv_mul_le _ (ne_of_gt hr)
    have hlt : -n + r - 1 < ((-n + r - 1) / r + 1) * r := Int.lt_ediv_add_one_mul_self _ hr
    constructor
    · intro j hj
      have hj1 : ((j : Int) + 1) ≤ (-n + r - 1) / r := by
        have : (j : Int) < (((-n + r - 1) / r).toNat : Int) := by exact_mod_cast hj
        rw [hcast] at this
        omega
      have := mul_le_mul_of_nonneg_right hj1 (le_of_lt hr)
      nlinarith
    · rw [hcast]
      nlinarith
  · rename_i hn
    constructor
    · intro j hj
      exact absurd hj (Nat.not_lt_zero j)
    · simpa using hn

theorem ctc_passes_unique (n r : Int) (hr : 0 < r) (k : Nat)
    (hneg : ∀ j : Nat, j < k → n + j * r < 0) (hend : 0 ≤ n + k * r) :
    ctc_passes n r = k := by
  have hs := ctc_passes_spec n r hr
  rcases Nat.lt_trichotomy (ctc_passes n r) k with h | h | h
  · have := hneg _ h
    linarith [hs.2]
  · exact h
  · have := hs.1 _ h
    linarith

theorem ctc_tick_loop_closed (i : Fin 4) (n : Int) (s : Machine σ υ) :
    ctc_tick_loop i n s
      = (n + ctc_passes n (ctc_readd (s.ctc i)) * ctc_readd (s.ctc i),
         (ctc_fire i)^[ctc_passes n (ctc_readd (s.ctc i))] s) := by
  have hs := ctc_passes_spec n (ctc_readd (s.ctc i)) (ctc_readd_pos _)
  exact ctc_tick_loop_iter i _ n s hs.1 hs.2

/-- One channel's share of `ctc_tick`, with the loop in closed form. -/
theorem ctc_tick_chan_closed (clocks : Nat) (j : Fin 4) (s : Machine σ υ) :
    ctc_tick_chan clocks j s
      = if CTC_STOPPED (s.ctc j) = true ∨ (s.ctc j).ctrl &&& CTC_COUNTER ≠ 0 then s
        else setCtc ((ctc_fire j)^[ctc_tick_passes clocks (s.ctc j)] s) j
          { s.ctc j with
            count := toUint16 (ctc_tick_start clocks (s.ctc j)
              + ctc_tick_passes clocks (s.ctc j) * ctc_readd (s.ctc j)) } := by
  unfold ctc_tick_chan ctc_tick_passes
  by_cases h1 : CTC_STOPPED (s.ctc j) = true
  · simp [h1]
  · by_cases h2 : (s.ctc j).ctrl &&& CTC_COUNTER ≠ 0
    · simp [h1, h2]
    · simp only [h1, h2, if_false, or_self, Bool.false_eq_true]
      rw [ctc_tick_loop_closed]
      simp only [ctc_fire_iterate_ctc]

theorem ctc_tick_chan_ctc_other (clocks : Nat) (j i : Fin 4) (s : Machine σ υ) (h : i ≠ j) :
    (ctc_tick_chan clocks j s).ctc i = s.ctc i := by
  rw [ctc_tick_chan_closed]
  split
  · rfl
  · simp [setCtc, Function.update_noteq h, ctc_fire_iterate_ctc]

theorem ctc_tick_chan_ctc_self (clocks : Nat) (j : Fin 4) (s : Machine σ υ) :
    (ctc_tick_chan clocks j s).ctc j
      = if CTC_STOPPED (s.ctc j) = true ∨ (s.ctc j).ctrl &&& CTC_COUNTER ≠ 0 then s.ctc j
        else { s.ctc j with
          count := toUint16 (ctc_tick_start clocks (s.ctc j)
            + ctc_tick_passes clocks (s.ctc j) * ctc_readd (s.ctc j)) } := by
  rw [ctc_tick_chan_closed]
  split
  · rfl
  · simp [setCtc]

theorem ctc_tick_chan_pulses (clocks : Nat) (j : Fin 4) (s : Machine σ υ) :
    (ctc_tick_chan clocks j s).pulses
      = s.pulses ++ List.replicate (ctc_tick_passes clocks (s.ctc j)) j.val := by
  rw [ctc_tick_chan_closed]
  split
  · rename_i h
    have : ctc_tick_passes clocks (s.ctc j) = 0 := by
      unfold ctc_tick_passes
      rcases h with h | h
      · simp [h]
      · simp [h]
    simp [this]
  · simp [setCtc, ctc_fire_iterate_pulses]

/-- The calls of `ctc_pulse` made by one `ctc_tick`: channel by channel, as
many as the closed form says, each count taken on the state before the
tick. -/
theorem ctc_tick_pulses (clocks : Nat) (s : Machine σ υ) :
    (ctc_tick clocks s).pulses
      = s.pulses ++ List.replicate (ctc_tick_passes clocks (s.ctc 0)) 0
          ++ List.replicate (ctc_tick_passes clocks (s.ctc 1)) 1
          ++ List.replicate (ctc_tick_passes clocks (s.ctc 2)) 2
          ++ List.replicate (ctc_tick_passes clocks (s.ctc 3)) 3 := by
  unfold ctc_tick
  rw [ctc_tick_chan_pulses, ctc_tick_chan_pulses, ctc_tick_chan_pulses, ctc_tick_chan_pulses]
  rw [ctc_tick_chan_ctc_other clocks 2 3 _ (by decide),
    ctc_tick_chan_ctc_other clocks 1 3 _ (by decide),
    ctc_tick_chan_ctc_other clocks 0 3 _ (by decide),
    ctc_tick_chan_ctc_other clocks 1 2 _ (by decide),
    ctc_tick_chan_ctc_other clocks 0 2 _ (by decide),
    ctc_tick_chan_ctc_other clocks 0 1 _ (by decide)]
  rfl

theorem ctc_tick_pulses_count (clocks : Nat) (s : Machine σ υ) (i : Fin 4) :
    (ctc_tick clocks s).pulses.count i.val
      = s.pulses.count i.val + ctc_tick_passes clocks (s.ctc i) := by
  rw [ctc_tick_pulses]
  simp only [List.count_append, List.count_replicate]
  fin_cases i <;> simp

/-- The channel record after one `ctc_tick`. -/
theorem ctc_tick_ctc (clocks : Nat) (s : Machine σ υ) (i : Fin 4) :
    (ctc_tick clocks s).ctc i
      = if CTC_STOPPED (s.ctc i) = true ∨ (s.ctc i).ctrl &&& CTC_COUNTER ≠ 0 then s.ctc i
        else { s.ctc i with
          count := toUint16 (ctc_tick_start clocks (s.ctc i)
            + ctc_tick_passes clocks (s.ctc i) * ctc_readd (s.ctc i)) } := by
  unfold ctc_tick
  fin_cases i
  · simp only [Fin.zero_eta]
    rw [ctc_tick_chan_ctc_other clocks 3 0 _ (by decide),
      ctc_tick_chan_ctc_other clocks 2 0 _ (by decide),
      ctc_tick_chan_ctc_other clocks 1 0 _ (by decide), ctc_tick_chan_ctc_self]
  · simp only [Fin.mk_one]
    rw [ctc_tick_chan_ctc_other clocks 3 1 _ (by decide),
      ctc_tick_chan_ctc_other clocks 2 1 _ (by decide), ctc_tick_chan_ctc_self,
      ctc_tick_chan_ctc_other clocks 0 1 _ (by decide)]
  · simp only [Fin.reduceFinMk]
    rw [ctc_tick_chan_ctc_other clocks 3 2 _ (by decide), ctc_tick_chan_ctc_self,
      ctc_tick_chan_ctc_other clocks 1 2 _ (by decide),
      ctc_tick_chan_ctc_other clocks 0 2 _ (by decide)]
  · simp only [Fin.reduceFinMk]
    rw [ctc_tick_chan_ctc_self,
      ctc_tick_chan_ctc_other clocks 2 3 _ (by decide),
      ctc_tick_chan_ctc_other clocks 1 3 _ (by decide),
      ctc_tick_chan_ctc_other clocks 0 3 _ (by decide)]

theorem testBit_set_bit (m i j : Nat) :
    ((m ||| (1 <<< i)) % 256).testBit j
      = (decide (j < 8) && (m.testBit j || decide (i = j))) := by
  have h256 : (256 : Nat) = 2 ^ 8 := by norm_num
  rw [h256, Nat.testBit_mod_two_pow, Nat.testBit_or, Nat.one_shiftLeft, Nat.testBit_two_pow]

theorem ctc_interrupt_pending (i : Fin 4) (s : Machine σ υ) (j : Nat) (hj : j < 8) :
    pending (ctc_interrupt i s) j
      = (pending s j || (decide (i.val = j) && decide ((s.ctc i).ctrl &&& CTC_IRQ ≠ 0))) := by
  rw [pending_eq_testBit, pending_eq_testBit]
  unfold ctc_interrupt recalc_interrupts
  by_cases hirq : (s.ctc i).ctrl &&& CTC_IRQ = 0
  · simp [hirq]
  · by_cases hbit : s.ctc_irqmask &&& (1 <<< i.val) = 0
    · simp only [ne_eq, hirq, not_false_eq_true, if_true, hbit, decide_True, Bool.and_true]
      rw [testBit_set_bit]
      simp [hj]
    · have hb : s.ctc_irqmask.testBit i.val = true := by
        cases h : s.ctc_irqmask.testBit i.val
        · exact absurd ((land_one_shiftLeft_eq_zero_iff _ _).2 h) hbit
        · rfl
      simp only [ne_eq, hirq, not_false_eq_true, if_true, hbit, if_false, decide_True,
        Bool.and_true]
      by_cases hij : i.val = j
      · rw [← hij, hb]; simp
      · simp [hij]

theorem ctc_fire_pending (i : Fin 4) (s : Machine σ υ) (j : Nat) (hj : j < 8) :
    pending (ctc_fire i s) j
      = (pending s j || (decide (i.val = j) && decide ((s.ctc i).ctrl &&& CTC_IRQ ≠ 0))) := by
  rw [← ctc_interrupt_pending i s j hj]
  rfl

theorem ctc_fire_iterate_pending (i : Fin 4) (k : Nat) (s : Machine σ υ) (j : Nat)
    (hj : j < 8) :
    pending ((ctc_fire i)^[k] s) j
      = (pending s j || (decide (0 < k) && (decide (i.val = j)
          && decide ((s.ctc i).ctrl &&& CTC_IRQ ≠ 0)))) := by
  induction k generalizing s with
  | zero => simp
  | succ k ih =>
    rw [Function.iterate_succ_apply, ih, ctc_fire_pending i s j hj, ctc_fire_ctc]
    cases pending s j <;> cases decide (i.val = j)
      <;> cases decide ((s.ctc i).ctrl &&& CTC_IRQ ≠ 0) <;> simp

theorem ctc_tick_chan_pending (clocks : Nat) (i : Fin 4) (s : Machine σ υ) (j : Nat)
    (hj : j < 8) :
    pending (ctc_tick_chan clocks i s) j
      = (pending s j || (decide (0 < ctc_tick_passes clocks (s.ctc i)) && (decide (i.val = j)
          && decide ((s.ctc i).ctrl &&& CTC_IRQ ≠ 0)))) := by
  rw [ctc_tick_chan_closed]
  split
  · rename_i h
    have : ctc_tick_passes clocks (s.ctc i) = 0 := by
      unfold ctc_tick_passes
      rcases h with h | h
      · simp [h]
      · simp [h]
    simp [this]
  · rw [← ctc_fire_iterate_pending i _ s j hj]
    rfl

/-- The pending flag of channel `j` after one `ctc_tick`: set before, or
raised because the channel fired with its interrupt enabled. -/
theorem ctc_tick_pending (clocks : Nat) (s : Machine σ υ) (j : Fin 4) :
    pending (ctc_tick clocks s) j.val
      = (pending s j.val || (decide (0 < ctc_tick_passes clocks (s.ctc j))
          && decide ((s.ctc j).ctrl &&& CTC_IRQ ≠ 0))) := by
  have hj : j.val < 8 := by have := j.isLt; omega
  unfold ctc_tick
  rw [ctc_tick_chan_pending _ _ _ _ hj, ctc_tick_chan_pending _ _ _ _ hj,
    ctc_tick_chan_pending _ _ _ _ hj, ctc_tick_chan_pending _ _ _ _ hj]
  rw [ctc_tick_chan_ctc_other clocks 2 3 _ (by decide),
    ctc_tick_chan_ctc_other clocks 1 3 _ (by decide),
    ctc_tick_chan_ctc_other clocks 0 3 _ (by decide),
    ctc_tick_chan_ctc_other clocks 1 2 _ (by decide),
    ctc_tick_chan_ctc_other clocks 0 2 _ (by decide),
    ctc_tick_chan_ctc_other clocks 0 1 _ (by decide)]
  have e3 : ((3 : Fin 4) : Nat) = 3 := rfl
  fin_cases j <;> simp [e3]

/-- The channel record after the two-phase configuration: a control byte
requesting reset and a time constant, then the time constant `r`. -/
theorem ctc_configure (s : Machine σ υ) (ch : Fin 4) (ctl r : Nat) (hctl : ctl < 256)
    (ht : (s.ctc ch).ctrl &&& CTC_TCONST = 0) (hcontrol : ctl &&& CTC_CONTROL ≠ 0)
    (htc : ctl &&& CTC_TCONST ≠ 0) (hrst : ctl &&& CTC_RESET ≠ 0) :
    (ctc_write ch r (ctc_write ch ctl s)).ctc ch
      = { s.ctc ch with
          count := toUint16 (((r : Int) - 1) * 256)
          reload := r
          ctrl := ctl &&& 0xFB } := by
  have hT : CTC_TCONST = 4 := rfl
  have hR : CTC_RESET = 2 := rfl
  have hbits := ctrl_byte_bits ⟨ctl, hctl⟩
  simp only at hbits
  have h66 : ctl &&& 6 = 6 := hbits.1.2 ⟨by rw [← hT]; exact htc, by rw [← hR]; exact hrst⟩
  have h62 : ¬ ctl &&& 6 = 2 := by rw [h66]; decide
  have e := ctc_write_control_ctc s ch ctl ht hcontrol
  have hctrl : ((ctc_write ch ctl s).ctc ch).ctrl = ctl := by rw [e]; simp
  have ht2 : ((ctc_write ch ctl s).ctc ch).ctrl &&& CTC_TCONST ≠ 0 := by rw [hctrl]; exact htc
  rw [ctc_write_tconst (ctc_write ch ctl s) ch r ht2]
  simp only [setCtc, Function.update_same, hctrl, h66, if_true]
  rw [e]
  simp [h62]

theorem ctc_tick_start_timer256 (clocks : Nat) (c : z80_ctc)
    (hpre : c.ctrl &&& CTC_PRESCALER ≠ 0) (hclk : clocks < 2147483648)
    (hcount : c.count < 65536) :
    ctc_tick_start clocks c = (c.count : Int) - clocks := by
  unfold ctc_tick_start ctc_decby
  simp only [hpre, if_false]
  rw [toInt32_of_range (clocks : Int) (by omega) (by omega)]
  rw [toInt32_of_range _ (by omega) (by omega)]

/-- A timer-mode channel at prescale 256 whose count is one step short of a
full period `p = ctc_readd c` makes exactly `k` passes in `p * k` clocks and
is left with the same count. -/
theorem ctc_tick_passes_period (c : z80_ctc) (k : Nat)
    (hstop : CTC_STOPPED c = false) (htimer : c.ctrl &&& CTC_COUNTER = 0)
    (hpre : c.ctrl &&& CTC_PRESCALER ≠ 0)
    (hcount : (c.count : Int) + 256 = ctc_readd c) (hp : ctc_readd c ≤ 65536)
    (hrange : ctc_readd c * k < 2147483648) :
    ctc_tick_passes ((ctc_readd c).toNat * k) c = k
    ∧ ctc_tick_start ((ctc_readd c).toNat * k) c + k * ctc_readd c = c.count := by
  have hpos := ctc_readd_pos c
  have hnat : (((ctc_readd c).toNat : Nat) : Int) = ctc_readd c := Int.toNat_of_nonneg (le_of_lt hpos)
  have hclk : (ctc_readd c).toNat * k < 2147483648 := by
    have : (((ctc_readd c).toNat * k : Nat) : Int) < 2147483648 := by
      push_cast; rw [hnat]; exact hrange
    exact_mod_cast this
  have hstart := ctc_tick_start_timer256 ((ctc_readd c).toNat * k) c hpre hclk (by omega)
  have hstart2 : ctc_tick_start ((ctc_readd c).toNat * k) c
      = (c.count : Int) - ctc_readd c * k := by
    rw [hstart]; push_cast; rw [hnat]
  constructor
  · unfold ctc_tick_passes
    simp only [hstop, Bool.false_eq_true, if_false, htimer, ne_eq, not_true_eq_false]
    apply ctc_passes_unique _ _ hpos
    · intro j hj
      rw [hstart2]
      have hj1 : ((j : Int) + 1) ≤ k := by exact_mod_cast hj
      have := mul_le_mul_of_nonneg_right hj1 (le_of_lt hpos)
      nlinarith
    · rw [hstart2]
      have : (0 : Int) ≤ c.count := Int.natCast_nonneg _
      nlinarith
  · rw [hstart2]; ring

theorem land_FB (c : Nat) :
    (c &&& 0xFB) &&& 6 = c &&& 2 ∧ (c &&& 0xFB) &&& CTC_COUNTER = c &&& CTC_COUNTER
    ∧ (c &&& 0xFB) &&& CTC_PRESCALER = c &&& CTC_PRESCALER
    ∧ (c &&& 0xFB) &&& CTC_IRQ = c &&& CTC_IRQ := by
  refine ⟨?_, ?_, ?_, ?_⟩ <;> rw [Nat.and_assoc] <;> rfl

theorem not_stopped_of_FB (c : z80_ctc) (x : Nat) (h : c.ctrl = x &&& 0xFB) :
    CTC_STOPPED c = false := by
  have h6 : CTC_TCONST ||| CTC_RESET = 6 := by decide
  unfold CTC_STOPPED
  rw [h6, h, (land_FB x).1]
  have : x &&& 2 ≤ 2 := Nat.and_le_right
  simp only [beq_eq_false_iff_ne, ne_eq]
  omega

/-- C6: a channel (not awaiting a time constant) is configured by a control
byte with interrupt enable, prescale 256, time constant follows and reset set
and counter mode clear, then by the time constant `R` with `1 ≤ R ≤ 255`.
For every `k ≥ 1` with `R * 256 * k` in `int` range one call
`ctc_tick(R * 256 * k)` runs the fire-and-re-add step of that channel exactly
`k` times (`k` calls of `ctc_pulse` for it), leaves its interrupt pending and
its count back at `(R - 1) << 8`. -/
theorem ctc_tick_fires_k_times (s : Machine σ υ) (ch : Fin 4) (ctl R k : Nat)
    (hctl : ctl < 256) (ht : (s.ctc ch).ctrl &&& CTC_TCONST = 0)
    (hcontrol : ctl &&& CTC_CONTROL ≠ 0) (hirq : ctl &&& CTC_IRQ ≠ 0)
    (hpre : ctl &&& CTC_PRESCALER ≠ 0) (htc : ctl &&& CTC_TCONST ≠ 0)
    (hrst : ctl &&& CTC_RESET ≠ 0) (htimer : ctl &&& CTC_COUNTER = 0)
    (hR1 : 1 ≤ R) (hR2 : R ≤ 255) (hk : 1 ≤ k) (hrange : R * 256 * k < 2147483648) :
    (ctc_tick (R * 256 * k) (ctc_write ch R (ctc_write ch ctl s))).pulses.count ch.val
      = (ctc_write ch R (ctc_write ch ctl s)).pulses.count ch.val + k
    ∧ ctc_tick_passes (R * 256 * k) ((ctc_write ch R (ctc_write ch ctl s)).ctc ch) = k
    ∧ pending (ctc_tick (R * 256 * k) (ctc_write ch R (ctc_write ch ctl s))) ch.val = true
    ∧ ((ctc_tick (R * 256 * k) (ctc_write ch R (ctc_write ch ctl s))).ctc ch).count
        = (R - 1) * 256 := by
  have hcfg := ctc_configure s ch ctl R hctl ht hcontrol htc hrst
  have hRne : R ≠ 0 := by omega
  have hcount0 : toUint16 (((R : Int) - 1) * 256) = (R - 1) * 256 := by
    rw [toUint16_of_range _ (by omega) (by omega)]
    omega
  have hctrl : ((ctc_write ch R (ctc_write ch ctl s)).ctc ch).ctrl = ctl &&& 0xFB := by
    rw [hcfg]
  have hreload : ((ctc_write ch R (ctc_write ch ctl s)).ctc ch).reload = R := by rw [hcfg]
  have hcnt : ((ctc_write ch R (ctc_write ch ctl s)).ctc ch).count = (R - 1) * 256 := by
    rw [hcfg]; exact hcount0
  have hreadd : ctc_readd ((ctc_write ch R (ctc_write ch ctl s)).ctc ch) = (R : Int) * 256 := by
    unfold ctc_readd
    rw [hreload, if_neg hRne]
  have hstop := not_stopped_of_FB _ ctl hctrl
  have htimer2 : ((ctc_write ch R (ctc_write ch ctl s)).ctc ch).ctrl &&& CTC_COUNTER = 0 := by
    rw [hctrl, (land_FB ctl).2.1]; exact htimer
  have hpre2 : ((ctc_write ch R (ctc_write ch ctl s)).ctc ch).ctrl &&& CTC_PRESCALER ≠ 0 := by
    rw [hctrl, (land_FB ctl).2.2.1]; exact hpre
  have hirq2 : ((ctc_write ch R (ctc_write ch ctl s)).ctc ch).ctrl &&& CTC_IRQ ≠ 0 := by
    rw [hctrl, (land_FB ctl).2.2.2]; exact hirq
  have hper := ctc_tick_passes_period ((ctc_write ch R (ctc_write ch ctl s)).ctc ch) k
    hstop htimer2 hpre2 (by rw [hcnt, hreadd]; omega) (by rw [hreadd]; omega)
    (by rw [hreadd]; exact_mod_cast hrange)
  have hclocks : (ctc_readd ((ctc_write ch R (ctc_write ch ctl s)).ctc ch)).toNat * k
      = R * 256 * k := by
    rw [hreadd]
    have : ((R : Int) * 256).toNat = R * 256 := by omega
    rw [this]
  rw [hclocks] at hper
  refine ⟨?_, hper.1, ?_, ?_⟩
  · rw [ctc_tick_pulses_count, hper.1]
  · rw [ctc_tick_pending, hper.1]
    have hk0 : 0 < k := hk
    simp [hirq2, hk0]
  · rw [ctc_tick_ctc]
    have hns : ¬ (CTC_STOPPED ((ctc_write ch R (ctc_write ch ctl s)).ctc ch) = true
        ∨ ((ctc_write ch R (ctc_write ch ctl s)).ctc ch).ctrl &&& CTC_COUNTER ≠ 0) := by
      rw [hstop, htimer2]; simp
    rw [if_neg hns, hper.1, hper.2, hcnt]
    show toUint16 (((R - 1) * 256 : Nat) : Int) = (R - 1) * 256
    rw [toUint16_of_range _ (by omega) (by omega)]
    omega

/-- Instance: control byte 0xA7 and reload 5 on channel 0; `ctc_tick(5 * 256)`
fires once and `ctc_tick(5 * 256 * 3)` three times. -/
theorem ctc_tick_fires_k_times_witness :
    (0xA7 : Nat) < 256 ∧ (demoMachine.ctc 0).ctrl &&& CTC_TCONST = 0
    ∧ 0xA7 &&& CTC_CONTROL ≠ 0 ∧ 0xA7 &&& CTC_IRQ ≠ 0 ∧ 0xA7 &&& CTC_PRESCALER ≠ 0
    ∧ 0xA7 &&& CTC_TCONST ≠ 0 ∧ 0xA7 &&& CTC_RESET ≠ 0 ∧ 0xA7 &&& CTC_COUNTER = 0
    ∧ (ctc_tick (5 * 256 * 1) (ctc_write 0 5 (ctc_write 0 0xA7 demoMachine))).pulses.count
          (0 : Fin 4).val
        = (ctc_write 0 5 (ctc_write 0 0xA7 demoMachine)).pulses.count (0 : Fin 4).val + 1
    ∧ (ctc_tick (5 * 256 * 3) (ctc_write 0 5 (ctc_write 0 0xA7 demoMachine))).pulses.count
          (0 : Fin 4).val
        = (ctc_write 0 5 (ctc_write 0 0xA7 demoMachine)).pulses.count (0 : Fin 4).val + 3 :=
  ⟨by decide, by decide, by decide, by decide, by decide, by decide, by decide, by decide,
    (ctc_tick_fires_k_times demoMachine 0 0xA7 5 1 (by decide) (by decide) (by decide)
      (by decide) (by decide) (by decide) (by decide) (by decide) (by decide) (by decide)
      (by decide) (by decide)).1,
    (ctc_tick_fires_k_times demoMachine 0 0xA7 5 3 (by decide) (by decide) (by decide)
      (by decide) (by decide) (by decide) (by decide) (by decide) (by decide) (by decide)
      (by decide) (by decide)).1⟩

/-- C9: writing the time constant 0 to a channel that is stopped (reset
and time-constant-follows both set) stores reload 0 and the 16-bit count
`(256 - 1) << 8 = 0xFF00`, so `ctc_read` returns 255; every pass of the loop
of `ctc_tick` on a channel with reload 0 re-adds `256 << 8`; hence in timer
mode at prescale 256 a call `ctc_tick(256 * 256 * k)` fires the channel
exactly `k` times and leaves the count at 0xFF00: one firing per 65536
clocks. -/
theorem ctc_write_zero_time_constant (s : Machine σ υ) (ch : Fin 4)
    (hstop : CTC_STOPPED (s.ctc ch) = true) :
    ((ctc_write ch 0 s).ctc ch).reload = 0
    ∧ ((ctc_write ch 0 s).ctc ch).count = 0xFF00
    ∧ (0xFF00 : Nat) = (256 - 1) <<< 8
    ∧ ctc_read ch (ctc_write ch 0 s) = 255
    ∧ ctc_readd ((ctc_write ch 0 s).ctc ch) = ((256 <<< 8 : Nat) : Int)
    ∧ (∀ (n : Int) (t : Machine σ υ), n < 0 → (t.ctc ch).reload = 0 →
        ctc_tick_loop ch n t = ctc_tick_loop ch (n + ((256 <<< 8 : Nat) : Int)) (ctc_fire ch t))
    ∧ ((s.ctc ch).ctrl &&& CTC_PRESCALER ≠ 0 → (s.ctc ch).ctrl &&& CTC_COUNTER = 0 →
        ∀ k : Nat, 256 * 256 * k < 2147483648 →
          (ctc_tick (256 * 256 * k) (ctc_write ch 0 s)).pulses.count ch.val
            = (ctc_write ch 0 s).pulses.count ch.val + k
          ∧ ((ctc_tick (256 * 256 * k) (ctc_write ch 0 s)).ctc ch).count = 0xFF00) := by
  have h6 : CTC_TCONST ||| CTC_RESET = 6 := by decide
  have hs6 : (s.ctc ch).ctrl &&& 6 = 6 := by
    unfold CTC_STOPPED at hstop
    rw [h6] at hstop
    simpa using hstop
  have ht : (s.ctc ch).ctrl &&& CTC_TCONST ≠ 0 := by
    have h4 : ((s.ctc ch).ctrl &&& 6) &&& 4 = (s.ctc ch).ctrl &&& 4 := by
      rw [Nat.and_assoc]; rfl
    rw [hs6] at h4
    have hT : CTC_TCONST = 4 := rfl
    rw [hT, ← h4]
    decide
  have e := ctc_write_tconst s ch 0 ht
  have hctrl : ((ctc_write ch 0 s).ctc ch).ctrl = (s.ctc ch).ctrl &&& 0xFB := by
    rw [e]; simp [setCtc]
  have hreload : ((ctc_write ch 0 s).ctc ch).reload = 0 := by rw [e]; simp [setCtc]
  have hcnt : ((ctc_write ch 0 s).ctc ch).count = 0xFF00 := by
    rw [e]
    simp only [setCtc, Function.update_same, hs6, if_true]
    decide
  have hreadd : ctc_readd ((ctc_write ch 0 s).ctc ch) = 65536 := by
    unfold ctc_readd
    rw [hreload]
    rfl
  refine ⟨hreload, hcnt, by decide, ?_, ?_, ?_, ?_⟩
  · unfold ctc_read
    rw [hcnt]
    decide
  · rw [hreadd]; rfl
  · intro n t hn hr
    rw [ctc_tick_loop_neg ch n t hn]
    have : ctc_readd (t.ctc ch) = ((256 <<< 8 : Nat) : Int) := by
      unfold ctc_readd
      rw [hr]
      rfl
    rw [this]
  · intro hpre htimer k hk
    have hns := not_stopped_of_FB _ (s.ctc ch).ctrl hctrl
    have htimer2 : ((ctc_write ch 0 s).ctc ch).ctrl &&& CTC_COUNTER = 0 := by
      rw [hctrl, (land_FB _).2.1]; exact htimer
    have hpre2 : ((ctc_write ch 0 s).ctc ch).ctrl &&& CTC_PRESCALER ≠ 0 := by
      rw [hctrl, (land_FB _).2.2.1]; exact hpre
    have hper := ctc_tick_passes_period ((ctc_write ch 0 s).ctc ch) k hns htimer2 hpre2
      (by rw [hcnt, hreadd]; norm_num) (by rw [hreadd]) (by rw [hreadd]; omega)
    have hclocks : (ctc_readd ((ctc_write ch 0 s).ctc ch)).toNat * k = 256 * 256 * k := by
      rw [hreadd]
      rfl
    rw [hclocks] at hper
    constructor
    · rw [ctc_tick_pulses_count, hper.1]
    · rw [ctc_tick_ctc]
      have hnot : ¬ (CTC_STOPPED ((ctc_write ch 0 s).ctc ch) = true
          ∨ ((ctc_write ch 0 s).ctc ch).ctrl &&& CTC_COUNTER ≠ 0) := by
        rw [hns, htimer2]; simp
      rw [if_neg hnot, hper.1, hper.2, hcnt]
      rfl

/-- Instance: time constant 0 on the stopped channel 1; two firings in
`2 * 65536` clocks. -/
theorem ctc_write_zero_time_constant_witness :
    CTC_STOPPED (awaitingInput.ctc 1) = true
    ∧ ((ctc_write 1 0 awaitingInput).ctc 1).count = 0xFF00
    ∧ ctc_read 1 (ctc_write 1 0 awaitingInput) = 255
    ∧ (ctc_tick (256 * 256 * 2) (ctc_write 1 0 awaitingInput)).pulses.count (1 : Fin 4).val
        = (ctc_write 1 0 awaitingInput).pulses.count (1 : Fin 4).val + 2 :=
  have h := ctc_write_zero_time_constant awaitingInput 1 (by decide)
  ⟨by decide, h.2.1, h.2.2.2.1,
    (h.2.2.2.2.2.2 (by decide) (by decide) 2 (by decide)).1⟩

/-! ## Banked memory and the boot overlay -/

theorem mem_read_fst (X : Peripherals σ υ δ ν ι) (m1 : Bool) (a : Nat) (b : Board σ υ δ ν ι) :
    (mem_read X m1 a b).1 = do_mem_read a 0 b := by
  unfold mem_read mem_read_tail
  dsimp only
  split_ifs <;> rfl

theorem map_addr_ram (a w : Nat) (b : Board σ υ δ ν ι) (h : w ≠ 0 ∨ b.flash_in = 0) :
    map_addr a w b
      = Cell.ram ((if a ≥ 0x8000 then 15 else b.gpio_out >>> 4) * 0x8000 + (a &&& 0x7FFF)) := by
  unfold map_addr
  have hn : ¬ (b.flash_in ≠ 0 ∧ w = 0) := by
    rintro ⟨h1, h2⟩
    rcases h with h | h
    · exact h h2
    · exact h1 h
  rw [if_neg hn]

theorem map_addr_rom (a : Nat) (b : Board σ υ δ ν ι) (h : b.flash_in ≠ 0) :
    map_addr a 0 b = Cell.rom (a &&& b.rom_mask) := by
  unfold map_addr
  rw [if_pos ⟨h, rfl⟩]

/-- C13: for a write, and for a read while the boot overlay is inactive,
`map_addr` resolves address `a` to the RAM cell `bank * 32768 + (a & 0x7FFF)`
with `bank = 15` for `a ≥ 0x8000`, whatever `gpio_out` holds (any two values
of `gpio_out` give the same cell), and `bank = gpio_out >> 4` for
`a < 0x8000`. -/
theorem map_addr_bank_formula (b : Board σ υ δ ν ι) (a w : Nat)
    (h : w ≠ 0 ∨ b.flash_in = 0) :
    (a ≥ 0x8000 → ∀ g : Nat,
        map_addr a w { b with gpio_out := g } = Cell.ram (15 * 32768 + (a &&& 0x7FFF)))
    ∧ (a ≥ 0x8000 → ∀ g g2 : Nat,
        map_addr a w { b with gpio_out := g } = map_addr a w { b with gpio_out := g2 })
    ∧ (a < 0x8000 →
        map_addr a w b = Cell.ram ((b.gpio_out >>> 4) * 32768 + (a &&& 0x7FFF))) := by
  have key : ∀ g : Nat, map_addr a w { b with gpio_out := g }
      = Cell.ram ((if a ≥ 0x8000 then 15 else g >>> 4) * 0x8000 + (a &&& 0x7FFF)) :=
    fun g => map_addr_ram a w { b with gpio_out := g } h
  refine ⟨?_, ?_, ?_⟩
  · intro ha g
    rw [key g, if_pos ha]
  · intro ha g g2
    rw [key g, key g2, if_pos ha, if_pos ha]
  · intro ha
    rw [map_addr_ram a w b h, if_neg (by omega)]

/-- Instance: a write to 0x9000 goes to bank 15 for the bank selectors 0x20
and 0xF0 alike; a read of 0x1234 with the overlay off and bank selector 0x20
goes to bank 2. -/
theorem map_addr_bank_formula_witness :
    ((1 : Nat) ≠ 0 ∨ demoBoard.flash_in = 0)
    ∧ map_addr 0x9000 1 { demoBoard with gpio_out := 0x20 }
        = Cell.ram (15 * 32768 + (0x9000 &&& 0x7FFF))
    ∧ map_addr 0x9000 1 { demoBoard with gpio_out := 0x20 }
        = map_addr 0x9000 1 { demoBoard with gpio_out := 0xF0 }
    ∧ map_addr 0x1234 0 { demoBoard with flash_in := 0, gpio_out := 0x20 }
        = Cell.ram (2 * 32768 + 0x1234) :=
  ⟨Or.inl (by decide),
    (map_addr_bank_formula demoBoard 0x9000 1 (Or.inl (by decide))).1 (by decide) 0x20,
    (map_addr_bank_formula demoBoard 0x9000 1 (Or.inl (by decide))).2.1 (by decide) 0x20 0xF0,
    (map_addr_bank_formula { demoBoard with flash_in := 0, gpio_out := 0x20 } 0x1234 0
      (Or.inr rfl)).2.2 (by decide)⟩

/-- C14: with the boot overlay inactive, `mem_write(a, v)` followed by
`mem_read(a)` returns `v`, for every monitor state `rstate` held by the
board, every value of the M1 flag and every bank selector. -/
theorem mem_write_then_read (X : Peripherals σ υ δ ν ι) (b : Board σ υ δ ν ι) (a v : Nat)
    (m1 : Bool) (ha : a < 65536) (hv : v < 256) (hf : b.flash_in = 0) :
    (mem_read X m1 a (mem_write a v b)).1 = v
    ∧ (mem_write a v b).gpio_out = b.gpio_out
    ∧ (mem_write a v b).rstate = b.rstate := by
  have _ := ha
  have _ := hv
  have hw := map_addr_ram a 1 b (Or.inl (by decide))
  have hb : mem_write a v b
      = { b with ram := (Function.update b.ram
            ((if a ≥ 0x8000 then 15 else b.gpio_out >>> 4) * 0x8000 + (a &&& 0x7FFF)) v) } := by
    unfold mem_write
    rw [hw]
    rfl
  have hr := map_addr_ram a 0 (mem_write a v b) (Or.inr (by rw [hb]; exact hf))
  refine ⟨?_, by rw [hb], by rw [hb]⟩
  rw [mem_read_fst]
  unfold do_mem_read
  rw [hr, hb]
  simp [load]

/-- Instance: 0x42 written to 0x1234 in bank 3 is read back during an M1
fetch with the monitor in state 1. -/
theorem mem_write_then_read_witness :
    (0x1234 : Nat) < 65536 ∧ (0x42 : Nat) < 256
    ∧ ({ demoBoard with flash_in := 0, gpio_out := 0x30, rstate := 1 } :
        Board Int Unit Nat Unit Unit).flash_in = 0
    ∧ (mem_read demoPeripherals true 0x1234
        (mem_write 0x1234 0x42 { demoBoard with flash_in := 0, gpio_out := 0x30, rstate := 1 })).1
        = 0x42 :=
  ⟨by decide, by decide, rfl,
    (mem_write_then_read demoPeripherals
      { demoBoard with flash_in := 0, gpio_out := 0x30, rstate := 1 } 0x1234 0x42 true
      (by decide) (by decide) rfl).1⟩

theorem io_read_flash_port (X : Peripherals σ υ δ ν ι) (port : Nat) (b : Board σ υ δ ν ι)
    (hp : (port &&& 0xFF) &&& 0xF0 = 0x70) :
    io_read X port b = (0xFF, { b with flash_in := 0 }) := by
  unfold io_read
  simp only [hp]
  rfl

theorem io_write_tail_id (addr val : Nat) (b : Board σ υ δ ν ι)
    (h1 : addr ≠ 0xFD) (h2 : addr ≠ 0xFE) : io_write_tail addr val b = b := by
  unfold io_write_tail
  rw [if_neg h1, if_neg h2]

theorem io_write_flash_port (X : Peripherals σ υ δ ν ι) (port val : Nat)
    (b : Board σ υ δ ν ι) (hp : (port &&& 0xFF) &&& 0xF0 = 0x70) :
    io_write X port val b = b := by
  have h1 : port &&& 0xFF ≠ 0xFD := by
    intro h; rw [h] at hp; exact absurd hp (by decide)
  have h2 : port &&& 0xFF ≠ 0xFE := by
    intro h; rw [h] at hp; exact absurd hp (by decide)
  unfold io_write
  simp only [hp]
  exact io_write_tail_id _ _ _ h1 h2

theorem mem_read_overlay_off (X : Peripherals σ υ δ ν ι) (m1 : Bool) (a : Nat)
    (b : Board σ υ δ ν ι) (hf : b.flash_in = 0) :
    (mem_read X m1 a b).1
      = b.ram ((if a ≥ 0x8000 then 15 else b.gpio_out >>> 4) * 0x8000 + (a &&& 0x7FFF)) := by
  rw [mem_read_fst]
  unfold do_mem_read
  rw [map_addr_ram a 0 b (Or.inr hf)]
  rfl

theorem mem_read_overlay_on (X : Peripherals σ υ δ ν ι) (m1 : Bool) (a : Nat)
    (b : Board σ υ δ ν ι) (hf : b.flash_in ≠ 0) :
    (mem_read X m1 a b).1 = b.rom (a &&& b.rom_mask) := by
  rw [mem_read_fst]
  unfold do_mem_read
  rw [map_addr_rom a b hf]
  rfl

theorem mem_write_eq (a v : Nat) (b : Board σ υ δ ν ι) :
    mem_write a v b
      = { b with ram := (Function.update b.ram
            ((if a ≥ 0x8000 then 15 else b.gpio_out >>> 4) * 0x8000 + (a &&& 0x7FFF)) v) } := by
  unfold mem_write
  rw [map_addr_ram a 1 b (Or.inl (by decide))]
  rfl

/-- C15: while the boot overlay is active `mem_read(a)` returns
`rom[a & rom_mask]` whatever the RAM holds; `mem_write(a, v)` leaves the ROM
image and the overlay flag alone, so every read made while the overlay stays
active returns what it returned before, and it stores `v` in the RAM cell of
the bank formula; once the overlay is disabled (by an access to port 0x7x,
or with the flag cleared directly) `mem_read(a)` under the same bank
selector returns `v`. -/
theorem boot_overlay_write_through (X : Peripherals σ υ δ ν ι) (b : Board σ υ δ ν ι)
    (a v : Nat) (m1 : Bool) (ha : a < 65536) (hv : v < 256) (hf : b.flash_in ≠ 0) :
    (mem_read X m1 a b).1 = b.rom (a &&& b.rom_mask)
    ∧ (∀ r : Nat → Nat, (mem_read X m1 a { b with ram := r }).1 = b.rom (a &&& b.rom_mask))
    ∧ (∀ (a2 : Nat) (m2 : Bool),
        (mem_read X m2 a2 (mem_write a v b)).1 = (mem_read X m2 a2 b).1)
    ∧ (mem_write a v b).rom = b.rom
    ∧ (mem_write a v b).flash_in = b.flash_in
    ∧ (mem_write a v b).ram
        ((if a ≥ 0x8000 then 15 else b.gpio_out >>> 4) * 32768 + (a &&& 0x7FFF)) = v
    ∧ (∀ port : Nat, (port &&& 0xFF) &&& 0xF0 = 0x70 →
        (mem_read X m1 a (io_read X port (mem_write a v b)).2).1 = v)
    ∧ (mem_read X m1 a { mem_write a v b with flash_in := 0 }).1 = v := by
  have _ := ha
  have _ := hv
  have hw := mem_write_eq a v b
  refine ⟨mem_read_overlay_on X m1 a b hf, ?_, ?_, by rw [hw], by rw [hw], ?_, ?_, ?_⟩
  · intro r
    exact mem_read_overlay_on X m1 a { b with ram := r } hf
  · intro a2 m2
    rw [mem_read_overlay_on X m2 a2 b hf,
      mem_read_overlay_on X m2 a2 (mem_write a v b) (by rw [hw]; exact hf), hw]
  · rw [hw]
    simp
  · intro port hp
    rw [io_read_flash_port X port _ hp]
    rw [mem_read_overlay_off X m1 a _ rfl, hw]
    simp
  · rw [mem_read_overlay_off X m1 a _ rfl, hw]
    simp

/-- Instance: with the overlay on, 0x42 written to 0x0100 does not show in
reads (the ROM byte 0xAA is returned) until port 0x70 has been read. -/
theorem boot_overlay_write_through_witness :
    (0x0100 : Nat) < 65536 ∧ (0x42 : Nat) < 256 ∧ demoBoard.flash_in ≠ 0
    ∧ (mem_read demoPeripherals true 0x0100 (mem_write 0x0100 0x42 demoBoard)).1
        = (mem_read demoPeripherals true 0x0100 demoBoard).1
    ∧ (mem_read demoPeripherals true 0x0100 demoBoard).1 = demoBoard.rom (0x0100 &&& 0x3FFF)
    ∧ (mem_read demoPeripherals true 0x0100
        (io_read demoPeripherals 0x70 (mem_write 0x0100 0x42 demoBoard)).2).1 = 0x42 :=
  have h := boot_overlay_write_through demoPeripherals demoBoard 0x0100 0x42 true
    (by decide) (by decide) (by decide)
  ⟨by decide, by decide, by decide, h.2.2.1 0x0100 true, h.1, h.2.2.2.2.2.2.1 0x70 (by decide)⟩

/-- C16 (counterexample to the claim as stated): with the boot overlay active
`io_write` to port 0x70 leaves `flash_in` set, and the read of address 0 that
follows is still served from the ROM image (0xAA), not from RAM (0x55). -/
theorem io_write_flash_port_keeps_overlay :
    ((0x70 : Nat) &&& 0xFF) &&& 0xF0 = 0x70
    ∧ demoBoard.flash_in = 1
    ∧ (io_write demoPeripherals 0x70 0 demoBoard).flash_in = 1
    ∧ (mem_read demoPeripherals false 0 (io_write demoPeripherals 0x70 0 demoBoard)).1 = 0xAA
    ∧ demoBoard.rom 0 = 0xAA ∧ demoBoard.ram 0 = 0x55 := by
  refine ⟨by decide, rfl, ?_, ?_, rfl, rfl⟩
  · rw [io_write_flash_port demoPeripherals 0x70 0 demoBoard (by decide)]
    rfl
  · rw [io_write_flash_port demoPeripherals 0x70 0 demoBoard (by decide),
      mem_read_overlay_on demoPeripherals false 0 demoBoard (by decide)]
    rfl

/-- C16 (amended): an `io_read` of a port whose low byte has high nibble 0x7
returns 0xFF and clears the boot overlay, changing nothing else; every
`mem_read` after it is served from banked RAM by the bank formula, not from
the ROM image.  An `io_write` to such a port changes nothing: the overlay
flag keeps its value. -/
theorem io_read_flash_port_disables_overlay (X : Peripherals σ υ δ ν ι)
    (b : Board σ υ δ ν ι) (port : Nat) (hp : (port &&& 0xFF) &&& 0xF0 = 0x70) :
    (io_read X port b).1 = 0xFF
    ∧ (io_read X port b).2 = { b with flash_in := 0 }
    ∧ (io_read X port b).2.flash_in = 0
    ∧ (∀ (a : Nat) (m1 : Bool), (mem_read X m1 a (io_read X port b).2).1
        = b.ram ((if a ≥ 0x8000 then 15 else b.gpio_out >>> 4) * 32768 + (a &&& 0x7FFF)))
    ∧ (∀ val : Nat, io_write X port val b = b) := by
  have h := io_read_flash_port X port b hp
  refine ⟨by rw [h], by rw [h], by rw [h], ?_, fun val => io_write_flash_port X port val b hp⟩
  intro a m1
  rw [h, mem_read_overlay_off X m1 a _ rfl]

/-- Instance: a read of port 0x1270 (low byte 0x70) on the board at start-up. -/
theorem io_read_flash_port_disables_overlay_witness :
    ((0x1270 : Nat) &&& 0xFF) &&& 0xF0 = 0x70
    ∧ (io_read demoPeripherals 0x1270 demoBoard).1 = 0xFF
    ∧ (io_read demoPeripherals 0x1270 demoBoard).2.flash_in = 0
    ∧ (mem_read demoPeripherals true 0
        (io_read demoPeripherals 0x1270 demoBoard).2).1 = demoBoard.ram (0 * 32768 + 0) :=
  have h := io_read_flash_port_disables_overlay demoPeripherals demoBoard 0x1270 (by decide)
  ⟨by decide, h.1, h.2.2.1, h.2.2.2.1 0 true⟩

/-! ## The instruction-stream monitor -/

theorem mem_read_lead_byte (X : Peripherals σ υ δ ν ι) (a : Nat) (b : Board σ υ δ ν ι)
    (h : do_mem_read a 0 b = 0xDD ∨ do_mem_read a 0 b = 0xFD ∨ do_mem_read a 0 b = 0xCB) :
    mem_read X true a b = (do_mem_read a 0 b, { b with rstate := 2 }) := by
  unfold mem_read
  simp only [if_true, h]

theorem mem_read_ed_idle (X : Peripherals σ υ δ ν ι) (a : Nat) (b : Board σ υ δ ν ι)
    (hr : do_mem_read a 0 b = 0xED) (h0 : b.rstate = 0) :
    mem_read X true a b = (0xED, { b with rstate := 1 }) := by
  unfold mem_read
  simp [hr, h0]

theorem mem_read_4d_armed (X : Peripherals σ υ δ ν ι) (m1 : Bool) (a : Nat)
    (b : Board σ υ δ ν ι) (hr : do_mem_read a 0 b = 0x4D) (h1 : b.rstate = 1) :
    mem_read X m1 a b = (0x4D, { reti_signal X b with rstate := 0 }) := by
  unfold mem_read mem_read_tail
  cases m1 <;> simp [hr, h1]

theorem mem_read_ed_busy (X : Peripherals σ υ δ ν ι) (m1 : Bool) (a : Nat)
    (b : Board σ υ δ ν ι) (hr : do_mem_read a 0 b = 0xED) (h0 : b.rstate ≠ 0) :
    mem_read X m1 a b = (0xED, { b with rstate := 0 }) := by
  unfold mem_read mem_read_tail
  cases m1 <;> simp [hr, h0]

theorem mem_read_4d_unarmed (X : Peripherals σ υ δ ν ι) (m1 : Bool) (a : Nat)
    (b : Board σ υ δ ν ι) (hr : do_mem_read a 0 b = 0x4D) (h1 : b.rstate ≠ 1) :
    mem_read X m1 a b = (0x4D, { b with rstate := 0 }) := by
  unfold mem_read mem_read_tail
  cases m1 <;> simp [hr, h1]

/-- C11: with the monitor idle (`rstate = 0`), an M1 fetch that reads 0xED
followed by a read (M1 or not) that gets 0x4D calls `reti_event` exactly
once, on the second read: the first read leaves the call count and the
arbiter state alone, the second adds one call and applies `reti_event` to the
arbiter state; the monitor is idle afterwards and both reads return the byte
they fetched from memory. -/
theorem mem_read_ed_4d_signals_once (X : Peripherals σ υ δ ν ι) (b : Board σ υ δ ν ι)
    (a1 a2 : Nat) (m2 : Bool) (h0 : b.rstate = 0) (h1 : do_mem_read a1 0 b = 0xED)
    (h2 : do_mem_read a2 0 (mem_read X true a1 b).2 = 0x4D) :
    (mem_read X true a1 b).1 = 0xED
    ∧ (mem_read X true a1 b).1 = do_mem_read a1 0 b
    ∧ (mem_read X true a1 b).2.retis = b.retis
    ∧ (mem_read X true a1 b).2.irq = b.irq
    ∧ (mem_read X m2 a2 (mem_read X true a1 b).2).1 = 0x4D
    ∧ (mem_read X m2 a2 (mem_read X true a1 b).2).1
        = do_mem_read a2 0 (mem_read X true a1 b).2
    ∧ (mem_read X m2 a2 (mem_read X true a1 b).2).2.retis = b.retis + 1
    ∧ (mem_read X m2 a2 (mem_read X true a1 b).2).2.irq = reti_event X.irq b.irq
    ∧ (mem_read X m2 a2 (mem_read X true a1 b).2).2.rstate = 0 := by
  have e1 := mem_read_ed_idle X a1 b h1 h0
  rw [e1] at h2 ⊢
  have e2 := mem_read_4d_armed X m2 a2 { b with rstate := 1 } h2 rfl
  rw [e2]
  exact ⟨rfl, h1.symm, rfl, rfl, rfl, h2.symm, rfl, rfl, rfl⟩

/-- Instance: fetching ED at address 0 and then 4D at address 1. -/
theorem mem_read_ed_4d_signals_once_witness :
    retiBoard.rstate = 0 ∧ do_mem_read 0 0 retiBoard = 0xED
    ∧ do_mem_read 1 0 (mem_read demoPeripherals true 0 retiBoard).2 = 0x4D
    ∧ (mem_read demoPeripherals true 0 retiBoard).2.retis = retiBoard.retis
    ∧ (mem_read demoPeripherals false 1
        (mem_read demoPeripherals true 0 retiBoard).2).2.retis = retiBoard.retis + 1 :=
  have h := mem_read_ed_4d_signals_once demoPeripherals retiBoard 0 1 false
    (by decide) (by decide) (by decide)
  ⟨by decide, by decide, by decide, h.2.2.1, h.2.2.2.2.2.2.1⟩

/-- C12: from any monitor state, an M1 fetch of a lead byte `p` (0xDD, 0xFD
or 0xCB), an M1 fetch of 0xED and a read of 0x4D (M1 or not) make no call
of `reti_event`: the call count and the arbiter state after each of the
three reads are those before the first, and the monitor ends idle. -/
theorem mem_read_lead_ed_4d_silent (X : Peripherals σ υ δ ν ι) (b : Board σ υ δ ν ι)
    (p a1 a2 a3 : Nat) (m3 : Bool) (hp : p = 0xDD ∨ p = 0xFD ∨ p = 0xCB)
    (h1 : do_mem_read a1 0 b = p)
    (h2 : do_mem_read a2 0 (mem_read X true a1 b).2 = 0xED)
    (h3 : do_mem_read a3 0 (mem_read X true a2 (mem_read X true a1 b).2).2 = 0x4D) :
    (mem_read X true a1 b).2.retis = b.retis
    ∧ (mem_read X true a2 (mem_read X true a1 b).2).2.retis = b.retis
    ∧ (mem_read X m3 a3 (mem_read X true a2 (mem_read X true a1 b).2).2).2.retis = b.retis
    ∧ (mem_read X m3 a3 (mem_read X true a2 (mem_read X true a1 b).2).2).2.irq = b.irq
    ∧ (mem_read X m3 a3 (mem_read X true a2 (mem_read X true a1 b).2).2).2.rstate = 0 := by
  have e1 := mem_read_lead_byte X a1 b (by rw [h1]; exact hp)
  rw [e1] at h2 h3 ⊢
  have e2 := mem_read_ed_busy X true a2 { b with rstate := 2 } h2
    (show (2 : Nat) ≠ 0 by decide)
  rw [e2] at h3 ⊢
  have e3 := mem_read_4d_unarmed X m3 a3 _ h3 (show (0 : Nat) ≠ 1 by decide)
  rw [e3]
  exact ⟨rfl, rfl, rfl, rfl, rfl⟩

/-- Instance: DD, ED, 4D fetched from addresses 0, 1, 2 with the monitor
starting in state 1. -/
theorem mem_read_lead_ed_4d_silent_witness :
    ((0xDD : Nat) = 0xDD ∨ (0xDD : Nat) = 0xFD ∨ (0xDD : Nat) = 0xCB)
    ∧ do_mem_read 0 0 leadByteBoard = 0xDD
    ∧ (mem_read demoPeripherals true 2 (mem_read demoPeripherals true 1
        (mem_read demoPeripherals true 0 leadByteBoard).2).2).2.retis = leadByteBoard.retis
    ∧ (mem_read demoPeripherals true 2 (mem_read demoPeripherals true 1
        (mem_read demoPeripherals true 0 leadByteBoard).2).2).2.rstate = 0 :=
  have h := mem_read_lead_ed_4d_silent demoPeripherals leadByteBoard 0xDD 0 1 2 true
    (by decide) (by decide) (by decide) (by decide)
  ⟨by decide, by decide, h.2.2.1, h.2.2.2.2⟩

/-! ## The I/O bus -/

theorem io_read_low_byte (X : Peripherals σ υ δ ν ι) (port : Nat) (b : Board σ υ δ ν ι) :
    io_read X port b = io_read X (port &&& 0xFF) b := by
  have h : (port &&& 0xFF) &&& 0xFF = port &&& 0xFF := by
    rw [Nat.and_assoc, Nat.and_self]
  unfold io_read
  rw [h]

theorem io_write_low_byte (X : Peripherals σ υ δ ν ι) (port val : Nat)
    (b : Board σ υ δ ν ι) : io_write X port val b = io_write X (port &&& 0xFF) val b := by
  have h : (port &&& 0xFF) &&& 0xFF = port &&& 0xFF := by
    rw [Nat.and_assoc, Nat.and_self]
  unfold io_write
  rw [h]

theorem io_read_gpio (X : Peripherals σ υ δ ν ι) (port : Nat) (b : Board σ υ δ ν ι)
    (h : (port &&& 0xFF) &&& 0xF0 = 0x00) : io_read X port b = (b.gpio_in, b) := by
  unfold io_read
  simp only [h]
  rfl

theorem io_read_sio (X : Peripherals σ υ δ ν ι) (port : Nat) (b : Board σ υ δ ν ι)
    (h : (port &&& 0xFF) &&& 0xF0 = 0x30) :
    io_read X port b
      = ((X.sio_read b.irq.sio (X.sio_port ((port &&& 0xFF) &&& 3))).1 % 256,
         { b with irq := { b.irq with
             sio := (X.sio_read b.irq.sio (X.sio_port ((port &&& 0xFF) &&& 3))).2 } }) := by
  unfold io_read
  simp only [h]
  rfl

theorem io_read_ctc (X : Peripherals σ υ δ ν ι) (port : Nat) (b : Board σ υ δ ν ι)
    (h : (port &&& 0xFF) &&& 0xF0 = 0x40) :
    io_read X port b = (ctc_read (ctc_channel (port &&& 0xFF)) b.irq, b) := by
  unfold io_read
  simp only [h]
  rfl

theorem io_read_uart_slot (X : Peripherals σ υ δ ν ι) (port : Nat) (b : Board σ υ δ ν ι)
    (h : (port &&& 0xFF) &&& 0xF0 = 0x50) :
    io_read X port b
      = match b.irq.uart with
        | some u =>
          if (port &&& 0xFF) &&& 8 ≠ 0 then
            ((X.uart16x50_read u ((port &&& 0xFF) &&& 7)).1 % 256,
              { b with irq := { b.irq with
                  uart := some (X.uart16x50_read u ((port &&& 0xFF) &&& 7)).2 } })
          else (0xFF, b)
        | none => (0xFF, b) := by
  unfold io_read
  simp only [h]
  rfl

theorem io_read_vdp_slot (X : Peripherals σ υ δ ν ι) (port : Nat) (b : Board σ υ δ ν ι)
    (h : (port &&& 0xFF) &&& 0xF0 = 0x80) :
    io_read X port b
      = match b.vdp with
        | some v =>
          ((X.tms9918a_read v ((port &&& 0xFF) &&& 1)).1 % 256,
            { b with vdp := some (X.tms9918a_read v ((port &&& 0xFF) &&& 1)).2 })
        | none => (0xFF, b) := by
  unfold io_read
  simp only [h]
  rfl

theorem io_read_joy_slot (X : Peripherals σ υ δ ν ι) (port : Nat) (b : Board σ υ δ ν ι)
    (h : (port &&& 0xFF) &&& 0xF0 = 0xA0) :
    io_read X port b
      = match b.vdp with
        | some v =>
          if port &&& 0xFF = 0xA8 then
            ((if (X.tms9918a_irq_pending v).1 then
                ((X.joystick_read b.joy 0).1 % 256 &&& bnot32 VDP_J7) % 256
              else (X.joystick_read b.joy 0).1 % 256),
              { b with joy := (X.joystick_read b.joy 0).2,
                       vdp := some (X.tms9918a_irq_pending v).2 })
          else if port &&& 0xFF = 0xA9 then
            ((X.joystick_read b.joy 1).1 % 256, { b with joy := (X.joystick_read b.joy 1).2 })
          else (0xFF, b)
        | none => (0xFF, b) := by
  unfold io_read
  simp only [h]
  rfl

theorem io_read_other (X : Peripherals σ υ δ ν ι) (port : Nat) (b : Board σ υ δ ν ι)
    (h0 : (port &&& 0xFF) &&& 0xF0 ≠ 0x00) (h3 : (port &&& 0xFF) &&& 0xF0 ≠ 0x30)
    (h4 : (port &&& 0xFF) &&& 0xF0 ≠ 0x40) (h5 : (port &&& 0xFF) &&& 0xF0 ≠ 0x50)
    (h7 : (port &&& 0xFF) &&& 0xF0 ≠ 0x70) (h8 : (port &&& 0xFF) &&& 0xF0 ≠ 0x80)
    (hA : (port &&& 0xFF) &&& 0xF0 ≠ 0xA0) : io_read X port b = (0xFF, b) := by
  unfold io_read
  simp only [h0, h3, h4, h5, h7, h8, hA, if_false]

theorem io_read_lt (X : Peripherals σ υ δ ν ι) (port : Nat) (b : Board σ υ δ ν ι)
    (hg : b.gpio_in < 256) : (io_read X port b).1 < 256 := by
  by_cases h0 : (port &&& 0xFF) &&& 0xF0 = 0x00
  · rw [io_read_gpio X port b h0]; exact hg
  by_cases h3 : (port &&& 0xFF) &&& 0xF0 = 0x30
  · rw [io_read_sio X port b h3]; exact Nat.mod_lt _ (by decide)
  by_cases h4 : (port &&& 0xFF) &&& 0xF0 = 0x40
  · rw [io_read_ctc X port b h4]; exact Nat.mod_lt _ (by decide)
  by_cases h5 : (port &&& 0xFF) &&& 0xF0 = 0x50
  · rw [io_read_uart_slot X port b h5]
    cases b.irq.uart with
    | none => exact (by decide : (0xFF : Nat) < 256)
    | some u =>
      dsimp only
      split
      · exact Nat.mod_lt _ (by decide)
      · exact (by decide : (0xFF : Nat) < 256)
  by_cases h7 : (port &&& 0xFF) &&& 0xF0 = 0x70
  · rw [io_read_flash_port X port b h7]; exact (by decide : (0xFF : Nat) < 256)
  by_cases h8 : (port &&& 0xFF) &&& 0xF0 = 0x80
  · rw [io_read_vdp_slot X port b h8]
    cases b.vdp with
    | none => exact (by decide : (0xFF : Nat) < 256)
    | some v => exact Nat.mod_lt _ (by decide)
  by_cases hA : (port &&& 0xFF) &&& 0xF0 = 0xA0
  · rw [io_read_joy_slot X port b hA]
    cases b.vdp with
    | none => exact (by decide : (0xFF : Nat) < 256)
    | some v =>
      dsimp only
      split
      · dsimp only
        split
        · exact Nat.mod_lt _ (by decide)
        · exact Nat.mod_lt _ (by decide)
      · split
        · exact Nat.mod_lt _ (by decide)
        · exact (by decide : (0xFF : Nat) < 256)
  rw [io_read_other X port b h0 h3 h4 h5 h7 h8 hA]
  exact (by decide : (0xFF : Nat) < 256)

theorem io_read_unmapped (X : Peripherals σ υ δ ν ι) (port : Nat) (b : Board σ υ δ ν ι)
    (k : Nat) (h : (port &&& 0xFF) &&& 0xF0 = k)
    (hk : k ≠ 0x00 ∧ k ≠ 0x30 ∧ k ≠ 0x40 ∧ k ≠ 0x50 ∧ k ≠ 0x70 ∧ k ≠ 0x80 ∧ k ≠ 0xA0) :
    io_read X port b = (0xFF, b) := by
  rw [← h] at hk
  exact io_read_other X port b hk.1 hk.2.1 hk.2.2.1 hk.2.2.2.1 hk.2.2.2.2.1 hk.2.2.2.2.2.1
    hk.2.2.2.2.2.2

theorem io_write_other (X : Peripherals σ υ δ ν ι) (port val : Nat) (b : Board σ υ δ ν ι)
    (h1 : (port &&& 0xFF) &&& 0xF0 ≠ 0x10) (h3 : (port &&& 0xFF) &&& 0xF0 ≠ 0x30)
    (h4 : (port &&& 0xFF) &&& 0xF0 ≠ 0x40) (h5 : (port &&& 0xFF) &&& 0xF0 ≠ 0x50)
    (h8 : (port &&& 0xFF) &&& 0xF0 ≠ 0x80) :
    io_write X port val b = io_write_tail (port &&& 0xFF) val b := by
  unfold io_write
  simp only [h1, h3, h4, h5, h8, if_false, ite_self]

theorem io_write_unmapped (X : Peripherals σ υ δ ν ι) (port val : Nat) (b : Board σ υ δ ν ι)
    (k : Nat) (h : (port &&& 0xFF) &&& 0xF0 = k)
    (hk : k ≠ 0x10 ∧ k ≠ 0x30 ∧ k ≠ 0x40 ∧ k ≠ 0x50 ∧ k ≠ 0x80) :
    io_write X port val b = io_write_tail (port &&& 0xFF) val b := by
  rw [← h] at hk
  exact io_write_other X port val b hk.1 hk.2.1 hk.2.2.1 hk.2.2.2.1 hk.2.2.2.2

theorem io_write_uart_slot (X : Peripherals σ υ δ ν ι) (port val : Nat) (b : Board σ υ δ ν ι)
    (h : (port &&& 0xFF) &&& 0xF0 = 0x50) :
    io_write X port val b
      = match b.irq.uart with
        | some u =>
          if (port &&& 0xFF) &&& 8 ≠ 0 then
            { b with irq := { b.irq with
                uart := some (X.uart16x50_write u ((port &&& 0xFF) &&& 7) val) } }
          else io_write_tail (port &&& 0xFF) val b
        | none => io_write_tail (port &&& 0xFF) val b := by
  unfold io_write
  simp only [h]
  rfl

theorem io_write_vdp_slot (X : Peripherals σ υ δ ν ι) (port val : Nat) (b : Board σ υ δ ν ι)
    (h : (port &&& 0xFF) &&& 0xF0 = 0x80) :
    io_write X port val b
      = match b.vdp with
        | some v => { b with vdp := some (X.tms9918a_write v ((port &&& 0xFF) &&& 1) val) }
        | none => io_write_tail (port &&& 0xFF) val b := by
  unfold io_write
  simp only [h]
  rfl

theorem io_write_tail_trace (addr val : Nat) (b : Board σ υ δ ν ι) :
    io_write_tail addr val b = { b with trace := (io_write_tail addr val b).trace } := by
  unfold io_write_tail
  split_ifs <;> rfl

/-- What `read_pulled_up` says, as a disjunction of the cases of the bus
decode. -/
theorem read_pulled_up_cases (port : Nat) (b : Board σ υ δ ν ι)
    (h : read_pulled_up port b = true) :
    ((port &&& 0xFF) &&& 0xF0 = 0x10 ∨ (port &&& 0xFF) &&& 0xF0 = 0x20
      ∨ (port &&& 0xFF) &&& 0xF0 = 0x60 ∨ (port &&& 0xFF) &&& 0xF0 = 0x90
      ∨ (port &&& 0xFF) &&& 0xF0 = 0xB0 ∨ (port &&& 0xFF) &&& 0xF0 = 0xC0
      ∨ (port &&& 0xFF) &&& 0xF0 = 0xD0 ∨ (port &&& 0xFF) &&& 0xF0 = 0xE0
      ∨ (port &&& 0xFF) &&& 0xF0 = 0xF0)
    ∨ ((port &&& 0xFF) &&& 0xF0 = 0xA0 ∧ port &&& 0xFF ≠ 0xA8 ∧ port &&& 0xFF ≠ 0xA9)
    ∨ ((port &&& 0xFF) &&& 0xF0 = 0x50 ∧ (b.irq.uart = none ∨ (port &&& 0xFF) &&& 8 = 0))
    ∨ (((port &&& 0xFF) &&& 0xF0 = 0x80 ∨ port &&& 0xFF = 0xA8 ∨ port &&& 0xFF = 0xA9)
        ∧ b.vdp = none) := by
  unfold read_pulled_up at h
  simp only [Bool.or_eq_true, Bool.and_eq_true, beq_iff_eq, bne_iff_ne, ne_eq,
    Option.isNone_iff_eq_none] at h
  tauto

theorem hi_of_A8 (port : Nat) (h : port &&& 0xFF = 0xA8 ∨ port &&& 0xFF = 0xA9) :
    (port &&& 0xFF) &&& 0xF0 = 0xA0 := by
  rcases h with h | h <;> rw [h] <;> rfl

theorem io_read_pulled_up (X : Peripherals σ υ δ ν ι) (port : Nat) (b : Board σ υ δ ν ι)
    (h : read_pulled_up port b = true) : io_read X port b = (0xFF, b) := by
  rcases read_pulled_up_cases port b h with h | h | h | h
  · rcases h with h | h | h | h | h | h | h | h | h <;>
      exact io_read_unmapped X port b _ h (by decide)
  · rw [io_read_joy_slot X port b h.1]
    cases b.vdp with
    | none => rfl
    | some v =>
      dsimp only
      rw [if_neg h.2.1, if_neg h.2.2]
  · rw [io_read_uart_slot X port b h.1]
    rcases h.2 with hu | h8
    · rw [hu]
    · cases b.irq.uart with
      | none => rfl
      | some u =>
        dsimp only
        rw [if_neg (by simpa using h8)]
  · have hv := h.2
    rcases h.1 with h8 | hA
    · rw [io_read_vdp_slot X port b h8, hv]
    · rw [io_read_joy_slot X port b (hi_of_A8 port hA), hv]

theorem io_write_pulled_up (X : Peripherals σ υ δ ν ι) (port val : Nat)
    (b : Board σ υ δ ν ι) (h : read_pulled_up port b = true)
    (h1 : (port &&& 0xFF) &&& 0xF0 ≠ 0x10) :
    io_write X port val b = io_write_tail (port &&& 0xFF) val b := by
  rcases read_pulled_up_cases port b h with h | h | h | h
  · rcases h with h | h | h | h | h | h | h | h | h
    · exact absurd h h1
    all_goals exact io_write_unmapped X port val b _ h (by decide)
  · exact io_write_unmapped X port val b _ h.1 (by decide)
  · rw [io_write_uart_slot X port val b h.1]
    rcases h.2 with hu | h8
    · rw [hu]
    · cases b.irq.uart with
      | none => rfl
      | some u =>
        dsimp only
        rw [if_neg (by simpa using h8)]
  · have hv := h.2
    rcases h.1 with h8 | hA
    · rw [io_write_vdp_slot X port val b h8, hv]
    · exact io_write_unmapped X port val b _ (hi_of_A8 port hA) (by decide)

/-- C20 (counterexample to the claim as stated): port 0x10 has high nibble
0x1, one of the ports listed as unmapped, and a read of it is pulled up; yet
`io_write` to it is the GPIO output write and changes the bank selector. -/
theorem io_write_gpio_port_changes_bank :
    read_pulled_up 0x10 demoBoard = true
    ∧ (io_read demoPeripherals 0x10 demoBoard).1 = 0xFF
    ∧ demoBoard.gpio_out = 0
    ∧ (io_write demoPeripherals 0x10 0x30 demoBoard).gpio_out = 0x30
    ∧ map_addr 0 1 (io_write demoPeripherals 0x10 0x30 demoBoard) ≠ map_addr 0 1 demoBoard := by
  decide

/-- C20 (amended): `io_read` returns a byte for every port value and
depends only on the low 8 bits of the port; on every port that is unmapped
for reads or belongs to an absent optional device (`read_pulled_up`) it
returns 0xFF and leaves the whole state unchanged.  `io_write` to such a
port, other than one with high nibble 0x1 (the GPIO output port), changes at
most the variable `trace` (and not even that unless the port is 0xFD or
0xFE): memory, bank selector, CTC, SPI and arbiter state are unchanged. -/
theorem io_bus_pull_up (X : Peripherals σ υ δ ν ι) (b : Board σ υ δ ν ι) (port : Nat)
    (hg : b.gpio_in < 256) :
    (io_read X port b).1 < 256
    ∧ (∀ port2 : Nat, port2 &&& 0xFF = port &&& 0xFF → io_read X port2 b = io_read X port b)
    ∧ (read_pulled_up port b = true → io_read X port b = (0xFF, b))
    ∧ (read_pulled_up port b = true → (port &&& 0xFF) &&& 0xF0 ≠ 0x10 → ∀ val : Nat,
        io_write X port val b = { b with trace := (io_write X port val b).trace }
        ∧ (port &&& 0xFF ≠ 0xFD → port &&& 0xFF ≠ 0xFE → io_write X port val b = b)) := by
  refine ⟨io_read_lt X port b hg, ?_, io_read_pulled_up X port b, ?_⟩
  · intro port2 h2
    rw [io_read_low_byte X port2 b, io_read_low_byte X port b, h2]
  · intro h h1 val
    have e := io_write_pulled_up X port val b h h1
    constructor
    · rw [e]
      exact io_write_tail_trace _ _ _
    · intro hFD hFE
      rw [e]
      exact io_write_tail_id _ _ _ hFD hFE

/-- Instance: port 0x1260 (low byte 0x60, unmapped) on the start-up board: a
read returns 0xFF and a write of 0x99 changes nothing. -/
theorem io_bus_pull_up_witness :
    demoBoard.gpio_in < 256 ∧ read_pulled_up 0x1260 demoBoard = true
    ∧ ((0x1260 : Nat) &&& 0xFF) &&& 0xF0 ≠ 0x10
    ∧ io_read demoPeripherals 0x1260 demoBoard = (0xFF, demoBoard)
    ∧ io_write demoPeripherals 0x1260 0x99 demoBoard = demoBoard :=
  have h := io_bus_pull_up demoPeripherals demoBoard 0x1260 (by decide)
  ⟨by decide, by decide, by decide, h.2.2.1 (by decide),
    (h.2.2.2 (by decide) (by decide) 0x99).2 (by decide) (by decide)⟩

/-! ## SPI bit-banging -/

theorem delta_bit (g v k : Nat) (hk : k < 256) :
    ((g ^^^ v) % 256) &&& k ≠ 0 ↔ g &&& k ≠ v &&& k := by
  have h256 : (256 : Nat) = 2 ^ 8 := by norm_num
  have hk2 : 2 ^ 8 - 1 &&& k = k := by
    rw [Nat.and_comm]
    exact Nat.and_pow_two_sub_one_of_lt_two_pow (by rw [← h256]; exact hk)
  rw [h256, ← Nat.and_pow_two_sub_one_eq_mod, Nat.and_assoc, hk2, Nat.and_xor_distrib_right]
  exact Nat.xor_ne_zero

/-- `gpio_write` with the tests on `delta` replaced by comparisons of the
old and new chip-select and clock bits. -/
theorem gpio_write_eq (X : Peripherals σ υ δ ν ι) (a v : Nat) (b : Board σ υ δ ν ι) :
    gpio_write X a v b
      = clk_edge X b.gpio_out v (cs_edge X b.gpio_out v { b with gpio_out := v }) := by
  have d4 := delta_bit b.gpio_out v 4 (by decide)
  have d2 := delta_bit b.gpio_out v 2 (by decide)
  unfold gpio_write clk_edge cs_edge
  by_cases h4 : b.gpio_out &&& 4 = v &&& 4
  · have n4 : ¬ ((b.gpio_out ^^^ v) % 256 &&& 4 ≠ 0) := fun h => (d4.1 h) h4
    by_cases h2 : b.gpio_out &&& 2 = v &&& 2
    · have n2 : ¬ ((b.gpio_out ^^^ v) % 256 &&& 2 ≠ 0) := fun h => (d2.1 h) h2
      simp only [n4, n2, h4, h2, if_false, ne_eq, not_true_eq_false]
    · have p2 : (b.gpio_out ^^^ v) % 256 &&& 2 ≠ 0 := d2.2 h2
      simp only [n4, p2, h4, h2, if_false, if_true, ne_eq, not_true_eq_false,
        not_false_eq_true]
  · have p4 : (b.gpio_out ^^^ v) % 256 &&& 4 ≠ 0 := d4.2 h4
    by_cases h2 : b.gpio_out &&& 2 = v &&& 2
    · have n2 : ¬ ((b.gpio_out ^^^ v) % 256 &&& 2 ≠ 0) := fun h => (d2.1 h) h2
      simp only [p4, n2, h4, h2, if_false, if_true, ne_eq, not_true_eq_false,
        not_false_eq_true]
    · have p2 : (b.gpio_out ^^^ v) % 256 &&& 2 ≠ 0 := d2.2 h2
      simp only [p4, p2, h4, h2, if_false, if_true, ne_eq, not_true_eq_false,
        not_false_eq_true]
      split <;> rfl

theorem spi_clock_high_mid (X : Peripherals σ υ δ ν ι) (b : Board σ υ δ ν ι)
    (h : b.bitcnt < 7) :
    spi_clock_high X b
      = { b with txbits := ((b.txbits <<< 1) % 256 ||| (b.gpio_out &&& 1)) % 256,
                 bitcnt := b.bitcnt + 1 } := by
  have h1 : (b.bitcnt + 1) % 256 = b.bitcnt + 1 := Nat.mod_eq_of_lt (by omega)
  have h2 : ¬ b.bitcnt + 1 = 8 := by omega
  unfold spi_clock_high
  simp only [h1, h2, if_false]

theorem spi_clock_high_eighth (X : Peripherals σ υ δ ν ι) (b : Board σ υ δ ν ι)
    (h : b.bitcnt = 7) :
    spi_clock_high X b
      = { b with
          txbits := ((b.txbits <<< 1) % 256 ||| (b.gpio_out &&& 1)) % 256
          rxbits := (X.sd_spi_in b.sdcard
            (((b.txbits <<< 1) % 256 ||| (b.gpio_out &&& 1)) % 256)).1 % 256
          sdcard := (X.sd_spi_in b.sdcard
            (((b.txbits <<< 1) % 256 ||| (b.gpio_out &&& 1)) % 256)).2
          sd_log := b.sd_log
            ++ [SdCall.spi_in (((b.txbits <<< 1) % 256 ||| (b.gpio_out &&& 1)) % 256)]
          bitcnt := 0 } := by
  unfold spi_clock_high
  simp only [h]
  rfl

theorem land_low_byte (x k : Nat) (hk : k < 256) : x &&& k = (x % 256) &&& k := by
  have h256 : (256 : Nat) = 2 ^ 8 := by norm_num
  have hk2 : 2 ^ 8 - 1 &&& k = k := by
    rw [Nat.and_comm]
    exact Nat.and_pow_two_sub_one_of_lt_two_pow (by rw [← h256]; exact hk)
  rw [h256, ← Nat.and_pow_two_sub_one_eq_mod, Nat.and_assoc, hk2]

set_option maxRecDepth 100000 in
theorem byte_bit_cases : ∀ y : Fin 256,
    (y.val &&& 2 = 0 ∨ y.val &&& 2 = 2) ∧ (y.val &&& 4 = 0 ∨ y.val &&& 4 = 4)
    ∧ (y.val &&& 1 = y.val % 2) := by
  decide

theorem land_two_cases (x : Nat) : x &&& 2 = 0 ∨ x &&& 2 = 2 := by
  rw [land_low_byte x 2 (by decide)]
  exact (byte_bit_cases ⟨x % 256, Nat.mod_lt _ (by decide)⟩).1

theorem land_four_cases (x : Nat) : x &&& 4 = 0 ∨ x &&& 4 = 4 := by
  rw [land_low_byte x 4 (by decide)]
  exact (byte_bit_cases ⟨x % 256, Nat.mod_lt _ (by decide)⟩).2.1

theorem spi_clock_low_frame (b : Board σ υ δ ν ι) :
    (spi_clock_low b).bitcnt = b.bitcnt ∧ (spi_clock_low b).sd_log = b.sd_log
    ∧ (spi_clock_low b).sdcard = b.sdcard ∧ (spi_clock_low b).txbits = b.txbits
    ∧ (spi_clock_low b).gpio_out = b.gpio_out :=
  ⟨rfl, rfl, rfl, rfl, rfl⟩

theorem cs_edge_same (X : Peripherals σ υ δ ν ι) (g v : Nat) (b : Board σ υ δ ν ι)
    (h : g &&& 4 = v &&& 4) : cs_edge X g v b = b := by
  unfold cs_edge
  rw [if_neg (not_not.mpr h)]

theorem cs_edge_raise (X : Peripherals σ υ δ ν ι) (g v : Nat) (b : Board σ υ δ ν ι)
    (h : g &&& 4 ≠ v &&& 4) (hv : v &&& 4 ≠ 0) :
    cs_edge X g v b
      = { b with sdcard := X.sd_spi_raise_cs b.sdcard,
                 sd_log := b.sd_log ++ [SdCall.raise_cs] } := by
  unfold cs_edge
  rw [if_pos h, if_pos hv]

theorem cs_edge_lower (X : Peripherals σ υ δ ν ι) (g v : Nat) (b : Board σ υ δ ν ι)
    (h : g &&& 4 ≠ v &&& 4) (hv : v &&& 4 = 0) :
    cs_edge X g v b
      = { b with sdcard := X.sd_spi_lower_cs b.sdcard,
                 sd_log := b.sd_log ++ [SdCall.lower_cs], bitcnt := 0 } := by
  unfold cs_edge
  rw [if_pos h, if_neg (not_not.mpr hv)]

theorem clk_edge_same (X : Peripherals σ υ δ ν ι) (g v : Nat) (b : Board σ υ δ ν ι)
    (h : g &&& 2 = v &&& 2) : clk_edge X g v b = b := by
  unfold clk_edge
  rw [if_neg (not_not.mpr h)]

theorem clk_edge_rise (X : Peripherals σ υ δ ν ι) (g v : Nat) (b : Board σ υ δ ν ι)
    (hg : g &&& 2 = 0) (hv : v &&& 2 ≠ 0) : clk_edge X g v b = spi_clock_high X b := by
  unfold clk_edge
  rw [if_pos (by rw [hg]; exact fun h => hv h.symm), if_pos hv]

theorem clk_edge_fall (X : Peripherals σ υ δ ν ι) (g v : Nat) (b : Board σ υ δ ν ι)
    (hg : g &&& 2 ≠ 0) (hv : v &&& 2 = 0) : clk_edge X g v b = spi_clock_low b := by
  unfold clk_edge
  rw [if_pos (by rw [hv]; exact hg), if_neg (not_not.mpr hv)]

/-- The three cases of the clock bit in a write: no edge, rising edge,
falling edge. -/
theorem clk_cases (g v : Nat) :
    g &&& 2 = v &&& 2 ∨ (g &&& 2 = 0 ∧ v &&& 2 ≠ 0) ∨ (g &&& 2 ≠ 0 ∧ v &&& 2 = 0) := by
  rcases land_two_cases g with h | h <;> rcases land_two_cases v with h' | h'
  · exact Or.inl (h.trans h'.symm)
  · exact Or.inr (Or.inl ⟨h, by rw [h']; decide⟩)
  · exact Or.inr (Or.inr ⟨by rw [h]; decide, h'⟩)
  · exact Or.inl (h.trans h'.symm)

/-- C19 (counterexample to the claim as stated): with three bits already
counted, the write that takes the chip-select bit from 0 to 1 calls
`sd_spi_raise_cs` (chip select is active low: the card is deselected) and
leaves the bit counter at 3; it is the opposite transition, on which
`sd_spi_lower_cs` is called, that resets the counter. -/
theorem gpio_write_raise_cs_keeps_bitcnt :
    (gpio_write demoPeripherals 0x10 0x04 { demoBoard with bitcnt := 3 }).sd_log
        = [SdCall.raise_cs]
    ∧ (gpio_write demoPeripherals 0x10 0x04 { demoBoard with bitcnt := 3 }).bitcnt = 3
    ∧ (gpio_write demoPeripherals 0x10 0x00
        { demoBoard with bitcnt := 3, gpio_out := 0x04 }).sd_log = [SdCall.lower_cs]
    ∧ (gpio_write demoPeripherals 0x10 0x00
        { demoBoard with bitcnt := 3, gpio_out := 0x04 }).bitcnt = 0 := by
  decide

/-- C19 (amended): a GPIO output write that takes the chip-select bit (bit 2)
from 1 to 0 makes exactly one call to the SD card, `sd_spi_lower_cs` (chip
select asserted, the card is selected), and resets the SPI bit counter: the
counter is 0 after the write, or 1 when the same write also raises the
clock, and from a counter of 0 the next rising clock edge always counts as
bit 1.  The opposite transition (bit 2 from 0 to 1) calls `sd_spi_raise_cs`
(deselect) and does not reset the counter: without a rising clock edge in
the same write the counter keeps its value. -/
theorem gpio_write_chip_select (X : Peripherals σ υ δ ν ι) (b : Board σ υ δ ν ι) (v : Nat) :
    (b.gpio_out &&& 4 ≠ 0 → v &&& 4 = 0 →
      (gpio_write X 0x10 v b).sd_log = b.sd_log ++ [SdCall.lower_cs]
      ∧ (gpio_write X 0x10 v b).bitcnt
          = if b.gpio_out &&& 2 = 0 ∧ v &&& 2 ≠ 0 then 1 else 0)
    ∧ (b.bitcnt = 0 → b.gpio_out &&& 2 = 0 → v &&& 2 ≠ 0 →
      (gpio_write X 0x10 v b).bitcnt = 1)
    ∧ (b.gpio_out &&& 4 = 0 → v &&& 4 ≠ 0 → ¬ (b.gpio_out &&& 2 = 0 ∧ v &&& 2 ≠ 0) →
      (gpio_write X 0x10 v b).sd_log = b.sd_log ++ [SdCall.raise_cs]
      ∧ (gpio_write X 0x10 v b).bitcnt = b.bitcnt) := by
  refine ⟨?_, ?_, ?_⟩
  · intro hg hv
    have hne : b.gpio_out &&& 4 ≠ v &&& 4 := by rw [hv]; exact hg
    rw [gpio_write_eq, cs_edge_lower X _ _ _ hne hv]
    rcases clk_cases b.gpio_out v with he | hr | hf
    · have hnr : ¬ (b.gpio_out &&& 2 = 0 ∧ v &&& 2 ≠ 0) := by
        rintro ⟨h0, h1⟩; rw [he] at h0; exact h1 h0
      rw [clk_edge_same X _ _ _ he, if_neg hnr]
      exact ⟨rfl, rfl⟩
    · rw [clk_edge_rise X _ _ _ hr.1 hr.2, if_pos hr,
        spi_clock_high_mid X _ (by show (0 : Nat) < 7; decide)]
      exact ⟨rfl, rfl⟩
    · have hnr : ¬ (b.gpio_out &&& 2 = 0 ∧ v &&& 2 ≠ 0) := fun h => h.2 hf.2
      rw [clk_edge_fall X _ _ _ hf.1 hf.2, if_neg hnr]
      exact ⟨rfl, rfl⟩
  · intro hb hg0 hv0
    have hc : (cs_edge X b.gpio_out v { b with gpio_out := v }).bitcnt = 0 := by
      unfold cs_edge
      split_ifs <;> first | rfl | exact hb
    rw [gpio_write_eq, clk_edge_rise X _ _ _ hg0 hv0,
      spi_clock_high_mid X _ (by rw [hc]; decide)]
    show (cs_edge X b.gpio_out v { b with gpio_out := v }).bitcnt + 1 = 1
    rw [hc]
  · intro hg hv hnr
    have hne : b.gpio_out &&& 4 ≠ v &&& 4 := by rw [hg]; exact fun h => hv h.symm
    rw [gpio_write_eq, cs_edge_raise X _ _ _ hne hv]
    rcases clk_cases b.gpio_out v with he | hr | hf
    · rw [clk_edge_same X _ _ _ he]
      exact ⟨rfl, rfl⟩
    · exact absurd hr hnr
    · rw [clk_edge_fall X _ _ _ hf.1 hf.2]
      exact ⟨rfl, rfl⟩

/-- Instance: chip select lowered (0x04 to 0x00) with five bits counted. -/
theorem gpio_write_chip_select_witness :
    ({ demoBoard with bitcnt := 5, gpio_out := 0x04 } :
        Board Int Unit Nat Unit Unit).gpio_out &&& 4 ≠ 0
    ∧ (0x00 : Nat) &&& 4 = 0
    ∧ (gpio_write demoPeripherals 0x10 0x00
        { demoBoard with bitcnt := 5, gpio_out := 0x04 }).sd_log
        = ({ demoBoard with bitcnt := 5, gpio_out := 0x04 } :
            Board Int Unit Nat Unit Unit).sd_log ++ [SdCall.lower_cs]
    ∧ (gpio_write demoPeripherals 0x10 0x00
        { demoBoard with bitcnt := 5, gpio_out := 0x04 }).bitcnt = 0 :=
  have h := (gpio_write_chip_select demoPeripherals
    { demoBoard with bitcnt := 5, gpio_out := 0x04 } 0x00).1 (by decide) (by decide)
  ⟨by decide, by decide, h.1, h.2⟩

theorem shift_in_cons (a x : Nat) (bits : List Nat) :
    shift_in a (x :: bits) = shift_in (2 * a + x) bits := rfl

theorem shift_in_eq (a : Nat) (bits : List Nat) :
    shift_in a bits = a * 2 ^ bits.length + shift_in 0 bits := by
  induction bits generalizing a with
  | nil => simp [shift_in]
  | cons x xs ih =>
    rw [shift_in_cons, shift_in_cons, ih (2 * a + x), ih (2 * 0 + x), List.length_cons,
      pow_succ]
    ring

theorem shift_in_lt (a : Nat) (bits : List Nat) (h : ∀ x ∈ bits, x ≤ 1) :
    shift_in a bits < (a + 1) * 2 ^ bits.length := by
  induction bits generalizing a with
  | nil => simp [shift_in]
  | cons x xs ih =>
    have hx : x ≤ 1 := h x (List.mem_cons_self x xs)
    have hxs : ∀ y ∈ xs, y ≤ 1 := fun y hy => h y (List.mem_cons_of_mem x hy)
    have := ih (2 * a + x) hxs
    rw [shift_in_cons, List.length_cons, pow_succ]
    have hle : (2 * a + x + 1) * 2 ^ xs.length ≤ (a + 1) * (2 ^ xs.length * 2) := by
      have : 2 * a + x + 1 ≤ (a + 1) * 2 := by omega
      calc (2 * a + x + 1) * 2 ^ xs.length ≤ ((a + 1) * 2) * 2 ^ xs.length :=
            Nat.mul_le_mul_right _ this
        _ = (a + 1) * (2 ^ xs.length * 2) := by ring
    omega

theorem shift_in_congr (a a2 : Nat) (bits : List Nat) (h : a % 256 = a2 % 256) :
    shift_in a bits % 256 = shift_in a2 bits % 256 := by
  induction bits generalizing a a2 with
  | nil => exact h
  | cons x xs ih =>
    rw [shift_in_cons, shift_in_cons]
    exact ih _ _ (by omega)

theorem shift_in_append (a x : Nat) (bits : List Nat) :
    shift_in a (bits ++ [x]) = 2 * shift_in a bits + x := by
  unfold shift_in
  rw [List.foldl_append]
  rfl

theorem msb_first_eq (bits : List Nat) : msb_first bits = shift_in 0 bits := rfl

set_option maxRecDepth 100000 in
theorem tx_or_bit : ∀ y : Fin 256, ∀ c : Fin 2, y.val % 2 = 0 → (y.val ||| c.val) % 256 = y.val + c.val := by
  decide

/-- The two statements `txbits <<= 1; txbits |= gpio_out & 1;` on a byte. -/
theorem tx_shift (tx g : Nat) :
    ((tx <<< 1) % 256 ||| (g &&& 1)) % 256 = (2 * tx + g % 2) % 256 := by
  have h1 : tx <<< 1 = 2 * tx := by rw [Nat.shiftLeft_eq]; omega
  rw [h1, Nat.and_one_is_mod]
  have hy : (2 * tx) % 256 < 256 := Nat.mod_lt _ (by decide)
  have hc : g % 2 < 2 := Nat.mod_lt _ (by decide)
  have := tx_or_bit ⟨(2 * tx) % 256, hy⟩ ⟨g % 2, hc⟩ (by simp only; omega)
  simp only at this
  rw [this]
  omega

/-- A write that raises the clock with chip select unchanged is one call of
`spi_clock_high` on the state holding the new `gpio_out`. -/
theorem gpio_write_rise (X : Peripherals σ υ δ ν ι) (b : Board σ υ δ ν ι) (v : Nat)
    (hg : b.gpio_out &&& 2 = 0) (hv : v &&& 2 ≠ 0) (hcs : v &&& 4 = b.gpio_out &&& 4) :
    gpio_write X 0x10 v b = spi_clock_high X { b with gpio_out := v } := by
  rw [gpio_write_eq, cs_edge_same X _ _ _ hcs.symm, clk_edge_rise X _ _ _ hg hv]

/-- A write that lowers the clock with chip select unchanged is one call of
`spi_clock_low` on the state holding the new `gpio_out`. -/
theorem gpio_write_fall (X : Peripherals σ υ δ ν ι) (b : Board σ υ δ ν ι) (v : Nat)
    (hg : b.gpio_out &&& 2 ≠ 0) (hv : v &&& 2 = 0) (hcs : v &&& 4 = b.gpio_out &&& 4) :
    gpio_write X 0x10 v b = spi_clock_low { b with gpio_out := v } := by
  rw [gpio_write_eq, cs_edge_same X _ _ _ hcs.symm, clk_edge_fall X _ _ _ hg hv]

/-- One clock cycle before the eighth: the bit is shifted into `txbits`, the
counter advances, no call is made to the SD card. -/
theorem spi_cycle_mid (X : Peripherals σ υ δ ν ι) (s : Board σ υ δ ν ι) (w : Nat × Nat)
    (hclk : s.gpio_out &&& 2 = 0) (hcnt : s.bitcnt < 7)
    (hw : w.1 &&& 2 ≠ 0 ∧ w.2 &&& 2 = 0 ∧ w.1 &&& 4 = s.gpio_out &&& 4
      ∧ w.2 &&& 4 = s.gpio_out &&& 4) :
    (gpio_write X 0x10 w.2 (gpio_write X 0x10 w.1 s)).bitcnt = s.bitcnt + 1
    ∧ (gpio_write X 0x10 w.2 (gpio_write X 0x10 w.1 s)).txbits
        = (2 * s.txbits + w.1 % 2) % 256
    ∧ (gpio_write X 0x10 w.2 (gpio_write X 0x10 w.1 s)).sd_log = s.sd_log
    ∧ (gpio_write X 0x10 w.2 (gpio_write X 0x10 w.1 s)).sdcard = s.sdcard
    ∧ (gpio_write X 0x10 w.2 (gpio_write X 0x10 w.1 s)).gpio_out = w.2 := by
  have e1 : gpio_write X 0x10 w.1 s
      = { s with gpio_out := w.1, txbits := (2 * s.txbits + w.1 % 2) % 256,
                 bitcnt := s.bitcnt + 1 } := by
    rw [gpio_write_rise X s w.1 hclk hw.1 hw.2.2.1,
      spi_clock_high_mid X { s with gpio_out := w.1 } hcnt]
    show ({ s with gpio_out := w.1,
                   txbits := ((s.txbits <<< 1) % 256 ||| (w.1 &&& 1)) % 256,
                   bitcnt := s.bitcnt + 1 } : Board σ υ δ ν ι) = _
    rw [tx_shift]
  rw [e1, gpio_write_fall X _ w.2 hw.1 hw.2.1 (by rw [hw.2.2.2]; exact hw.2.2.1.symm)]
  exact ⟨rfl, rfl, rfl, rfl, rfl⟩

theorem spi_cycles_cons (X : Peripherals σ υ δ ν ι) (w : Nat × Nat) (ws : List (Nat × Nat))
    (s : Board σ υ δ ν ι) :
    spi_cycles X (w :: ws) s
      = spi_cycles X ws (gpio_write X 0x10 w.2 (gpio_write X 0x10 w.1 s)) := rfl

theorem spi_cycles_append (X : Peripherals σ υ δ ν ι) (w : Nat × Nat) (ws : List (Nat × Nat))
    (s : Board σ υ δ ν ι) :
    spi_cycles X (ws ++ [w]) s
      = gpio_write X 0x10 w.2 (gpio_write X 0x10 w.1 (spi_cycles X ws s)) := by
  unfold spi_cycles
  rw [List.foldl_append]
  rfl

/-- Up to seven clock cycles from a low clock: the counter has advanced by
the number of cycles, `txbits` holds the bits shifted in (modulo 256) and no
call was made to the SD card. -/
theorem spi_cycles_mid (X : Peripherals σ υ δ ν ι) (ws : List (Nat × Nat)) :
    ∀ s : Board σ υ δ ν ι, s.gpio_out &&& 2 = 0 → s.bitcnt + ws.length ≤ 7 →
      (∀ w ∈ ws, w.1 &&& 2 ≠ 0 ∧ w.2 &&& 2 = 0 ∧ w.1 &&& 4 = s.gpio_out &&& 4
        ∧ w.2 &&& 4 = s.gpio_out &&& 4) →
      (spi_cycles X ws s).bitcnt = s.bitcnt + ws.length
      ∧ (spi_cycles X ws s).txbits % 256
          = shift_in s.txbits (ws.map (fun w => w.1 % 2)) % 256
      ∧ (spi_cycles X ws s).sd_log = s.sd_log
      ∧ (spi_cycles X ws s).sdcard = s.sdcard
      ∧ (spi_cycles X ws s).gpio_out &&& 2 = 0
      ∧ (spi_cycles X ws s).gpio_out &&& 4 = s.gpio_out &&& 4 := by
  induction ws with
  | nil =>
    intro s hclk _ _
    exact ⟨rfl, rfl, rfl, rfl, hclk, rfl⟩
  | cons w ws ih =>
    intro s hclk hcnt hws
    have hw := hws w (List.mem_cons_self w ws)
    rw [List.length_cons] at hcnt
    have h1 := spi_cycle_mid X s w hclk (by omega) hw
    have hout : (gpio_write X 0x10 w.2 (gpio_write X 0x10 w.1 s)).gpio_out &&& 4
        = s.gpio_out &&& 4 := by rw [h1.2.2.2.2]; exact hw.2.2.2
    have h2 := ih (gpio_write X 0x10 w.2 (gpio_write X 0x10 w.1 s))
      (by rw [h1.2.2.2.2]; exact hw.2.1) (by rw [h1.1]; omega)
      (fun w2 hw2 => by
        have := hws w2 (List.mem_cons_of_mem w hw2)
        rw [hout]
        exact this)
    rw [spi_cycles_cons]
    refine ⟨?_, ?_, ?_, ?_, h2.2.2.2.2.1, ?_⟩
    · rw [h2.1, h1.1, List.length_cons]; omega
    · rw [h2.2.1, h1.2.1, List.map_cons, shift_in_cons]
      exact shift_in_congr _ _ _ (Nat.mod_mod _ _)
    · rw [h2.2.2.1, h1.2.2.1]
    · rw [h2.2.2.2.1, h1.2.2.2.1]
    · rw [h2.2.2.2.2.2, hout]

theorem msb_first_eight (b7 b6 b5 b4 b3 b2 b1 b0 : Nat) :
    msb_first [b7, b6, b5, b4, b3, b2, b1, b0]
      = b7 * 128 + b6 * 64 + b5 * 32 + b4 * 16 + b3 * 8 + b2 * 4 + b1 * 2 + b0 := by
  simp only [msb_first, List.foldl]
  omega

/-- The byte in `txbits` at the eighth rising edge: the eight bits shifted
in, whatever `txbits` held before. -/
theorem eighth_byte (tx0 tx7 x8 : Nat) (bits : List Nat) (hlen : bits.length = 7)
    (hbits : ∀ x ∈ bits, x ≤ 1) (hx8 : x8 ≤ 1)
    (h7 : tx7 % 256 = shift_in tx0 bits % 256) :
    (2 * tx7 + x8) % 256 = msb_first (bits ++ [x8])
    ∧ msb_first (bits ++ [x8]) < 256 := by
  have hall : ∀ x ∈ bits ++ [x8], x ≤ 1 := by
    intro x hx
    rcases List.mem_append.1 hx with h | h
    · exact hbits x h
    · rw [List.mem_singleton.1 h]; exact hx8
  have hlt := shift_in_lt 0 (bits ++ [x8]) hall
  have hlen8 : (bits ++ [x8]).length = 8 := by rw [List.length_append, hlen]; rfl
  rw [hlen8] at hlt
  have hlt2 : msb_first (bits ++ [x8]) < 256 := by
    rw [msb_first_eq]; omega
  refine ⟨?_, hlt2⟩
  have e1 : shift_in tx0 (bits ++ [x8]) = 2 * shift_in tx0 bits + x8 := shift_in_append _ _ _
  have e2 := shift_in_eq tx0 (bits ++ [x8])
  rw [hlen8] at e2
  rw [msb_first_eq]
  have hp : (2 : Nat) ^ 8 = 256 := by norm_num
  rw [hp] at e2
  omega

/-- C17: with the bit counter at 0 and the clock low, eight clock cycles
(seven cycles `ws`, then the cycle `w8`), each a write that raises the clock
bit with the data bit in bit 0 followed by a write that lowers the clock,
chip-select bit unchanged throughout, make exactly one call of `sd_spi_in`.
No call is made during the first seven cycles; the call is made by the
eighth rising write, with the byte whose bits are the eight data bits, first
shifted most significant, whatever `txbits` held before; the bit counter is 0
after the eighth cycle.  The state right after the eighth rising write has
the device's answer in `rxbits`, the counter at 0 and the clock high. -/
theorem spi_eight_clocks_one_exchange (X : Peripherals σ υ δ ν ι) (b : Board σ υ δ ν ι)
    (ws : List (Nat × Nat)) (w8 : Nat × Nat) (hlen : ws.length = 7)
    (hcnt : b.bitcnt = 0) (hclk : b.gpio_out &&& 2 = 0)
    (hws : ∀ w ∈ ws ++ [w8], w.1 &&& 2 ≠ 0 ∧ w.2 &&& 2 = 0 ∧ w.1 &&& 4 = b.gpio_out &&& 4
      ∧ w.2 &&& 4 = b.gpio_out &&& 4) :
    (spi_cycles X ws b).sd_log = b.sd_log
    ∧ (gpio_write X 0x10 w8.1 (spi_cycles X ws b)).sd_log
        = b.sd_log ++ [SdCall.spi_in (msb_first ((ws ++ [w8]).map (fun w => w.1 % 2)))]
    ∧ (spi_cycles X (ws ++ [w8]) b).sd_log
        = b.sd_log ++ [SdCall.spi_in (msb_first ((ws ++ [w8]).map (fun w => w.1 % 2)))]
    ∧ (spi_cycles X (ws ++ [w8]) b).bitcnt = 0
    ∧ msb_first ((ws ++ [w8]).map (fun w => w.1 % 2)) < 256
    ∧ (∀ b7 b6 b5 b4 b3 b2 b1 b0 : Nat,
        (ws ++ [w8]).map (fun w => w.1 % 2) = [b7, b6, b5, b4, b3, b2, b1, b0] →
        msb_first ((ws ++ [w8]).map (fun w => w.1 % 2))
          = b7 * 128 + b6 * 64 + b5 * 32 + b4 * 16 + b3 * 8 + b2 * 4 + b1 * 2 + b0)
    ∧ (gpio_write X 0x10 w8.1 (spi_cycles X ws b)).rxbits
        = (X.sd_spi_in b.sdcard
            (msb_first ((ws ++ [w8]).map (fun w => w.1 % 2)))).1 % 256
    ∧ (gpio_write X 0x10 w8.1 (spi_cycles X ws b)).bitcnt = 0
    ∧ (gpio_write X 0x10 w8.1 (spi_cycles X ws b)).gpio_out &&& 2 ≠ 0 := by
  have hws7 : ∀ w ∈ ws, w.1 &&& 2 ≠ 0 ∧ w.2 &&& 2 = 0 ∧ w.1 &&& 4 = b.gpio_out &&& 4
      ∧ w.2 &&& 4 = b.gpio_out &&& 4 :=
    fun w hw => hws w (List.mem_append_left _ hw)
  have hw8 := hws w8 (List.mem_append_right _ (List.mem_singleton_self w8))
  have h7 := spi_cycles_mid X ws b hclk (by rw [hcnt, hlen]) hws7
  have hcnt7 : (spi_cycles X ws b).bitcnt = 7 := by rw [h7.1, hcnt, hlen]
  have hbits : ∀ x ∈ ws.map (fun w => w.1 % 2), x ≤ 1 := by
    intro x hx
    rcases List.mem_map.1 hx with ⟨w, _, rfl⟩
    have : w.1 % 2 < 2 := Nat.mod_lt _ (by decide)
    omega
  have hx8 : w8.1 % 2 ≤ 1 := by
    have : w8.1 % 2 < 2 := Nat.mod_lt _ (by decide)
    omega
  have hmap : (ws ++ [w8]).map (fun w => w.1 % 2) = ws.map (fun w => w.1 % 2) ++ [w8.1 % 2] := by
    rw [List.map_append]; rfl
  have hbyte := eighth_byte b.txbits (spi_cycles X ws b).txbits (w8.1 % 2)
    (ws.map (fun w => w.1 % 2)) (by rw [List.length_map, hlen]) hbits hx8 h7.2.1
  rw [← hmap] at hbyte
  have e8 : gpio_write X 0x10 w8.1 (spi_cycles X ws b)
      = { spi_cycles X ws b with
          gpio_out := w8.1
          txbits := msb_first ((ws ++ [w8]).map (fun w => w.1 % 2))
          rxbits := (X.sd_spi_in b.sdcard
            (msb_first ((ws ++ [w8]).map (fun w => w.1 % 2)))).1 % 256
          sdcard := (X.sd_spi_in b.sdcard
            (msb_first ((ws ++ [w8]).map (fun w => w.1 % 2)))).2
          sd_log := b.sd_log
            ++ [SdCall.spi_in (msb_first ((ws ++ [w8]).map (fun w => w.1 % 2)))]
          bitcnt := 0 } := by
    rw [gpio_write_rise X _ w8.1 h7.2.2.2.2.1 hw8.1 (by rw [h7.2.2.2.2.2]; exact hw8.2.2.1),
      spi_clock_high_eighth X { spi_cycles X ws b with gpio_out := w8.1 } hcnt7]
    simp only [tx_shift, hbyte.1, h7.2.2.1, h7.2.2.2.1]
  have e9 : spi_cycles X (ws ++ [w8]) b
      = spi_clock_low { gpio_write X 0x10 w8.1 (spi_cycles X ws b) with gpio_out := w8.2 } := by
    rw [spi_cycles_append]
    exact gpio_write_fall X _ w8.2 (by rw [e8]; exact hw8.1) hw8.2.1
      (by rw [e8]; exact hw8.2.2.2.trans hw8.2.2.1.symm)
  refine ⟨h7.2.2.1, by rw [e8], ?_, ?_, hbyte.2, ?_, by rw [e8], by rw [e8], ?_⟩
  · rw [e9, (spi_clock_low_frame _).2.1, e8]
  · rw [e9, (spi_clock_low_frame _).1, e8]
  · intro b7 b6 b5 b4 b3 b2 b1 b0 hb
    rw [hb]
    exact msb_first_eight b7 b6 b5 b4 b3 b2 b1 b0
  · rw [e8]
    exact hw8.1

/-- Instance: the byte 0xA5 clocked out on the start-up board. -/
theorem spi_eight_clocks_one_exchange_witness :
    demoCycles.length = 7 ∧ demoBoard.bitcnt = 0 ∧ demoBoard.gpio_out &&& 2 = 0
    ∧ (spi_cycles demoPeripherals demoCycles demoBoard).sd_log = demoBoard.sd_log
    ∧ (spi_cycles demoPeripherals (demoCycles ++ [(3, 1)]) demoBoard).sd_log
        = demoBoard.sd_log
          ++ [SdCall.spi_in (msb_first ((demoCycles ++ [(3, 1)]).map (fun w : Nat × Nat => w.1 % 2)))]
    ∧ msb_first ((demoCycles ++ [(3, 1)]).map (fun w : Nat × Nat => w.1 % 2)) = 0xA5 :=
  have h := spi_eight_clocks_one_exchange demoPeripherals demoBoard demoCycles (3, 1)
    (by decide) (by decide) (by decide) (by decide)
  ⟨by decide, by decide, by decide, h.1, h.2.2.1, by decide⟩

theorem exchanges_append_cs (l : List SdCall) :
    exchanges (l ++ [SdCall.raise_cs]) = exchanges l
    ∧ exchanges (l ++ [SdCall.lower_cs]) = exchanges l := by
  induction l with
  | nil => exact ⟨rfl, rfl⟩
  | cons c l ih =>
    cases c with
    | spi_in tx =>
      exact ⟨show exchanges (SdCall.spi_in tx :: (l ++ [SdCall.raise_cs])) = _ by
          rw [exchanges, ih.1]; rfl,
        show exchanges (SdCall.spi_in tx :: (l ++ [SdCall.lower_cs])) = _ by
          rw [exchanges, ih.2]; rfl⟩
    | raise_cs =>
      exact ⟨show exchanges (SdCall.raise_cs :: (l ++ [SdCall.raise_cs])) = _ by
          rw [exchanges, ih.1]; rfl,
        show exchanges (SdCall.raise_cs :: (l ++ [SdCall.lower_cs])) = _ by
          rw [exchanges, ih.2]; rfl⟩
    | lower_cs =>
      exact ⟨show exchanges (SdCall.lower_cs :: (l ++ [SdCall.raise_cs])) = _ by
          rw [exchanges, ih.1]; rfl,
        show exchanges (SdCall.lower_cs :: (l ++ [SdCall.lower_cs])) = _ by
          rw [exchanges, ih.2]; rfl⟩

/-- What the chip-select part of a write leaves alone or bounds. -/
theorem cs_edge_frame (X : Peripherals σ υ δ ν ι) (g v : Nat) (b : Board σ υ δ ν ι) :
    exchanges (cs_edge X g v b).sd_log = exchanges b.sd_log
    ∧ (cs_edge X g v b).rxbits = b.rxbits
    ∧ (cs_edge X g v b).gpio_in = b.gpio_in
    ∧ (cs_edge X g v b).gpio_out = b.gpio_out
    ∧ (cs_edge X g v b).bitcnt ≤ b.bitcnt := by
  unfold cs_edge
  split_ifs
  · exact ⟨(exchanges_append_cs _).1, rfl, rfl, rfl, le_refl _⟩
  · exact ⟨(exchanges_append_cs _).2, rfl, rfl, rfl, Nat.zero_le _⟩
  · exact ⟨rfl, rfl, rfl, rfl, le_refl _⟩

/-- The effect of `spi_clock_low` on `gpio_in`: bit 7 takes bit 7 of
`rxbits`, bits 6..0 stay. -/
theorem spi_clock_low_gpio_in (b : Board σ υ δ ν ι) :
    (spi_clock_low b).gpio_in &&& 0x7F = b.gpio_in &&& 0x7F
    ∧ (spi_clock_low b).gpio_in &&& 0x80 = b.rxbits &&& 0x80
    ∧ (spi_clock_low b).rxbits = ((b.rxbits <<< 1) % 256 ||| 1) % 256
    ∧ exchanges (spi_clock_low b).sd_log = exchanges b.sd_log := by
  have hA : b.gpio_in &&& 0x7F < 256 :=
    lt_of_le_of_lt Nat.and_le_right (by decide)
  have hB : b.rxbits &&& 0x80 < 256 :=
    lt_of_le_of_lt Nat.and_le_right (by decide)
  have hAB : (b.gpio_in &&& 0x7F) ||| (b.rxbits &&& 0x80) < 256 := by
    have h256 : (256 : Nat) = 2 ^ 8 := by norm_num
    rw [h256] at hA hB ⊢
    exact Nat.or_lt_two_pow hA hB
  have e : (spi_clock_low b).gpio_in = (b.gpio_in &&& 0x7F) ||| (b.rxbits &&& 0x80) := by
    show ((b.gpio_in &&& 0x7F) % 256 ||| (b.rxbits &&& 0x80)) % 256 = _
    rw [Nat.mod_eq_of_lt hA, Nat.mod_eq_of_lt hAB]
  refine ⟨?_, ?_, rfl, rfl⟩
  · rw [e, Nat.and_distrib_right, Nat.and_assoc, Nat.and_assoc]
    have h1 : (0x7F : Nat) &&& 0x7F = 0x7F := by decide
    have h2 : (0x80 : Nat) &&& 0x7F = 0 := by decide
    rw [h1, h2, Nat.and_zero, Nat.or_zero]
  · rw [e, Nat.and_distrib_right, Nat.and_assoc, Nat.and_assoc]
    have h1 : (0x7F : Nat) &&& 0x80 = 0 := by decide
    have h2 : (0x80 : Nat) &&& 0x80 = 0x80 := by decide
    rw [h1, h2, Nat.and_zero, Nat.zero_or]

theorem spi_clock_high_gpio_out (X : Peripherals σ υ δ ν ι) (b : Board σ υ δ ν ι) :
    (spi_clock_high X b).gpio_out = b.gpio_out := by
  unfold spi_clock_high
  dsimp only
  split <;> rfl

theorem gpio_write_gpio_out (X : Peripherals σ υ δ ν ι) (a v : Nat) (b : Board σ υ δ ν ι) :
    (gpio_write X a v b).gpio_out = v := by
  have hc : (cs_edge X b.gpio_out v { b with gpio_out := v }).gpio_out = v :=
    (cs_edge_frame X _ _ _).2.2.2.1
  rw [gpio_write_eq]
  rcases clk_cases b.gpio_out v with he | hr | hf
  · rw [clk_edge_same X _ _ _ he, hc]
  · rw [clk_edge_rise X _ _ _ hr.1 hr.2, spi_clock_high_gpio_out, hc]
  · rw [clk_edge_fall X _ _ _ hf.1 hf.2, (spi_clock_low_frame _).2.2.2.2, hc]

/-- One write to the GPIO output port keeps `spi_inv`, with one more falling
edge counted when the write lowers the clock, as long as no more than seven
falling edges have been seen. -/
theorem spi_inv_step (X : Peripherals σ υ δ ν ι) (L : List Nat) (R g0 : Nat)
    (s : Board σ υ δ ν ι) (f a v : Nat) (hinv : spi_inv L R g0 s f)
    (hf : f + (if s.gpio_out &&& 2 ≠ 0 ∧ v &&& 2 = 0 then 1 else 0) ≤ 7) :
    spi_inv L R g0 (gpio_write X a v s)
      (f + (if s.gpio_out &&& 2 ≠ 0 ∧ v &&& 2 = 0 then 1 else 0)) := by
  obtain ⟨i1, i2, i3, i4, i5⟩ := hinv
  obtain ⟨c1, c2, c3, c4, c5⟩ := cs_edge_frame X s.gpio_out v { s with gpio_out := v }
  have c4v : (cs_edge X s.gpio_out v { s with gpio_out := v }).gpio_out = v := c4
  have c5s : (cs_edge X s.gpio_out v { s with gpio_out := v }).bitcnt ≤ s.bitcnt := c5
  have c1s : exchanges (cs_edge X s.gpio_out v { s with gpio_out := v }).sd_log = L :=
    c1.trans i1
  have c2s : (cs_edge X s.gpio_out v { s with gpio_out := v }).rxbits = rx_after R f :=
    c2.trans i2
  have c3s : (cs_edge X s.gpio_out v { s with gpio_out := v }).gpio_in = s.gpio_in := c3
  rw [gpio_write_eq]
  rcases clk_cases s.gpio_out v with he | hr | hfall
  · have hnf : ¬ (s.gpio_out &&& 2 ≠ 0 ∧ v &&& 2 = 0) := by
      rintro ⟨h1, h2⟩; rw [he] at h1; exact h1 h2
    rw [if_neg hnf, Nat.add_zero, clk_edge_same X _ _ _ he]
    refine ⟨c1s, c2s, by rw [c3s]; exact i3, fun h => by rw [c3s]; exact i4 h, ?_⟩
    rw [c4v, ← he]
    omega
  · have hnf : ¬ (s.gpio_out &&& 2 ≠ 0 ∧ v &&& 2 = 0) := fun h => h.1 hr.1
    rw [if_neg hnf, Nat.add_zero] at hf ⊢
    rw [if_pos hr.1] at i5
    rw [clk_edge_rise X _ _ _ hr.1 hr.2, spi_clock_high_mid X _ (by omega)]
    refine ⟨c1s, c2s, ?_, ?_, ?_⟩
    · show (cs_edge X s.gpio_out v { s with gpio_out := v }).gpio_in &&& 0x7F = _
      rw [c3s]; exact i3
    · intro h
      show (cs_edge X s.gpio_out v { s with gpio_out := v }).gpio_in &&& 0x80 = _
      rw [c3s]; exact i4 h
    · show (cs_edge X s.gpio_out v { s with gpio_out := v }).bitcnt + 1
          + (if (cs_edge X s.gpio_out v { s with gpio_out := v }).gpio_out &&& 2 = 0
              then 1 else 0) ≤ f
      rw [c4v, if_neg hr.2]
      omega
  · rw [if_pos hfall] at hf ⊢
    rw [if_neg hfall.1] at i5
    rw [clk_edge_fall X _ _ _ hfall.1 hfall.2]
    obtain ⟨l1, l2, l3, l4⟩ :=
      spi_clock_low_gpio_in (cs_edge X s.gpio_out v { s with gpio_out := v })
    refine ⟨l4.trans c1s, ?_, ?_, ?_, ?_⟩
    · rw [l3, c2s]
      rfl
    · rw [l1, c3s]; exact i3
    · intro _
      rw [l2, c2s]
      rfl
    · rw [(spi_clock_low_frame _).1, (spi_clock_low_frame _).2.2.2.2, c4v, if_pos hfall.2]
      omega

theorem gpio_writes_cons (X : Peripherals σ υ δ ν ι) (w : Nat) (ws : List Nat)
    (s : Board σ υ δ ν ι) :
    gpio_writes X (w :: ws) s = gpio_writes X ws (gpio_write X 0x10 w s) := rfl

/-- A run of writes keeps `spi_inv`, counting its falling clock edges, as
long as the count stays at seven or below. -/
theorem spi_inv_run (X : Peripherals σ υ δ ν ι) (L : List Nat) (R g0 : Nat)
    (ws : List Nat) :
    ∀ (s : Board σ υ δ ν ι) (f : Nat), spi_inv L R g0 s f →
      f + falling_edges s.gpio_out ws ≤ 7 →
      spi_inv L R g0 (gpio_writes X ws s) (f + falling_edges s.gpio_out ws) := by
  induction ws with
  | nil =>
    intro s f hinv _
    exact hinv
  | cons w ws ih =>
    intro s f hinv hf
    rw [falling_edges] at hf ⊢
    have hstep := spi_inv_step X L R g0 s f 0x10 w hinv (by omega)
    have hout := gpio_write_gpio_out X 0x10 w s
    have h2 := ih (gpio_write X 0x10 w s) _ hstep (by rw [hout]; omega)
    rw [hout] at h2
    rw [gpio_writes_cons, ← Nat.add_assoc]
    exact h2

set_option maxRecDepth 100000 in
theorem rx_after_bit7 : ∀ R : Fin 256, ∀ f : Fin 8,
    rx_after R.val f.val &&& 0x80 = ((R.val >>> (7 - f.val)) &&& 1) <<< 7 := by
  decide

/-- C18: take a state right after an exchange that returned `R` (bit
counter 0, clock high, `rxbits = R`) and any run `ws` of writes to the GPIO
output port containing `k ≤ 7` falling clock edges, followed by a write `w`
that is a falling edge, the `(k+1)`-th.  Up to and including that edge no
further call of `sd_spi_in` is made; after it bit 7 of `gpio_in`, which
`io_read` of port 0x00 returns, is bit `7 - k` of `R` (bit 7 on the first
falling edge, bit 0 on the eighth) and bits 6..0 of `gpio_in` are what they
were at the exchange; between edges bit 7 keeps the bit presented last. -/
theorem spi_response_shifted_out (X : Peripherals σ υ δ ν ι) (b : Board σ υ δ ν ι)
    (R : Nat) (ws : List Nat) (w : Nat) (hR : R < 256) (hrx : b.rxbits = R)
    (hcnt : b.bitcnt = 0) (hclk : b.gpio_out &&& 2 ≠ 0)
    (hk : falling_edges b.gpio_out ws ≤ 7)
    (hw : (gpio_writes X ws b).gpio_out &&& 2 ≠ 0 ∧ w &&& 2 = 0) :
    exchanges (gpio_writes X ws b).sd_log = exchanges b.sd_log
    ∧ exchanges (gpio_write X 0x10 w (gpio_writes X ws b)).sd_log = exchanges b.sd_log
    ∧ (gpio_write X 0x10 w (gpio_writes X ws b)).gpio_in &&& 0x80
        = ((R >>> (7 - falling_edges b.gpio_out ws)) &&& 1) <<< 7
    ∧ (gpio_write X 0x10 w (gpio_writes X ws b)).gpio_in &&& 0x7F = b.gpio_in &&& 0x7F
    ∧ (io_read X 0x00 (gpio_write X 0x10 w (gpio_writes X ws b))).1
        = (gpio_write X 0x10 w (gpio_writes X ws b)).gpio_in
    ∧ (gpio_writes X ws b).gpio_in &&& 0x7F = b.gpio_in &&& 0x7F
    ∧ (0 < falling_edges b.gpio_out ws →
        (gpio_writes X ws b).gpio_in &&& 0x80
          = ((R >>> (8 - falling_edges b.gpio_out ws)) &&& 1) <<< 7) := by
  have h0 : spi_inv (exchanges b.sd_log) R b.gpio_in b 0 := by
    refine ⟨rfl, hrx, rfl, fun h => absurd h (Nat.lt_irrefl 0), ?_⟩
    rw [hcnt, if_neg hclk]
  have hrun := spi_inv_run X (exchanges b.sd_log) R b.gpio_in ws b 0 h0 (by omega)
  rw [Nat.zero_add] at hrun
  obtain ⟨r1, r2, r3, r4, r5⟩ := hrun
  obtain ⟨c1, c2, c3, c4, c5⟩ := cs_edge_frame X (gpio_writes X ws b).gpio_out w
    { gpio_writes X ws b with gpio_out := w }
  obtain ⟨l1, l2, l3, l4⟩ := spi_clock_low_gpio_in
    (cs_edge X (gpio_writes X ws b).gpio_out w { gpio_writes X ws b with gpio_out := w })
  have e : gpio_write X 0x10 w (gpio_writes X ws b)
      = spi_clock_low (cs_edge X (gpio_writes X ws b).gpio_out w
          { gpio_writes X ws b with gpio_out := w }) := by
    rw [gpio_write_eq, clk_edge_fall X _ _ _ hw.1 hw.2]
  have hbit := rx_after_bit7 ⟨R, hR⟩ ⟨falling_edges b.gpio_out ws, by omega⟩
  simp only at hbit
  refine ⟨r1, ?_, ?_, ?_, ?_, r3, ?_⟩
  · rw [e, l4, c1]; exact r1
  · rw [e, l2, c2]
    show (gpio_writes X ws b).rxbits &&& 0x80 = _
    rw [r2]; exact hbit
  · rw [e, l1, c3]; exact r3
  · rw [io_read_gpio X 0x00 _ (by decide)]
  · intro hpos
    rw [r4 hpos]
    have hb := rx_after_bit7 ⟨R, hR⟩ ⟨falling_edges b.gpio_out ws - 1, by omega⟩
    simp only at hb
    rw [hb]
    have : 7 - (falling_edges b.gpio_out ws - 1) = 8 - falling_edges b.gpio_out ws := by
      omega
    rw [this]

/-- Instance: after an exchange that returned 0xA5, one falling edge and
one rising edge have passed; the second falling edge shows bit 6 of 0xA5,
which is 0, in bit 7 of `gpio_in`. -/
theorem spi_response_shifted_out_witness :
    (0xA5 : Nat) < 256 ∧ exchangedBoard.rxbits = 0xA5 ∧ exchangedBoard.bitcnt = 0
    ∧ exchangedBoard.gpio_out &&& 2 ≠ 0
    ∧ falling_edges exchangedBoard.gpio_out [0x00, 0x02] = 1
    ∧ exchanges (gpio_write demoPeripherals 0x10 0x00
        (gpio_writes demoPeripherals [0x00, 0x02] exchangedBoard)).sd_log
        = exchanges exchangedBoard.sd_log
    ∧ (gpio_write demoPeripherals 0x10 0x00
        (gpio_writes demoPeripherals [0x00, 0x02] exchangedBoard)).gpio_in &&& 0x80
        = ((0xA5 >>> (7 - falling_edges exchangedBoard.gpio_out [0x00, 0x02])) &&& 1) <<< 7 :=
  have h := spi_response_shifted_out demoPeripherals exchangedBoard 0xA5 [0x00, 0x02] 0x00
    (by decide) (by decide) (by decide) (by decide) (by decide) (by decide)
  ⟨by decide, by decide, by decide, by decide, by decide, h.2.1, h.2.2.1⟩

/-! ## Array bounds of the memory map -/

theorem map_addr_index_bounds (a g m : Nat) (hg : g < 256) (hm : m < 65536) :
    a &&& m < 65536
    ∧ (if a ≥ 0x8000 then 15 else g >>> 4) * 0x8000 + (a &&& 0x7FFF) < 16 * 32768 := by
  constructor
  · exact lt_of_le_of_lt Nat.and_le_right hm
  · have h1 : a &&& 0x7FFF ≤ 0x7FFF := Nat.and_le_right
    have h2 : g >>> 4 < 16 := by
      rw [Nat.shiftRight_eq_div_pow]; omega
    split_ifs <;> omega

/-- C23: for every address, access kind, bank selector byte, overlay flag
and 16-bit `rom_mask`, the cell `map_addr` resolves lies inside its backing
array (a ROM index `addr & rom_mask` is below 65536, a RAM index
`bank * 32768 + (addr & 0x7FFF)` is below `16 * 32768`), and `mem_read` and
`mem_write` are the read and the write of such a cell. -/
theorem map_addr_in_array (X : Peripherals σ υ δ ν ι) (m1 : Bool) (a w v : Nat)
    (b : Board σ υ δ ν ι) (hg : b.gpio_out < 256) (hm : b.rom_mask < 65536) :
    in_array (map_addr a w b) = true
    ∧ a &&& b.rom_mask < 65536
    ∧ (if a ≥ 0x8000 then 15 else b.gpio_out >>> 4) * 32768 + (a &&& 0x7FFF) < 16 * 32768
    ∧ (mem_read X m1 a b).1 = load (map_addr a 0 b) b
    ∧ mem_write a v b = store (map_addr a 1 b) v b := by
  have hb := map_addr_index_bounds a b.gpio_out b.rom_mask hg hm
  refine ⟨?_, hb.1, hb.2, ?_, rfl⟩
  · unfold map_addr
    have h2 := hb.2
    by_cases hf : b.flash_in ≠ 0 ∧ w = 0
    · rw [if_pos hf]
      simpa [in_array] using hb.1
    · rw [if_neg hf]
      by_cases ha : a ≥ 0x8000
      · rw [if_pos ha] at h2
        simpa [in_array, ha] using h2
      · rw [if_neg ha] at h2
        simpa [in_array, ha] using h2
  · rw [mem_read_fst]; rfl

/-- Instance: with the boot overlay on and a 16 KiB ROM, the read of 0xFFFF
lands in the ROM at 0x3FFF and the write in the last byte of the RAM. -/
theorem map_addr_in_array_witness :
    demoBoard.gpio_out < 256 ∧ demoBoard.rom_mask < 65536
    ∧ in_array (map_addr 0xFFFF 0 demoBoard) = true
    ∧ in_array (map_addr 0xFFFF 1 demoBoard) = true :=
  ⟨by decide, by decide,
   (map_addr_in_array demoPeripherals false 0xFFFF 0 0 demoBoard (by decide) (by decide)).1,
   (map_addr_in_array demoPeripherals false 0xFFFF 1 0 demoBoard (by decide) (by decide)).1⟩

/-! ## The ROM size check -/

theorem land_pred_eq_zero_iff (n : Nat) (hn : 0 < n) :
    n &&& (n - 1) = 0 ↔ ∃ k, n = 2 ^ k := by
  induction n using Nat.strong_induction_on with
  | _ n ih =>
    have hz : ∀ z : Nat, z = 0 ↔ z / 2 = 0 ∧ ¬ z % 2 = 1 := by intro z; omega
    rw [hz (n &&& (n - 1)), Nat.and_div_two, Nat.and_mod_two_eq_one]
    rcases Nat.even_or_odd n with ⟨m, hm⟩ | ⟨m, hm⟩
    · have hm0 : 0 < m := by omega
      have e1 : n / 2 = m := by omega
      have e2 : (n - 1) / 2 = m - 1 := by omega
      have e3 : ¬ (n % 2 = 1 ∧ (n - 1) % 2 = 1) := by omega
      rw [e1, e2]
      constructor
      · rintro ⟨h, -⟩
        obtain ⟨k, hk⟩ := (ih m (by omega) hm0).1 h
        exact ⟨k + 1, by rw [pow_succ]; omega⟩
      · rintro ⟨k, hk⟩
        refine ⟨?_, e3⟩
        rcases k with _ | k
        · simp at hk; omega
        · refine (ih m (by omega) hm0).2 ⟨k, ?_⟩
          rw [pow_succ] at hk; omega
    · have e1 : n / 2 = m := by omega
      have e2 : (n - 1) / 2 = m := by omega
      have e3 : ¬ (n % 2 = 1 ∧ (n - 1) % 2 = 1) := by omega
      rw [e1, e2, Nat.and_self]
      constructor
      · rintro ⟨h, -⟩
        exact ⟨0, by simp; omega⟩
      · rintro ⟨k, hk⟩
        refine ⟨?_, e3⟩
        rcases k with _ | k
        · simp at hk; omega
        · rw [pow_succ] at hk; omega

theorem main_rom_check_of_size (n : Nat) (hn : n ≤ 65536) :
    main_rom_check (n : Int)
      = if n = 0 ∨ n &&& (n - 1) ≠ 0 then none else some (n - 1) := by
  unfold main_rom_check
  have e : toUint32 (n : Int) = n := by
    unfold toUint32; omega
  simp only [e]
  by_cases h0 : n = 0
  · simp [h0]
  · have e2 : (n + 4294967295) % 4294967296 = n - 1 := by omega
    have e3 : (n - 1) % 65536 = n - 1 := by omega
    simp only [e2, e3]

/-- C21: for every ROM image length `n` read at start-up (`0 ≤ n ≤ 65536`)
the size check of `main` lets start-up continue if and only if `n` is a
power of two, and otherwise leaves through the fatal error; a failed read
(`read` returns `-1`) is rejected as well; when the size is accepted the
16-bit `rom_mask` is `n - 1`, so that `addr & rom_mask < n` for every
address. -/
theorem main_rom_check_power_of_two (n : Nat) (hn : n ≤ 65536) :
    ((main_rom_check (n : Int)).isSome = true ↔ ∃ k, n = 2 ^ k)
    ∧ ((¬ ∃ k, n = 2 ^ k) → main_rom_check (n : Int) = none)
    ∧ main_rom_check (-1) = none
    ∧ ((∃ k, n = 2 ^ k) → main_rom_check (n : Int) = some (n - 1) ∧ n - 1 < 65536
        ∧ ∀ addr : Nat, addr &&& (n - 1) < n) := by
  have hc := main_rom_check_of_size n hn
  have key : (n = 0 ∨ n &&& (n - 1) ≠ 0) ↔ ¬ ∃ k, n = 2 ^ k := by
    constructor
    · rintro (h0 | h1) ⟨k, hk⟩
      · have : 0 < 2 ^ k := Nat.two_pow_pos k
        omega
      · exact h1 ((land_pred_eq_zero_iff n (by rw [hk]; exact Nat.two_pow_pos k)).2 ⟨k, hk⟩)
    · intro h
      by_cases h0 : n = 0
      · exact Or.inl h0
      · right
        intro hz
        exact h ((land_pred_eq_zero_iff n (Nat.pos_of_ne_zero h0)).1 hz)
  refine ⟨?_, ?_, ?_, ?_⟩
  · rw [hc]
    by_cases hp : ∃ k, n = 2 ^ k
    · rw [if_neg (fun h => key.1 h hp)]
      simp [hp]
    · rw [if_pos (key.2 hp)]
      simp [hp]
  · intro hp
    rw [hc, if_pos (key.2 hp)]
  · decide
  · intro hp
    have hpos : 0 < n := by
      obtain ⟨k, hk⟩ := hp
      rw [hk]; exact Nat.two_pow_pos k
    refine ⟨?_, by omega, ?_⟩
    · rw [hc, if_neg (fun h => key.1 h hp)]
    · intro addr
      have : addr &&& (n - 1) ≤ n - 1 := Nat.and_le_right
      omega

/-- Instance: a 16 KiB image is accepted with mask 0x3FFF, a 12 KiB image is
not a power of two and is rejected. -/
theorem main_rom_check_power_of_two_witness :
    (16384 : Nat) ≤ 65536 ∧ main_rom_check ((16384 : Nat) : Int) = some 0x3FFF
    ∧ (12288 : Nat) ≤ 65536 ∧ (main_rom_check ((12288 : Nat) : Int)).isSome = false :=
  ⟨by decide,
   ((main_rom_check_power_of_two 16384 (by decide)).2.2.2 ⟨14, by decide⟩).1,
   by decide,
   by
    have h := (main_rom_check_power_of_two 12288 (by decide)).1
    cases hs : (main_rom_check ((12288 : Nat) : Int)).isSome
    · rfl
    · exfalso
      obtain ⟨k, hk⟩ := h.1 hs
      have hk14 : k < 14 ∨ 14 ≤ k := by omega
      rcases hk14 with h1 | h1
      · have : k < 14 := h1
        interval_cases k <;> omega
      · have : 2 ^ 14 ≤ 2 ^ k := Nat.pow_le_pow_right (by decide) h1
        omega⟩

/-! ## The VZ300 memory map -/

theorem vz300_mmu_fatal_iff {δ κ : Type} (addr : Nat) (w : Bool) (s : VZ300.State δ κ) :
    VZ300.mmu addr w s = VZ300.MmuResult.fatal ↔ 0x6800 ≤ addr ∧ addr ≤ 0x6FFE := by
  unfold VZ300.mmu
  split_ifs <;> simp <;> omega

/-- C26: in the VZ300 machine, for every address, every bank, vzcompat and
machine setting and with or without the SD loader, `mem_read` and
`mem_write` never leave through the fatal exit of `mmu`: every address in
0x6800..0x6FFF is served as keyboard input or stored in the output latch
without a call of `mmu`, and `mmu` takes that exit exactly for the addresses
0x6800..0x6FFE. -/
theorem vz300_mem_access_never_fatal {δ κ : Type} (keymatrix_input : κ → Nat → Nat)
    (addr val : Nat) (s : VZ300.State δ κ) :
    VZ300.mem_read keymatrix_input addr s ≠ none
    ∧ VZ300.mem_write addr val s ≠ none
    ∧ (0x6800 ≤ addr ∧ addr ≤ 0x6FFF →
        VZ300.mem_read keymatrix_input addr s
          = some (VZ300.keymatrix keymatrix_input addr s)
        ∧ VZ300.mem_write addr val s = some { s with latch := val })
    ∧ (∀ w : Bool, VZ300.mmu addr w s = VZ300.MmuResult.fatal ↔ 0x6800 ≤ addr ∧ addr ≤ 0x6FFE) := by
  refine ⟨?_, ?_, ?_, fun w => vz300_mmu_fatal_iff addr w s⟩
  · unfold VZ300.mem_read
    by_cases h : addr ≥ 0x6800 ∧ addr ≤ 0x6FFF
    · rw [if_pos h]; simp
    · rw [if_neg h]
      have hf : VZ300.mmu addr false s ≠ VZ300.MmuResult.fatal := by
        intro hx
        have := (vz300_mmu_fatal_iff addr false s).1 hx
        omega
      cases hm : VZ300.mmu addr false s with
      | fatal => exact absurd hm hf
      | null => simp
      | cell i => simp
  · unfold VZ300.mem_write
    by_cases h : addr ≥ 0x6800 ∧ addr ≤ 0x6FFF
    · rw [if_pos h]; simp
    · rw [if_neg h]
      have hf : VZ300.mmu addr true s ≠ VZ300.MmuResult.fatal := by
        intro hx
        have := (vz300_mmu_fatal_iff addr true s).1 hx
        omega
      cases hm : VZ300.mmu addr true s with
      | fatal => exact absurd hm hf
      | null => simp
      | cell i => simp
  · intro h
    constructor
    · unfold VZ300.mem_read
      rw [if_pos h]
    · unfold VZ300.mem_write
      rw [if_pos h]

/-- Instance: on a VZ300 without SD loader the read of 0x6FFF, the one
address of the window for which `mmu` has no fatal exit, is answered by the
keyboard, and the write of 0x6800 goes to the latch. -/
theorem vz300_mem_access_never_fatal_witness :
    VZ300.mem_read (fun _ _ => 0) 0x6FFF vzDemo = some 0xFF
    ∧ VZ300.mem_write 0x6800 0x08 vzDemo = some { vzDemo with latch := 0x08 } :=
  ⟨((vz300_mem_access_never_fatal (fun _ _ => 0) 0x6FFF 0 vzDemo).2.2.1
      ⟨by decide, by decide⟩).1,
   ((vz300_mem_access_never_fatal (fun _ _ => 0) 0x6800 0x08 vzDemo).2.2.1
      ⟨by decide, by decide⟩).2⟩

/-! ## The invariant of the pending mask -/

theorem testBit_false_of_lt_16 (m j : Nat) (hm : m < 16) (hj : 4 ≤ j) : m.testBit j = false := by
  apply Nat.testBit_lt_two_pow
  calc m < 2 ^ 4 := hm
    _ ≤ 2 ^ j := Nat.pow_le_pow_right (by decide) hj

/-- A step that keeps the interrupt-enable bits and sets no new pending bit
keeps the invariant. -/
theorem ctc_invariant_mono (s t : Machine σ υ) (hI : ctc_invariant s)
    (hc : ∀ i, (t.ctc i).ctrl &&& CTC_IRQ = (s.ctc i).ctrl &&& CTC_IRQ)
    (hm : ∀ j, t.ctc_irqmask.testBit j = true → s.ctc_irqmask.testBit j = true) :
    ctc_invariant t := by
  refine ⟨?_, ?_⟩
  · intro i hp
    rw [pending_eq_testBit] at hp
    rw [hc i]
    apply hI.1 i
    rw [pending_eq_testBit]
    exact hm _ hp
  · have h16 : (16 : Nat) = 2 ^ 4 := by norm_num
    rw [h16]
    apply Nat.lt_pow_two_of_testBit
    intro j hj
    cases h : t.ctc_irqmask.testBit j
    · rfl
    · have := hm j h
      rw [testBit_false_of_lt_16 _ _ hI.2 hj] at this
      exact absurd this (by decide)

theorem ctc_init_invariant (s : Machine σ υ) (h : s.ctc_irqmask = 0) :
    ctc_invariant (ctc_init s) := by
  have hm : (ctc_init s).ctc_irqmask = 0 := h
  refine ⟨?_, ?_⟩
  · intro i hp
    rw [pending_eq_testBit, hm, Nat.zero_testBit] at hp
    exact absurd hp (by decide)
  · rw [hm]; decide

theorem ctc_write_control_mask (s : Machine σ υ) (ch : Fin 4) (val : Nat)
    (ht : (s.ctc ch).ctrl &&& CTC_TCONST = 0) (hc : val &&& CTC_CONTROL ≠ 0) :
    (ctc_write ch val s).ctc_irqmask
      = if val &&& CTC_IRQ = 0 ∧ s.ctc_irqmask &&& (1 <<< ch.val) ≠ 0
        then (s.ctc_irqmask &&& bnot32 (1 <<< ch.val)) % 256 else s.ctc_irqmask := by
  by_cases hw : val &&& CTC_IRQ = 0 ∧ s.ctc_irqmask &&& (1 <<< ch.val) ≠ 0
  · rw [if_pos hw]
    exact (ctc_write_control_withdraw s ch val ht hc hw.1 hw.2).1
  · rw [if_neg hw]
    unfold ctc_write
    simp only [ht, ne_eq, not_true_eq_false, if_false, hc, not_false_eq_true, if_true, setCtc]
    by_cases h62 : val &&& (CTC_TCONST ||| CTC_RESET) = CTC_RESET
    · simp only [h62, if_true]
      rw [if_neg hw]
    · simp only [h62, if_false]
      rw [if_neg hw]

theorem ctc_write_invariant (s : Machine σ υ) (ch : Fin 4) (val : Nat)
    (hI : ctc_invariant s) : ctc_invariant (ctc_write ch val s) := by
  by_cases ht : (s.ctc ch).ctrl &&& CTC_TCONST ≠ 0
  · apply ctc_invariant_mono s _ hI
    · intro i
      rw [ctc_write_tconst s ch val ht]
      by_cases hi : i = ch
      · subst hi
        simp only [setCtc, Function.update_same]
        exact (land_FB _).2.2.2
      · simp only [setCtc, Function.update_noteq hi]
    · intro j hj
      rw [ctc_write_tconst s ch val ht] at hj
      exact hj
  · have ht0 : (s.ctc ch).ctrl &&& CTC_TCONST = 0 := not_not.1 ht
    by_cases hc : val &&& CTC_CONTROL ≠ 0
    · have hctc := ctc_write_control_ctc s ch val ht0 hc
      have hmask := ctc_write_control_mask s ch val ht0 hc
      have hother : ∀ i, i ≠ ch → (ctc_write ch val s).ctc i = s.ctc i := by
        intro i hi
        rw [hctc, Function.update_noteq hi]
      have hself : ((ctc_write ch val s).ctc ch).ctrl = val := by
        rw [hctc, Function.update_same]
      have hle : ∀ j, (ctc_write ch val s).ctc_irqmask.testBit j = true →
          s.ctc_irqmask.testBit j = true := by
        intro j hj
        rw [hmask] at hj
        split_ifs at hj
        · rw [testBit_clear_bit] at hj
          simp only [Bool.and_eq_true] at hj
          exact hj.2.1
        · exact hj
      refine ⟨?_, ?_⟩
      · intro i hp
        rw [pending_eq_testBit] at hp
        by_cases hi : i = ch
        · subst hi
          rw [hself]
          intro hirq
          have hold := hle _ hp
          have hbit : s.ctc_irqmask &&& (1 <<< i.val) ≠ 0 := by
            rw [← pending_true_iff, pending_eq_testBit]; exact hold
          rw [hmask, if_pos ⟨hirq, hbit⟩, testBit_clear_bit] at hp
          simp at hp
        · rw [hother i hi]
          apply hI.1 i
          rw [pending_eq_testBit]
          exact hle _ hp
      · have h16 : (16 : Nat) = 2 ^ 4 := by norm_num
        rw [h16]
        apply Nat.lt_pow_two_of_testBit
        intro j hj
        cases h : (ctc_write ch val s).ctc_irqmask.testBit j
        · rfl
        · have := hle j h
          rw [testBit_false_of_lt_16 _ _ hI.2 hj] at this
          exact absurd this (by decide)
    · have hc0 : val &&& CTC_CONTROL = 0 := not_not.1 hc
      rw [ctc_write_vector s ch val ht0 hc0]
      split_ifs with h0
      · apply ctc_invariant_mono s _ hI
        · intro i
          by_cases hi : i = ch
          · subst hi
            simp only [setCtc, Function.update_same]
          · simp only [setCtc, Function.update_noteq hi]
        · intro j hj
          exact hj
      · exact hI

theorem ctc_interrupt_mask_lt (i : Fin 4) (s : Machine σ υ) (e : Nat) (he : 4 ≤ e)
    (h : s.ctc_irqmask < 2 ^ e) : (ctc_interrupt i s).ctc_irqmask < 2 ^ e := by
  unfold ctc_interrupt recalc_interrupts
  split_ifs
  · show (s.ctc_irqmask ||| 1 <<< i.val) % 256 < 2 ^ e
    have h1 : s.ctc_irqmask ||| 1 <<< i.val < 2 ^ e := by
      apply Nat.or_lt_two_pow h
      rw [Nat.one_shiftLeft]
      exact Nat.pow_lt_pow_right (by decide) (lt_of_lt_of_le i.isLt he)
    exact lt_of_le_of_lt (Nat.mod_le _ _) h1
  · exact h
  · exact h

theorem ctc_fire_iterate_mask_lt (i : Fin 4) (k : Nat) (s : Machine σ υ) (e : Nat)
    (he : 4 ≤ e) (h : s.ctc_irqmask < 2 ^ e) : ((ctc_fire i)^[k] s).ctc_irqmask < 2 ^ e := by
  induction k generalizing s with
  | zero => exact h
  | succ k ih =>
    rw [Function.iterate_succ_apply]
    apply ih
    exact ctc_interrupt_mask_lt i s e he h

theorem ctc_tick_chan_mask_lt (clocks : Nat) (i : Fin 4) (s : Machine σ υ) (e : Nat)
    (he : 4 ≤ e) (h : s.ctc_irqmask < 2 ^ e) :
    (ctc_tick_chan clocks i s).ctc_irqmask < 2 ^ e := by
  rw [ctc_tick_chan_closed]
  split
  · exact h
  · exact ctc_fire_iterate_mask_lt i _ s e he h

/-- The pending mask stays within its four channel bits, and within a byte,
over `ctc_tick`. -/
theorem ctc_tick_mask_lt (clocks : Nat) (s : Machine σ υ) (e : Nat) (he : 4 ≤ e)
    (h : s.ctc_irqmask < 2 ^ e) : (ctc_tick clocks s).ctc_irqmask < 2 ^ e := by
  unfold ctc_tick
  exact ctc_tick_chan_mask_lt _ _ _ e he (ctc_tick_chan_mask_lt _ _ _ e he
    (ctc_tick_chan_mask_lt _ _ _ e he (ctc_tick_chan_mask_lt _ _ _ e he h)))

/-- The only field of a channel record that `ctc_tick` writes is `count`. -/
theorem ctc_tick_ctrl (clocks : Nat) (s : Machine σ υ) (i : Fin 4) :
    ((ctc_tick clocks s).ctc i).ctrl = (s.ctc i).ctrl
    ∧ ((ctc_tick clocks s).ctc i).reload = (s.ctc i).reload
    ∧ ((ctc_tick clocks s).ctc i).vector = (s.ctc i).vector
    ∧ ((ctc_tick clocks s).ctc i).irq = (s.ctc i).irq := by
  rw [ctc_tick_ctc]
  split_ifs <;> exact ⟨rfl, rfl, rfl, rfl⟩

theorem ctc_tick_invariant (clocks : Nat) (s : Machine σ υ) (hI : ctc_invariant s) :
    ctc_invariant (ctc_tick clocks s) := by
  refine ⟨?_, ctc_tick_mask_lt clocks s 4 le_rfl hI.2⟩
  intro i hp
  rw [(ctc_tick_ctrl clocks s i).1]
  rw [ctc_tick_pending] at hp
  simp only [Bool.or_eq_true, Bool.and_eq_true, decide_eq_true_eq] at hp
  rcases hp with hp | hp
  · exact hI.1 i hp
  · exact hp.2

theorem poll_irq_event_invariant (X : Devices σ υ) (s : Machine σ υ) (hI : ctc_invariant s) :
    ctc_invariant (poll_irq_event X s) := by
  by_cases h : s.live_irq = 0
  · rw [poll_irq_event_idle X s h]
    exact hI
  · rw [poll_irq_event_live X s h]
    exact hI

theorem ctc_reti_invariant (k : Nat) (s : Machine σ υ) (hI : ctc_invariant s) :
    ctc_invariant (ctc_reti k s) := by
  apply ctc_invariant_mono s _ hI
  · intro i
    unfold ctc_reti
    split_ifs <;> rfl
  · intro j hj
    rw [ctc_reti_mask_testBit s k j (by have := hI.2; omega)] at hj
    simp only [Bool.and_eq_true] at hj
    exact hj.1

theorem reti_event_invariant (X : Devices σ υ) (s : Machine σ υ) (hI : ctc_invariant s) :
    ctc_invariant (reti_event X s) := by
  unfold reti_event
  apply poll_irq_event_invariant
  dsimp only
  split_ifs
  · exact hI
  · exact ctc_reti_invariant _ s hI
  · exact hI

/-- C25: in every state reached from `ctc_init` (entered with an empty
pending mask) by any sequence of `ctc_write`, `ctc_tick`, `poll_irq_event`
and `reti_event`, a channel is pending only if the interrupt-enable bit of
its control byte is set, and no bit of the pending mask above the four
channel bits is set. -/
theorem reachable_pending_only_if_enabled (X : Devices σ υ) (s : Machine σ υ)
    (h : Reachable X s) :
    (∀ i : Fin 4, pending s i.val = true → (s.ctc i).ctrl &&& CTC_IRQ ≠ 0)
    ∧ s.ctc_irqmask < 16
    ∧ (∀ j : Nat, 4 ≤ j → pending s j = false) := by
  have hI : ctc_invariant s := by
    induction h with
    | init s h => exact ctc_init_invariant s h
    | write s ch val _ ih => exact ctc_write_invariant s ch val ih
    | tick s clocks _ ih => exact ctc_tick_invariant clocks s ih
    | poll s _ ih => exact poll_irq_event_invariant X s ih
    | reti s _ ih => exact reti_event_invariant X s ih
  refine ⟨hI.1, hI.2, ?_⟩
  intro j hj
  rw [pending_eq_testBit]
  exact testBit_false_of_lt_16 _ _ hI.2 hj

/-- Instance: after `ctc_init`, the control byte 0x85 and the time constant
1 for channel 0, and 300 clocks, channel 0 is pending with its interrupt
enabled and the mask is 1. -/
theorem reachable_pending_only_if_enabled_witness :
    Reachable demoDevices reachedInput
    ∧ pending reachedInput 0 = true
    ∧ (reachedInput.ctc 0).ctrl &&& CTC_IRQ ≠ 0
    ∧ reachedInput.ctc_irqmask < 16 :=
  have hr : Reachable demoDevices reachedInput :=
    Reachable.tick _ 300 (Reachable.write _ 0 1 (Reachable.write _ 0 0x85
      (Reachable.init demoMachine rfl)))
  have h := reachable_pending_only_if_enabled demoDevices reachedInput hr
  have hp : pending reachedInput 0 = true := by
    have hp0 := ctc_tick_pending 300 (ctc_write 0 1 (ctc_write 0 0x85 (ctc_init demoMachine))) 0
    have hv : pending reachedInput 0
        = pending (ctc_tick 300 (ctc_write 0 1 (ctc_write 0 0x85 (ctc_init demoMachine))))
            (0 : Fin 4).val := rfl
    rw [hv, hp0]
    decide
  ⟨hr, hp, h.1 0 hp, h.2.1⟩

/-! ## The re-add loop of `ctc_tick` within `int` range -/

theorem ctc_decby_of_range (clocks : Nat) (c : z80_ctc)
    (hrange : (if c.ctrl &&& CTC_PRESCALER = 0 then clocks * 16 else clocks) < 2147483648) :
    ctc_decby clocks c
      = ((if c.ctrl &&& CTC_PRESCALER = 0 then clocks * 16 else clocks : Nat) : Int) := by
  unfold ctc_decby
  by_cases hp : c.ctrl &&& CTC_PRESCALER = 0
  · rw [if_pos hp] at hrange
    simp only [hp, if_true]
    rw [toInt32_of_range (clocks : Int) (by omega) (by omega),
      toInt32_of_range ((clocks : Int) * 16) (by omega) (by omega)]
    push_cast
    rfl
  · rw [if_neg hp] at hrange
    simp only [hp, if_false]
    rw [toInt32_of_range (clocks : Int) (by omega) (by omega)]

theorem ctc_decby_add (a b : Nat) (c : z80_ctc)
    (hrange : (if c.ctrl &&& CTC_PRESCALER = 0 then (a + b) * 16 else a + b) < 2147483648) :
    ctc_decby (a + b) c = ctc_decby a c + ctc_decby b c
    ∧ 0 ≤ ctc_decby a c ∧ 0 ≤ ctc_decby b c
    ∧ (if c.ctrl &&& CTC_PRESCALER = 0 then a * 16 else a) < 2147483648
    ∧ (if c.ctrl &&& CTC_PRESCALER = 0 then b * 16 else b) < 2147483648 := by
  have ha : (if c.ctrl &&& CTC_PRESCALER = 0 then a * 16 else a) < 2147483648 := by
    split_ifs at hrange ⊢ <;> omega
  have hb : (if c.ctrl &&& CTC_PRESCALER = 0 then b * 16 else b) < 2147483648 := by
    split_ifs at hrange ⊢ <;> omega
  rw [ctc_decby_of_range _ _ hrange, ctc_decby_of_range _ _ ha, ctc_decby_of_range _ _ hb]
  refine ⟨?_, Int.natCast_nonneg _, Int.natCast_nonneg _, ha, hb⟩
  split_ifs <;> push_cast <;> ring

theorem ctc_tick_start_of_range (clocks : Nat) (c : z80_ctc) (hcount : c.count < 65536)
    (hrange : (if c.ctrl &&& CTC_PRESCALER = 0 then clocks * 16 else clocks) < 2147483648) :
    ctc_tick_start clocks c = (c.count : Int) - ctc_decby clocks c := by
  unfold ctc_tick_start
  have hd := ctc_decby_of_range clocks c hrange
  have h0 : (0 : Int) ≤ ctc_decby clocks c := by rw [hd]; exact Int.natCast_nonneg _
  have h1 : ctc_decby clocks c < 2147483648 := by rw [hd]; exact_mod_cast hrange
  exact toInt32_of_range _ (by omega) (by omega)

theorem ctc_readd_bounds (c : z80_ctc) (hreload : c.reload < 256) :
    256 ≤ ctc_readd c ∧ ctc_readd c ≤ 65536
    ∧ ctc_readd c = ((if c.reload = 0 then 256 else c.reload : Nat) : Int) * 256 := by
  unfold ctc_readd
  by_cases h : c.reload = 0
  · simp [h]
  · simp only [h, if_false]
    have hpos : 0 < c.reload := Nat.pos_of_ne_zero h
    refine ⟨by omega, by omega, by simp⟩

theorem ctc_passes_pos (n r : Int) (hr : 0 < r) (hn : n < 0) :
    0 < ctc_passes n r ∧ n + ((ctc_passes n r : Int) - 1) * r < 0 := by
  have hs := ctc_passes_spec n r hr
  have hpos : 0 < ctc_passes n r := by
    rcases Nat.eq_zero_or_pos (ctc_passes n r) with h | h
    · have := hs.2
      rw [h] at this
      simp at this
      omega
    · exact h
  refine ⟨hpos, ?_⟩
  have := hs.1 (ctc_passes n r - 1) (by omega)
  have e : ((ctc_passes n r - 1 : Nat) : Int) = (ctc_passes n r : Int) - 1 := by omega
  rw [e] at this
  exact this

theorem ctc_passes_nonneg (n r : Int) (hn : 0 ≤ n) : ctc_passes n r = 0 := by
  unfold ctc_passes
  rw [if_neg (by omega)]

/-- What the loop leaves in `n`: a value in `0 .. r - 1` after at least
one pass, the start value itself without a pass. -/
theorem ctc_passes_residue (n r : Int) (hr : 0 < r) :
    0 ≤ n + ctc_passes n r * r
    ∧ (n < 0 → n + ctc_passes n r * r < r)
    ∧ (0 ≤ n → n + ctc_passes n r * r = n) := by
  refine ⟨(ctc_passes_spec n r hr).2, ?_, ?_⟩
  · intro hn
    have h := (ctc_passes_pos n r hr hn).2
    linarith
  · intro hn
    rw [ctc_passes_nonneg n r hn]
    simp

theorem ctc_passes_ceil (n r : Int) (hr : 0 < r) (hn : n < 0) :
    (ctc_passes n r : Int) = ⌈((-n : Int) : ℚ) / ((r : Int) : ℚ)⌉ := by
  symm
  rw [Int.ceil_eq_iff]
  have hrq : (0 : ℚ) < ((r : Int) : ℚ) := by exact_mod_cast hr
  have h1 := (ctc_passes_pos n r hr hn).2
  have h2 := (ctc_passes_spec n r hr).2
  constructor
  · rw [lt_div_iff₀ hrq]
    have : ((ctc_passes n r : Int) - 1) * r < -n := by linarith
    exact_mod_cast this
  · rw [div_le_iff₀ hrq]
    have : -n ≤ (ctc_passes n r : Int) * r := by linarith
    exact_mod_cast this

/-- The stored count after `ctc_tick` on a running timer channel within
`int` range: the value the loop ends with, below 65536. -/
theorem ctc_tick_count_exact (clocks : Nat) (s : Machine σ υ) (i : Fin 4)
    (hrun : CTC_STOPPED (s.ctc i) = false) (htimer : (s.ctc i).ctrl &&& CTC_COUNTER = 0)
    (hcount : (s.ctc i).count < 65536) (hreload : (s.ctc i).reload < 256)
    (hrange : (if (s.ctc i).ctrl &&& CTC_PRESCALER = 0 then clocks * 16 else clocks)
      < 2147483648) :
    ctc_tick_passes clocks (s.ctc i)
      = ctc_passes ((s.ctc i).count - ctc_decby clocks (s.ctc i)) (ctc_readd (s.ctc i))
    ∧ (((ctc_tick clocks s).ctc i).count : Int)
      = (s.ctc i).count - ctc_decby clocks (s.ctc i)
        + ctc_tick_passes clocks (s.ctc i) * ctc_readd (s.ctc i)
    ∧ ((ctc_tick clocks s).ctc i).count < 65536
    ∧ ((ctc_tick clocks s).ctc i).ctrl = (s.ctc i).ctrl
    ∧ ((ctc_tick clocks s).ctc i).reload = (s.ctc i).reload := by
  have hst := ctc_tick_start_of_range clocks (s.ctc i) hcount hrange
  have hd := ctc_decby_of_range clocks (s.ctc i) hrange
  have hd0 : (0 : Int) ≤ ctc_decby clocks (s.ctc i) := by rw [hd]; exact Int.natCast_nonneg _
  have hrb := ctc_readd_bounds (s.ctc i) hreload
  have hr : 0 < ctc_readd (s.ctc i) := by omega
  have hk : ctc_tick_passes clocks (s.ctc i)
      = ctc_passes ((s.ctc i).count - ctc_decby clocks (s.ctc i)) (ctc_readd (s.ctc i)) := by
    unfold ctc_tick_passes
    rw [hrun, hst]
    simp [htimer]
  have hres := ctc_passes_residue ((s.ctc i).count - ctc_decby clocks (s.ctc i))
    (ctc_readd (s.ctc i)) hr
  rw [← hk] at hres
  have hlt : ((s.ctc i).count : Int) - ctc_decby clocks (s.ctc i)
      + ctc_tick_passes clocks (s.ctc i) * ctc_readd (s.ctc i) < 65536 := by
    by_cases hn : ((s.ctc i).count : Int) - ctc_decby clocks (s.ctc i) < 0
    · have := hres.2.1 hn
      omega
    · have := hres.2.2 (by omega)
      omega
  have hcond : ¬ (CTC_STOPPED (s.ctc i) = true ∨ (s.ctc i).ctrl &&& CTC_COUNTER ≠ 0) := by
    rw [hrun]
    simp [htimer]
  have hc := ctc_tick_ctc clocks s i
  rw [if_neg hcond, hst, toUint16_of_range _ hres.1 hlt] at hc
  rw [hc]
  refine ⟨hk, ?_, ?_, rfl, rfl⟩
  · show ((Int.toNat _ : Nat) : Int) = _
    rw [Int.toNat_of_nonneg hres.1]
  · show Int.toNat _ < 65536
    omega

/-- C24: `ctc_tick` terminates (it is a total function, and its loop ends
after `ctc_tick_passes` passes); for a running timer channel whose scaled
decrement is within `int` range each pass of the re-add loop adds
`R * 256 ≥ 256` (`R` = reload, or 256 when reload is 0) and calls `ctc_pulse`
once, the loop runs exactly `⌈(decrement - countdown) / (R * 256)⌉` times
when the decrement exceeds the countdown and not at all otherwise, and the
count stored afterwards is the value the loop ended with, below 65536. -/
theorem ctc_tick_loop_pass_count (clocks : Nat) (s : Machine σ υ) (i : Fin 4)
    (hrun : CTC_STOPPED (s.ctc i) = false) (htimer : (s.ctc i).ctrl &&& CTC_COUNTER = 0)
    (hcount : (s.ctc i).count < 65536) (hreload : (s.ctc i).reload < 256)
    (hrange : (if (s.ctc i).ctrl &&& CTC_PRESCALER = 0 then clocks * 16 else clocks)
      < 2147483648) :
    ctc_decby clocks (s.ctc i)
      = ((if (s.ctc i).ctrl &&& CTC_PRESCALER = 0 then clocks * 16 else clocks : Nat) : Int)
    ∧ ctc_readd (s.ctc i)
      = ((if (s.ctc i).reload = 0 then 256 else (s.ctc i).reload : Nat) : Int) * 256
    ∧ 256 ≤ ctc_readd (s.ctc i)
    ∧ ctc_tick_loop i ((s.ctc i).count - ctc_decby clocks (s.ctc i)) s
      = ((s.ctc i).count - ctc_decby clocks (s.ctc i)
          + ctc_tick_passes clocks (s.ctc i) * ctc_readd (s.ctc i),
         (ctc_fire i)^[ctc_tick_passes clocks (s.ctc i)] s)
    ∧ (ctc_tick clocks s).pulses.count i.val
      = s.pulses.count i.val + ctc_tick_passes clocks (s.ctc i)
    ∧ (((s.ctc i).count : Int) < ctc_decby clocks (s.ctc i) →
        (ctc_tick_passes clocks (s.ctc i) : Int)
          = ⌈((ctc_decby clocks (s.ctc i) - (s.ctc i).count : Int) : ℚ)
              / ((((if (s.ctc i).reload = 0 then 256 else (s.ctc i).reload : Nat) : Int)
                  * 256 : Int) : ℚ)⌉)
    ∧ (ctc_decby clocks (s.ctc i) ≤ ((s.ctc i).count : Int) →
        ctc_tick_passes clocks (s.ctc i) = 0)
    ∧ (((ctc_tick clocks s).ctc i).count : Int)
      = (s.ctc i).count - ctc_decby clocks (s.ctc i)
        + ctc_tick_passes clocks (s.ctc i) * ctc_readd (s.ctc i)
    ∧ ((ctc_tick clocks s).ctc i).count < 65536 := by
  have hx := ctc_tick_count_exact clocks s i hrun htimer hcount hreload hrange
  have hrb := ctc_readd_bounds (s.ctc i) hreload
  have hr : 0 < ctc_readd (s.ctc i) := by omega
  refine ⟨ctc_decby_of_range clocks (s.ctc i) hrange, hrb.2.2, hrb.1, ?_,
    ctc_tick_pulses_count clocks s i, ?_, ?_, hx.2.1, hx.2.2.1⟩
  · rw [ctc_tick_loop_closed, hx.1]
  · intro hlt
    rw [hx.1, ← hrb.2.2]
    have hn : ((s.ctc i).count : Int) - ctc_decby clocks (s.ctc i) < 0 := by omega
    rw [ctc_passes_ceil _ _ hr hn]
    congr 3
    ring
  · intro hle
    rw [hx.1]
    exact ctc_passes_nonneg _ _ (by omega)

/-- Instance: count 0x0300, reload 2, prescale 256; 1000 clocks exceed the
count by 232, the loop runs once and leaves 280. -/
theorem ctc_tick_loop_pass_count_witness :
    CTC_STOPPED (runningInput.ctc 0) = false
    ∧ (runningInput.ctc 0).ctrl &&& CTC_COUNTER = 0
    ∧ (runningInput.ctc 0).count < 65536 ∧ (runningInput.ctc 0).reload < 256
    ∧ ctc_tick_passes 1000 (runningInput.ctc 0) = 1
    ∧ (ctc_tick 1000 runningInput).pulses.count 0 = 1
    ∧ (((ctc_tick 1000 runningInput).ctc 0).count : Int) = 280 :=
  have h := ctc_tick_loop_pass_count 1000 runningInput 0 (by decide) (by decide) (by decide)
    (by decide) (by decide)
  have hk : ctc_tick_passes 1000 (runningInput.ctc 0) = 1 := by decide
  ⟨by decide, by decide, by decide, by decide, hk,
   by
    have h5 := h.2.2.2.2.1
    rw [hk] at h5
    exact h5,
   by
    have h8 := h.2.2.2.2.2.2.2.1
    rw [hk] at h8
    rw [h8]
    decide⟩

/-! ## Splitting a time slice -/

theorem ctc_passes_add (n r da db : Int) (hr : 0 < r) (hdb : 0 ≤ db) :
    ctc_passes (n - (da + db)) r
      = ctc_passes (n - da) r + ctc_passes (n - da + ctc_passes (n - da) r * r - db) r := by
  have ha := ctc_passes_spec (n - da) r hr
  have hb := ctc_passes_spec (n - da + ctc_passes (n - da) r * r - db) r hr
  apply ctc_passes_unique _ r hr
  · intro j hj
    by_cases hja : j < ctc_passes (n - da) r
    · have := ha.1 j hja
      linarith
    · have hj2 : j - ctc_passes (n - da) r
          < ctc_passes (n - da + ctc_passes (n - da) r * r - db) r := by omega
      have h := hb.1 _ hj2
      have e : ((j - ctc_passes (n - da) r : Nat) : Int) = (j : Int) - ctc_passes (n - da) r := by
        omega
      rw [e] at h
      have e2 : n - (da + db) + (j : Int) * r
          = n - da + ctc_passes (n - da) r * r - db
            + ((j : Int) - ctc_passes (n - da) r) * r := by ring
      rw [e2]
      exact h
  · have e2 : n - (da + db) + ((ctc_passes (n - da) r
          + ctc_passes (n - da + ctc_passes (n - da) r * r - db) r : Nat) : Int) * r
        = n - da + ctc_passes (n - da) r * r - db
          + ctc_passes (n - da + ctc_passes (n - da) r * r - db) r * r := by
      push_cast
      ring
    rw [e2]
    exact hb.2

theorem ctc_tick_passes_idle (clocks : Nat) (c : z80_ctc)
    (h : CTC_STOPPED c = true ∨ c.ctrl &&& CTC_COUNTER ≠ 0) : ctc_tick_passes clocks c = 0 := by
  unfold ctc_tick_passes
  rcases h with h | h
  · simp [h]
  · simp [h]

theorem z80_ctc_eq (c d : z80_ctc) (h1 : c.count = d.count) (h2 : c.reload = d.reload)
    (h3 : c.vector = d.vector) (h4 : c.ctrl = d.ctrl) (h5 : c.irq = d.irq) : c = d := by
  cases c
  cases d
  simp only [z80_ctc.mk.injEq]
  exact ⟨h1, h2, h3, h4, h5⟩

/-- One channel over a split time slice: the passes add up and the channel
record ends the same. -/
theorem ctc_tick_chan_split (s : Machine σ υ) (i : Fin 4) (a b : Nat)
    (hcount : (s.ctc i).count < 65536) (hreload : (s.ctc i).reload < 256)
    (hrange : (if (s.ctc i).ctrl &&& CTC_PRESCALER = 0 then (a + b) * 16 else a + b)
      < 2147483648) :
    ctc_tick_passes (a + b) (s.ctc i)
      = ctc_tick_passes a (s.ctc i) + ctc_tick_passes b ((ctc_tick a s).ctc i)
    ∧ (ctc_tick b (ctc_tick a s)).ctc i = (ctc_tick (a + b) s).ctc i := by
  have hf1 := ctc_tick_ctrl a s i
  have hf2 := ctc_tick_ctrl b (ctc_tick a s) i
  have hf3 := ctc_tick_ctrl (a + b) s i
  have hstop : CTC_STOPPED ((ctc_tick a s).ctc i) = CTC_STOPPED (s.ctc i) := by
    unfold CTC_STOPPED
    rw [hf1.1]
  by_cases hcond : CTC_STOPPED (s.ctc i) = true ∨ (s.ctc i).ctrl &&& CTC_COUNTER ≠ 0
  · have hcond1 : CTC_STOPPED ((ctc_tick a s).ctc i) = true
        ∨ ((ctc_tick a s).ctc i).ctrl &&& CTC_COUNTER ≠ 0 := by
      rw [hstop, hf1.1]; exact hcond
    rw [ctc_tick_passes_idle _ _ hcond, ctc_tick_passes_idle _ _ hcond,
      ctc_tick_passes_idle _ _ hcond1]
    refine ⟨rfl, ?_⟩
    rw [ctc_tick_ctc b, if_pos hcond1, ctc_tick_ctc a, if_pos hcond, ctc_tick_ctc (a + b),
      if_pos hcond]
  · have hrun : CTC_STOPPED (s.ctc i) = false := by
      cases h : CTC_STOPPED (s.ctc i)
      · rfl
      · exact absurd (Or.inl h) hcond
    have htimer : (s.ctc i).ctrl &&& CTC_COUNTER = 0 := by
      by_contra h
      exact hcond (Or.inr h)
    have hd := ctc_decby_add a b (s.ctc i) hrange
    have hxa := ctc_tick_count_exact a s i hrun htimer hcount hreload hd.2.2.2.1
    have hdb1 : ctc_decby b ((ctc_tick a s).ctc i) = ctc_decby b (s.ctc i) := by
      unfold ctc_decby
      rw [hf1.1]
    have hr1 : ctc_readd ((ctc_tick a s).ctc i) = ctc_readd (s.ctc i) := by
      unfold ctc_readd
      rw [hf1.2.1]
    have hxb := ctc_tick_count_exact b (ctc_tick a s) i (by rw [hstop]; exact hrun)
      (by rw [hf1.1]; exact htimer) hxa.2.2.1 (by rw [hf1.2.1]; exact hreload)
      (by rw [hf1.1]; exact hd.2.2.2.2)
    have hxab := ctc_tick_count_exact (a + b) s i hrun htimer hcount hreload hrange
    have hr : 0 < ctc_readd (s.ctc i) := ctc_readd_pos _
    have hadd := ctc_passes_add ((s.ctc i).count) (ctc_readd (s.ctc i))
      (ctc_decby a (s.ctc i)) (ctc_decby b (s.ctc i)) hr hd.2.2.1
    have hpass : ctc_tick_passes (a + b) (s.ctc i)
        = ctc_tick_passes a (s.ctc i) + ctc_tick_passes b ((ctc_tick a s).ctc i) := by
      rw [hxab.1, hd.1, hadd, hxb.1, hxa.2.1, hdb1, hr1, ← hxa.1]
    refine ⟨hpass, ?_⟩
    apply z80_ctc_eq
    · have e1 := hxb.2.1
      have e2 := hxab.2.1
      rw [hxa.2.1, hdb1, hr1] at e1
      rw [hpass, hd.1] at e2
      have : (((ctc_tick b (ctc_tick a s)).ctc i).count : Int)
          = (((ctc_tick (a + b) s).ctc i).count : Int) := by
        rw [e1, e2]
        push_cast
        ring
      exact_mod_cast this
    · rw [hf2.2.1, hf1.2.1, hf3.2.1]
    · rw [hf2.2.2.1, hf1.2.2.1, hf3.2.2.1]
    · rw [hf2.1, hf1.1, hf3.1]
    · rw [hf2.2.2.2, hf1.2.2.2, hf3.2.2.2]

theorem ctc_tick_pending_high (clocks : Nat) (s : Machine σ υ) (j : Nat) (h4 : 4 ≤ j)
    (h8 : j < 8) : pending (ctc_tick clocks s) j = pending s j := by
  have e : ∀ i : Fin 4, decide (i.val = j) = false := by
    intro i
    have := i.isLt
    simp only [decide_eq_false_iff_not]
    omega
  unfold ctc_tick
  rw [ctc_tick_chan_pending _ _ _ _ h8, ctc_tick_chan_pending _ _ _ _ h8,
    ctc_tick_chan_pending _ _ _ _ h8, ctc_tick_chan_pending _ _ _ _ h8]
  simp only [e, Bool.false_and, Bool.and_false, Bool.or_false]

/-- C22: for every CTC state (counts within 16 bits, reloads within 8 bits,
pending mask within a byte) and all tick counts `a` and `b` whose scaled sum
is within `int` range, `ctc_tick(a)` followed by `ctc_tick(b)` leaves every
channel record (its countdown included), every channel's number of
`ctc_pulse` calls and the pending mask equal to those after a single
`ctc_tick(a + b)`. -/
theorem ctc_tick_split (s : Machine σ υ) (a b : Nat)
    (hwf : ∀ i : Fin 4, (s.ctc i).count < 65536 ∧ (s.ctc i).reload < 256)
    (hmask : s.ctc_irqmask < 256)
    (hrange : ∀ i : Fin 4,
      (if (s.ctc i).ctrl &&& CTC_PRESCALER = 0 then (a + b) * 16 else a + b) < 2147483648) :
    (∀ i : Fin 4, (ctc_tick b (ctc_tick a s)).ctc i = (ctc_tick (a + b) s).ctc i)
    ∧ (∀ i : Fin 4, (ctc_tick b (ctc_tick a s)).pulses.count i.val
        = (ctc_tick (a + b) s).pulses.count i.val)
    ∧ (ctc_tick b (ctc_tick a s)).ctc_irqmask = (ctc_tick (a + b) s).ctc_irqmask := by
  have hch := fun i => ctc_tick_chan_split s i a b (hwf i).1 (hwf i).2 (hrange i)
  refine ⟨fun i => (hch i).2, ?_, ?_⟩
  · intro i
    rw [ctc_tick_pulses_count, ctc_tick_pulses_count, ctc_tick_pulses_count, (hch i).1]
    omega
  · have h8 : (256 : Nat) = 2 ^ 8 := by norm_num
    rw [h8] at hmask
    have m1 := ctc_tick_mask_lt b _ 8 (by decide) (ctc_tick_mask_lt a s 8 (by decide) hmask)
    have m2 := ctc_tick_mask_lt (a + b) s 8 (by decide) hmask
    apply Nat.eq_of_testBit_eq
    intro j
    rw [← pending_eq_testBit, ← pending_eq_testBit]
    by_cases hj4 : j < 4
    · have p1 := ctc_tick_pending b (ctc_tick a s) ⟨j, hj4⟩
      have p2 := ctc_tick_pending a s ⟨j, hj4⟩
      have p3 := ctc_tick_pending (a + b) s ⟨j, hj4⟩
      simp only at p1 p2 p3
      rw [p1, p2, p3, (hch ⟨j, hj4⟩).1, (ctc_tick_ctrl a s ⟨j, hj4⟩).1]
      cases pending s j <;> cases decide ((s.ctc ⟨j, hj4⟩).ctrl &&& CTC_IRQ ≠ 0)
        <;> simp
    · by_cases hj8 : j < 8
      · rw [ctc_tick_pending_high _ _ j (by omega) hj8,
          ctc_tick_pending_high _ _ j (by omega) hj8,
          ctc_tick_pending_high _ _ j (by omega) hj8]
      · have hle : 2 ^ 8 ≤ 2 ^ j := Nat.pow_le_pow_right (by decide) (by omega)
        rw [pending_eq_testBit, pending_eq_testBit,
          Nat.testBit_lt_two_pow (lt_of_lt_of_le m1 hle),
          Nat.testBit_lt_two_pow (lt_of_lt_of_le m2 hle)]

/-- Instance: count 0x0300, reload 2, prescale 256 on every channel; 1000
clocks and then 500 clocks end as 1500 clocks do. -/
theorem ctc_tick_split_witness :
    (∀ i : Fin 4, (runningInput.ctc i).count < 65536 ∧ (runningInput.ctc i).reload < 256)
    ∧ runningInput.ctc_irqmask < 256
    ∧ (ctc_tick 500 (ctc_tick 1000 runningInput)).ctc 0 = (ctc_tick (1000 + 500) runningInput).ctc 0
    ∧ (ctc_tick 500 (ctc_tick 1000 runningInput)).pulses.count 0
        = (ctc_tick (1000 + 500) runningInput).pulses.count 0
    ∧ (ctc_tick 500 (ctc_tick 1000 runningInput)).ctc_irqmask
        = (ctc_tick (1000 + 500) runningInput).ctc_irqmask :=
  have h := ctc_tick_split runningInput 1000 500 (by decide) (by decide) (by decide)
  ⟨by decide, by decide, h.1 0, h.2.1 0, h.2.2⟩

end M2063
